import Mathlib

/-!
Verification of the cpdup replication engine (DragonFly `bin/cpdup/cpdup.c`,
shipped in this repository inside `src/contrib/lvm2/dist/man/vgchange.8.in`
after the document separator).

The development is a shallow embedding: each C function that the claims
mention is translated into an executable Lean definition operating on an
explicit model of the filesystem objects and of the global tables, and the
claims are proved or refuted about those definitions.

Conventions used throughout:
 * C strings are `String`/`List Char` values holding the characters before
   the terminating NUL (the strings handled by cpdup never contain NUL).
 * `dev_t`, `ino_t`, uids, gids, modes and times are `Nat` (they are only
   compared for equality); `dev_t` parameters that the code tests with
   `(int)devNo < 0` are `Int`.
 * the success/failure of host I/O is part of the model: in the tree model
   every host operation succeeds except where the filesystem itself forces
   a failure (`rmdir` of a non-empty directory, `remove`/`unlink` of a
   directory, `rename`ing a non-directory over a directory, `open` with
   `O_EXCL` on an existing name, `symlink`/`mknod` on an existing name).
-/

namespace Cpdup

/-! ## WildCmp (cpdup.c lines 1384-1424)

`WildCmp(w, s)` walks the pattern `w` and subject `s` in lock step:
`?` consumes exactly one subject character, `*` tries every suffix of the
remaining subject against the rest of the pattern (`for (i = 0; i <= l; ++i)`),
any other character must match literally, and the NUL terminators must
coincide.  Return value is 0 on success, -1 on failure.

The embedding is fuel-indexed so that it is structurally recursive and
computes inside the kernel; `wildCmp` instantiates the fuel at the bound
`w.length + s.length + 1`, which is proved sufficient below (claim C9). -/

/-- The `case '*'` loop of `WildCmp`: try the continuation `k` on every
suffix of `s` in order (`for (i = 0; i <= l; ++i)`), returning 0 at the
first success and -1 when the empty suffix also failed.  A `none` from the
continuation (fuel exhaustion) aborts the scan. -/
def starLoop (k : List Char → Option Int) : List Char → Option Int
  | [] =>
    match k [] with
    | none => none
    | some z => if z = 0 then some 0 else some (-1)
  | c :: s' =>
    match k (c :: s') with
    | none => none
    | some z => if z = 0 then some 0 else starLoop k s'

/-- Fueled `WildCmp`.  `none` means the fuel ran out; with the fuel used by
`wildCmp` below this never happens.  The three `switch` arms of the C code
appear as the three branches of the `if` chain. -/
def wildCmpF : Nat → List Char → List Char → Option Int
  | 0, _, _ => none
  | f + 1, w, s =>
    match w with
    | [] =>
      -- default case at the pattern terminator: `*w != *s` fails unless
      -- `s` is also exhausted; `*w == 0` then succeeds
      match s with
      | [] => some 0
      | _ :: _ => some (-1)
    | c :: w' =>
      if c = '*' then
        if w' = [] then some 0      -- optimize wild* case
        else starLoop (wildCmpF f w') s
      else if c = '?' then
        match s with
        | [] => some (-1)           -- `?` needs one character
        | _ :: s' => wildCmpF f w' s'
      else
        match s with
        | [] => some (-1)
        | c' :: s' => if c = c' then wildCmpF f w' s' else some (-1)

/-- `WildCmp` as a total function, fuel instantiated at a sufficient bound. -/
def wildCmp (w s : List Char) : Int :=
  (wildCmpF (w.length + s.length + 1) w s).getD (-1)

/-- `WildCmp` on `String`s, as used by `AddList`. -/
def wildCmpS (w s : String) : Int :=
  wildCmp w.data s.data

/-- The language the spec ascribes to a pattern: `?` matches exactly one
character, `*` matches any (possibly empty) run, every other character
matches only itself, and pattern and subject must be exhausted together. -/
inductive GlobLang : List Char → List Char → Prop
  | nil : GlobLang [] []
  | lit {c : Char} {w s : List Char} :
      c ≠ '*' → c ≠ '?' → GlobLang w s → GlobLang (c :: w) (c :: s)
  | one {c : Char} {w s : List Char} :
      GlobLang w s → GlobLang ('?' :: w) (c :: s)
  | star {w s : List Char} (t : List Char) :
      GlobLang w s → GlobLang ('*' :: w) (t ++ s)

/-! Fuel sufficiency and fuel irrelevance for `wildCmpF`. -/

theorem starLoop_isSome (k : List Char → Option Int) :
    ∀ s : List Char, (∀ u : List Char, u.length ≤ s.length → (k u).isSome) →
      (starLoop k s).isSome := by
  intro s
  induction s with
  | nil =>
    intro h
    have h0 := h [] (by simp)
    unfold starLoop
    rcases hk : k [] with _ | z
    · rw [hk] at h0; simp at h0
    · by_cases hz : z = 0 <;> simp [hk, hz]
  | cons c s' ih =>
    intro h
    have h0 := h (c :: s') (by simp)
    unfold starLoop
    rcases hk : k (c :: s') with _ | z
    · rw [hk] at h0; simp at h0
    · by_cases hz : z = 0
      · simp [hk, hz]
      · have := ih (fun u hu => h u (by simpa using Nat.le_succ_of_le hu))
        simp [hk, hz, this]

theorem wildCmpF_isSome :
    ∀ f w s, List.length w + List.length s < f → (wildCmpF f w s).isSome := by
  intro f
  induction f with
  | zero => intro w s h; omega
  | succ f ih =>
    intro w s h
    match w with
    | [] => cases s <;> simp [wildCmpF]
    | c :: w' =>
      by_cases h1 : c = '*'
      · by_cases hw : w' = []
        · simp [wildCmpF, h1, hw]
        · have : (starLoop (wildCmpF f w') s).isSome := by
            apply starLoop_isSome
            intro u hu
            apply ih
            simp only [List.length_cons] at h
            omega
          simpa [wildCmpF, h1, hw] using this
      · by_cases h2 : c = '?'
        · match s with
          | [] => simp [wildCmpF, h1, h2]
          | c' :: s' =>
            have : (wildCmpF f w' s').isSome := by
              apply ih; simp only [List.length_cons] at h; omega
            simpa [wildCmpF, h1, h2] using this
        · match s with
          | [] => simp [wildCmpF, h1, h2]
          | c' :: s' =>
            have hrec : (wildCmpF f w' s').isSome := by
              apply ih; simp only [List.length_cons] at h; omega
            by_cases h3 : c = c'
            · subst h3; simp [wildCmpF, h1, h2, hrec]
            · simp [wildCmpF, h1, h2, h3]

theorem starLoop_congr (k k' : List Char → Option Int) :
    ∀ s : List Char, (∀ u : List Char, u.length ≤ s.length → k u = k' u) →
      starLoop k s = starLoop k' s := by
  intro s
  induction s with
  | nil =>
    intro h
    unfold starLoop
    rw [h [] (by simp)]
  | cons c s' ih =>
    intro h
    unfold starLoop
    rw [h (c :: s') (by simp)]
    have := ih (fun u hu => h u (by simpa using Nat.le_succ_of_le hu))
    rcases k' (c :: s') with _ | z <;> simp [this]

theorem wildCmpF_irrel :
    ∀ f f' w s, List.length w + List.length s < f →
      List.length w + List.length s < f' → wildCmpF f w s = wildCmpF f' w s := by
  intro f
  induction f with
  | zero => intro f' w s h; omega
  | succ f ih =>
    intro f' w s h h'
    cases f' with
    | zero => omega
    | succ f' =>
      match w with
      | [] => cases s <;> simp [wildCmpF]
      | c :: w' =>
        by_cases h1 : c = '*'
        · by_cases hw : w' = []
          · simp [wildCmpF, h1, hw]
          · simp only [wildCmpF, h1, if_true, hw, if_false]
            apply starLoop_congr
            intro u hu
            apply ih
            · simp only [List.length_cons] at h; omega
            · simp only [List.length_cons] at h'; omega
        · by_cases h2 : c = '?'
          · match s with
            | [] => simp [wildCmpF, h1, h2]
            | c' :: s' =>
              simp only [wildCmpF, h1, h2, if_false, if_true]
              apply ih
              · simp only [List.length_cons] at h; omega
              · simp only [List.length_cons] at h'; omega
          · match s with
            | [] => simp [wildCmpF, h1, h2]
            | c' :: s' =>
              by_cases h3 : c = c'
              · subst h3
                simp only [wildCmpF, h1, h2, if_false, if_true, if_pos rfl]
                apply ih
                · simp only [List.length_cons] at h; omega
                · simp only [List.length_cons] at h'; omega
              · simp [wildCmpF, h1, h2, h3]

/-- With sufficient fuel, `wildCmpF` computes exactly `wildCmp`. -/
theorem wildCmpF_eq_wildCmp (f : Nat) (w s : List Char)
    (h : List.length w + List.length s < f) :
    wildCmpF f w s = some (wildCmp w s) := by
  have hs := wildCmpF_isSome (w.length + s.length + 1) w s (by omega)
  rcases ho : wildCmpF (w.length + s.length + 1) w s with _ | z
  · rw [ho] at hs; simp at hs
  · have := wildCmpF_irrel f (w.length + s.length + 1) w s h (by omega)
    rw [this, ho]
    simp [wildCmp, ho]

/-! Soundness and completeness of the matcher against `GlobLang`. -/

theorem starLoop_eq_zero_split (k : List Char → Option Int) :
    ∀ s : List Char, starLoop k s = some 0 →
      ∃ pre suf : List Char, s = pre ++ suf ∧ k suf = some 0 := by
  intro s
  induction s with
  | nil =>
    intro h
    refine ⟨[], [], rfl, ?_⟩
    unfold starLoop at h
    split at h
    · simp at h
    · rename_i z hk
      split at h
      · rename_i hz; rw [hz] at hk; exact hk
      · simp at h
  | cons c s' ih =>
    intro h
    unfold starLoop at h
    split at h
    · simp at h
    · rename_i z hk
      split at h
      · rename_i hz; exact ⟨[], c :: s', rfl, by rw [hk, hz]⟩
      · obtain ⟨pre, suf, hsplit, hsuf⟩ := ih h
        exact ⟨c :: pre, suf, by simp [hsplit], hsuf⟩

theorem starLoop_of_zero (k : List Char → Option Int) (s : List Char)
    (h : k s = some 0) : starLoop k s = some 0 := by
  cases s with
  | nil => unfold starLoop; rw [h]; simp
  | cons c s' => unfold starLoop; rw [h]; simp

theorem starLoop_hit (k : List Char → Option Int) :
    ∀ pre suf : List Char,
      (∀ u : List Char, u.length ≤ (pre ++ suf).length → (k u).isSome) →
      k suf = some 0 → starLoop k (pre ++ suf) = some 0 := by
  intro pre
  induction pre with
  | nil =>
    intro suf _ hsuf
    rw [List.nil_append]
    exact starLoop_of_zero k suf hsuf
  | cons c pre' ih =>
    intro suf hall hsuf
    have hrest : starLoop k (pre' ++ suf) = some 0 := by
      apply ih suf _ hsuf
      intro u hu
      apply hall
      simp only [List.cons_append, List.length_cons, List.length_append] at hu ⊢
      omega
    have hsome := hall (c :: (pre' ++ suf)) (by simp)
    rcases hk : k (c :: (pre' ++ suf)) with _ | z
    · rw [hk] at hsome; simp at hsome
    · rw [List.cons_append]
      unfold starLoop
      rw [hk]
      by_cases hz : z = 0 <;> simp [hz, hrest]

theorem wildCmpF_sound :
    ∀ f w s, wildCmpF f w s = some 0 → GlobLang w s := by
  intro f
  induction f with
  | zero => intro w s h; simp [wildCmpF] at h
  | succ f ih =>
    intro w s h
    match w with
    | [] =>
      cases s with
      | nil => exact GlobLang.nil
      | cons c s' => simp [wildCmpF] at h
    | c :: w' =>
      by_cases h1 : c = '*'
      · subst h1
        by_cases hw : w' = []
        · subst hw
          have : GlobLang ('*' :: ([] : List Char)) (s ++ []) :=
            GlobLang.star s GlobLang.nil
          simpa using this
        · simp only [wildCmpF, if_pos rfl, hw, if_false] at h
          obtain ⟨pre, suf, hsplit, hsuf⟩ := starLoop_eq_zero_split _ s h
          subst hsplit
          exact GlobLang.star pre (ih _ _ hsuf)
      · by_cases h2 : c = '?'
        · subst h2
          cases s with
          | nil => simp [wildCmpF] at h
          | cons c' s' =>
            simp only [wildCmpF, h1, if_false, if_pos rfl] at h
            exact GlobLang.one (ih _ _ h)
        · cases s with
          | nil => simp [wildCmpF, h1, h2] at h
          | cons c' s' =>
            by_cases h3 : c = c'
            · subst h3
              simp only [wildCmpF, h1, h2, if_false, if_pos rfl] at h
              exact GlobLang.lit h1 h2 (ih _ _ h)
            · simp [wildCmpF, h1, h2, h3] at h

theorem wildCmpF_complete {w s : List Char} (hl : GlobLang w s) :
    ∀ f, List.length w + List.length s < f → wildCmpF f w s = some 0 := by
  induction hl with
  | nil =>
    intro f hf
    cases f with
    | zero => omega
    | succ f => simp [wildCmpF]
  | lit h1 h2 _ ih =>
    intro f hf
    cases f with
    | zero => omega
    | succ f =>
      simp only [wildCmpF, h1, h2, if_false, if_pos rfl]
      apply ih
      simp only [List.length_cons] at hf
      omega
  | one _ ih =>
    intro f hf
    cases f with
    | zero => omega
    | succ f =>
      have hq : ¬('?' : Char) = '*' := by decide
      simp only [wildCmpF, hq, if_false, if_pos rfl]
      apply ih
      simp only [List.length_cons] at hf
      omega
  | @star w' s' t _ ih =>
    intro f hf
    cases f with
    | zero => omega
    | succ f =>
      simp only [wildCmpF, if_pos rfl]
      by_cases hw : w' = []
      · simp [hw]
      · rw [if_neg hw]
        apply starLoop_hit
        · intro u hu
          apply wildCmpF_isSome
          simp only [List.length_cons, List.length_append] at hf hu
          omega
        · apply ih
          simp only [List.length_cons, List.length_append] at hf
          omega

/-- **C7**: for every pattern `w` and subject `s`, `WildCmp w s` succeeds
(returns 0) exactly when `s` is in the language of `w`: `?` matches one
character, `*` matches any possibly-empty run, any other character matches
only itself, and pattern and subject must be exhausted together. -/
theorem c7_wildcmp_matches_glob_language (w s : List Char) :
    wildCmp w s = 0 ↔ GlobLang w s := by
  constructor
  · intro h
    have hs := wildCmpF_isSome (w.length + s.length + 1) w s (by omega)
    rcases ho : wildCmpF (w.length + s.length + 1) w s with _ | z
    · rw [ho] at hs; simp at hs
    · have hz : z = 0 := by
        rw [wildCmp, ho] at h; simpa using h
      exact wildCmpF_sound _ _ _ (by rw [ho, hz])
  · intro h
    have := wildCmpF_complete h (w.length + s.length + 1) (by omega)
    rw [wildCmp, this]
    rfl

/-- **C9**: `WildCmp` terminates on every pair of finite strings: any fuel
above `|w| + |s|` is enough for the fueled matcher to return a value, and
that value is independent of the fuel — the `*` recursion always works on a
strictly shorter pattern, so the measure `|w| + |s|` bounds the recursion
depth and the matcher is a total function. -/
theorem c9_wildcmp_terminates (f : Nat) (w s : List Char)
    (h : List.length w + List.length s < f) :
    wildCmpF f w s = some (wildCmp w s) := by
  have hs := wildCmpF_isSome (w.length + s.length + 1) w s (by omega)
  rcases ho : wildCmpF (w.length + s.length + 1) w s with _ | z
  · rw [ho] at hs; simp at hs
  · have := wildCmpF_irrel f (w.length + s.length + 1) w s h (by omega)
    rw [this, ho]
    simp [wildCmp, ho]

/-- Witness for C9 at a concrete input: pattern `a*`, subject `abc`. -/
theorem c9_wildcmp_terminates_witness :
    wildCmpF 9 ['a', '*'] ['a', 'b', 'c'] =
      some (wildCmp ['a', '*'] ['a', 'b', 'c']) :=
  c9_wildcmp_terminates 9 ['a', '*'] ['a', 'b', 'c'] (by decide)

/-! ## IgnoreList: InitList / AddList (cpdup.c lines 1290-1376)

The C `List` is a hash table: bucket 0 is reserved for names containing a
wildcard character (`shash` returns 0 for them), the other buckets hold
literal names keyed by a string hash.  `AddList` first scans bucket 0
(exact string match, or — when the caller's tag is not 1 — any tag-1
wildcard pattern accepted by `WildCmp`), then scans the literal bucket for
an exact match, and inserts the name with the caller's tag when nothing
matched, returning the stored or inserted tag.

The embedding keeps the entries as one insertion-ordered list (newest
first, as the C code prepends to each bucket): since equal names are
always in the same bucket and unequal literal names never satisfy
`strcmp`, scanning the whole list for the wildcard pass and then for the
exact pass is observably the same as scanning the two buckets.  The model
assumes no literal name happens to hash to bucket 0 (a numeric accident
of `shash` that merely lets the wildcard pass see the literal's exact
match earlier; no claim concerns hash collisions). -/

/-- A name contains one of the wildcard characters `? * { } [ ] |` —
exactly the condition making `shash` return 0. -/
def isWildStr (s : String) : Bool :=
  s.data.any fun c =>
    c == '?' || c == '*' || c == '{' || c == '}' ||
    c == '[' || c == ']' || c == '|'

/-- The bucket-0 scan of `AddList`: exact match, or a tag-1 wildcard
pattern matching `name` when the caller's tag `n` is not 1. -/
def wildPass (name : String) (n : Nat) : List (String × Nat) → Option Nat
  | [] => none
  | (nm, v) :: rest =>
    if isWildStr nm ∧ (nm = name ∨ (n ≠ 1 ∧ v = 1 ∧ wildCmpS nm name = 0)) then
      some v
    else wildPass name n rest

/-- The literal-bucket scan of `AddList`: exact match only. -/
def exactPass (name : String) : List (String × Nat) → Option Nat
  | [] => none
  | (nm, v) :: rest => if nm = name then some v else exactPass name rest

/-- `AddList(list, name, n)`: return the tag of the first match, else
insert `(name, n)` and return `n`. -/
def addList (list : List (String × Nat)) (name : String) (n : Nat) :
    Nat × List (String × Nat) :=
  match wildPass name n list with
  | some v => (v, list)
  | none =>
    match exactPass name list with
    | some v => (v, list)
    | none => (n, (name, n) :: list)

/-! ## The filesystem model

A filesystem object carries the metadata cpdup reads and writes (mode
permission bits, uid, gid, mtime, BSD flags, and the device it lives on)
plus its kind-specific payload.  The tree model represents each regular
file as its own inode: `st_nlink` is always 1 and inode numbers are not
modelled, so the hardlink branch of `DoCopy` (lines 644-708, guarded by
`st_nlink > 1`) is unreachable in the tree; that branch is modelled
separately below (`hlStep`) together with the hardlink table. -/

inductive FType where
  | freg | fdir | flnk | fchr | fblk | foth
  /-- stands for the `st_mode = 0` placeholder stored when `lstat` fails -/
  | fnone
  deriving DecidableEq, Repr

/-- `st_mode`: the file type bits and the permission bits. -/
structure Mode where
  ftype : FType
  perm : Nat
  deriving DecidableEq, Repr

structure Meta where
  perm : Nat
  uid : Nat
  gid : Nat
  mtime : Nat
  flags : Nat
  dev : Nat
  deriving DecidableEq, Repr

mutual
inductive FObj where
  | reg (meta : Meta) (content : List Nat)
  | dir (meta : Meta) (ents : Ents)
  | sym (meta : Meta) (target : String)
  | dev (meta : Meta) (isChr : Bool) (rdev : Nat)
  | oth (meta : Meta)
  deriving DecidableEq, Repr
inductive Ents where
  | nil
  | cons (name : String) (obj : FObj) (rest : Ents)
  deriving DecidableEq, Repr
end

def FObj.meta : FObj → Meta
  | .reg m _ => m
  | .dir m _ => m
  | .sym m _ => m
  | .dev m _ _ => m
  | .oth m => m

def Ents.lookup : Ents → String → Option FObj
  | .nil, _ => none
  | .cons n o rest, name => if n = name then some o else rest.lookup name

/-- Replace (`some`) or delete (`none`) the entry called `name`; a new
entry is appended at the end (directory order only affects processing
order, never the final state). -/
def Ents.set : Ents → String → Option FObj → Ents
  | .nil, _, none => .nil
  | .nil, name, some o => .cons name o .nil
  | .cons n o rest, name, v =>
    if n = name then
      match v with
      | none => rest
      | some o' => .cons n o' rest
    else .cons n o (rest.set name v)

def Ents.names : Ents → List String
  | .nil => []
  | .cons n _ rest => n :: rest.names

def Ents.size : Ents → Nat
  | .nil => 0
  | .cons _ _ rest => 1 + rest.size

/-- The result of `lstat`. -/
structure Stat where
  mode : Mode
  uid : Nat
  gid : Nat
  size : Nat
  mtime : Nat
  nlink : Nat
  ino : Nat
  rdev : Nat
  dev : Nat
  flags : Nat
  deriving DecidableEq, Repr

/-- The `st2` placeholder when the destination `lstat` fails: the code
initialises `st_mode = 0` and `st_flags = 0`; the model fixes the other
(uninitialised in C) fields at 0 as well. -/
def statNone : Stat :=
  { mode := ⟨.fnone, 0⟩, uid := 0, gid := 0, size := 0, mtime := 0,
    nlink := 1, ino := 0, rdev := 0, dev := 0, flags := 0 }

/-- `lstat` on a tree object.  `st_size` is the content length for regular
files and the target length for symlinks (the values the code actually
compares); inode numbers are not modelled and `st_nlink` is 1 (see above). -/
def lstatOf : FObj → Stat
  | .reg m c =>
    { mode := ⟨.freg, m.perm⟩, uid := m.uid, gid := m.gid, size := c.length,
      mtime := m.mtime, nlink := 1, ino := 0, rdev := 0, dev := m.dev,
      flags := m.flags }
  | .dir m _ =>
    { mode := ⟨.fdir, m.perm⟩, uid := m.uid, gid := m.gid, size := 0,
      mtime := m.mtime, nlink := 1, ino := 0, rdev := 0, dev := m.dev,
      flags := m.flags }
  | .sym m t =>
    { mode := ⟨.flnk, m.perm⟩, uid := m.uid, gid := m.gid, size := t.length,
      mtime := m.mtime, nlink := 1, ino := 0, rdev := 0, dev := m.dev,
      flags := m.flags }
  | .dev m isChr r =>
    { mode := ⟨if isChr then .fchr else .fblk, m.perm⟩, uid := m.uid,
      gid := m.gid, size := 0, mtime := m.mtime, nlink := 1, ino := 0,
      rdev := r, dev := m.dev, flags := m.flags }
  | .oth m =>
    { mode := ⟨.foth, m.perm⟩, uid := m.uid, gid := m.gid, size := 0,
      mtime := m.mtime, nlink := 1, ino := 0, rdev := 0, dev := m.dev,
      flags := m.flags }

/-- Destination-host mutations, recorded so that frame claims (C10) can be
stated; the constructor names follow the host operations. -/
inductive Ev where
  | evRemove | evMkdir | evRmdir | evRename | evLink | evSymlink
  | evWrite | evChown | evLchown | evChmod | evChflags | evUtimes
  | evUmask | evMknod
  deriving DecidableEq, Repr

/-- The run configuration: the mode globals of cpdup.c plus oracles for
the collaborator modules (the `YesNo` prompt, the ignore-file reader, the
MD5 and FSMID caches).  The incremental-backup `-H` path (`UseHLPath`,
`checkHLPath`) links against a snapshot tree outside the modelled
destination and is not represented (it is `NULL`, the default; no claim
depends on it). -/
structure Config where
  forceOpt : Bool
  safetyOpt : Bool
  askConfirmation : Bool
  noRemoveOpt : Bool
  /-- `UseCpFile`: name of the per-directory exclusion file, if any. -/
  useCpFile : Option String
  /-- oracle standing for the `fopen`/`fgets` loop: the lines of the
  exclusion file as read in the source directory `spath`. -/
  cpLines : String → List String
  useMD5 : Bool
  md5CacheFile : String
  /-- oracle: the result of `md5_check(spath, dpath)`, keyed by `spath`
  (0 equal, negative on mismatch). -/
  md5res : String → Int
  useFSMID : Bool
  fsmidCacheFile : String
  /-- oracle: the result of `fsmid_check(st_fsmid, dpath)`, keyed by
  `dpath`. -/
  fsmidres : String → Int
  /-- oracle: the single-character answer read by `YesNo(path)`. -/
  yes : String → Bool

/-! ## RemoveRecur (cpdup.c lines 1211-1288)

Recursive destination removal.  The model returns the surviving residue
at the path (`none` when the object was removed), the number of
`CountRemovedItems` increments, and the destination mutations attempted.
`hc_rmdir` succeeds exactly when the directory has no surviving entries;
`hc_remove` of a non-directory always succeeds.  Note two faithful
quirks: when `AskConfirmation` is on and the user answers yes,
`CountRemovedItems` is incremented even if the `rmdir` itself fails, and
a failing `rmdir`/`remove` only logs (it does not touch any failure
count). -/

mutual
def removeObj (cfg : Config) (dpath : String) (obj : FObj) (devNo : Int) :
    Option FObj × Nat × List Ev :=
  let st := lstatOf obj
  let devNo' : Int := if devNo < 0 then (st.dev : Int) else devNo
  if (st.dev : Int) = devNo' then
    match obj with
    | .dir m ents =>
      let res := removeEnts cfg dpath ents devNo'
      if cfg.askConfirmation ∧ ¬cfg.noRemoveOpt then
        if cfg.yes dpath then
          -- CountRemovedItems++ sits outside the `hc_rmdir < 0` check
          if res.1 = .nil then (none, res.2.1 + 1, res.2.2 ++ [.evRmdir])
          else (some (.dir m res.1), res.2.1 + 1, res.2.2 ++ [.evRmdir])
        else (some (.dir m res.1), res.2.1, res.2.2)
      else if cfg.noRemoveOpt then (some (.dir m res.1), res.2.1, res.2.2)
      else if res.1 = .nil then (none, res.2.1 + 1, res.2.2 ++ [.evRmdir])
      else (some (.dir m res.1), res.2.1, res.2.2 ++ [.evRmdir])
    | _ =>
      if cfg.askConfirmation ∧ ¬cfg.noRemoveOpt then
        if cfg.yes dpath then (none, 1, [.evRemove])
        else (some obj, 0, [])
      else if cfg.noRemoveOpt then (some obj, 0, [])
      else (none, 1, [.evRemove])
  else (some obj, 0, [])

def removeEnts (cfg : Config) (dpath : String) (ents : Ents) (devNo : Int) :
    Ents × Nat × List Ev :=
  match ents with
  | .nil => (.nil, 0, [])
  | .cons n obj rest =>
    let r1 := removeObj cfg (dpath ++ "/" ++ n) obj devNo
    let r2 := removeEnts cfg dpath rest devNo
    (match r1.1 with
     | none => r2.1
     | some o => .cons n o r2.1,
     r1.2.1 + r2.2.1, r1.2.2 ++ r2.2.2)
end

/-- `RemoveRecur` proper: `lstat` the path (`none` models a failing
`lstat`: nothing happens), then remove within the device bound. -/
def removeRecur (cfg : Config) (dpath : String) (obj? : Option FObj)
    (devNo : Int) : Option FObj × Nat × List Ev :=
  match obj? with
  | none => (none, 0, [])
  | some obj => removeObj cfg dpath obj devNo

/-! ## The hardlink table (hltlookup/hltadd/hltdelete, lines 491-549)

The C table is an array of doubly-linked buckets indexed by
`ino & HLMASK`; all entries with the same inode share a bucket, every
`hltadd` happens only after a failed lookup, and `hltdelete` unlinks a
looked-up entry.  The model is the flat list of entries in
most-recently-added-first order; lookup returns the first entry with the
inode, which agrees with the C bucket scan because entries with equal
inodes are bucket-mates kept in the same relative order. -/

structure HLEntry where
  ino : Nat
  dino : Nat
  name : String
  nlinked : Nat
  deriving DecidableEq, Repr

def hltLookup : List HLEntry → Nat → Option HLEntry
  | [], _ => none
  | e :: rest, ino => if e.ino = ino then some e else hltLookup rest ino

/-- `hltadd`: fresh entry with `dino = 0` and `nlinked = 1`, prepended. -/
def hltAdd (tbl : List HLEntry) (st1 : Stat) (dpath : String) :
    HLEntry × List HLEntry :=
  let e : HLEntry := { ino := st1.ino, dino := 0, name := dpath, nlinked := 1 }
  (e, e :: tbl)

/-- `hltdelete` of a previously looked-up entry, by its inode. -/
def hltDelete (tbl : List HLEntry) (ino : Nat) : List HLEntry :=
  match tbl with
  | [] => []
  | e :: rest => if e.ino = ino then rest else e :: hltDelete rest ino

/-- Replace the table entry with inode `ino` (in-place mutation of a
looked-up entry in the C code). -/
def hltUpdate : List HLEntry → Nat → (HLEntry → HLEntry) → List HLEntry
  | [], _, _ => []
  | e :: rest, ino, f =>
    (if e.ino = ino then f e else e) :: hltUpdate rest ino f

/-! ## The early no-change check of DoCopy (lines 718-775)

Shared fragment: `mres`/`fres` stand for the `md5_check`/`fsmid_check`
results (in C they are computed lazily inside the condition; only their
comparison with 0 is ever observed, so passing the oracle values is
equivalent).  `hln` is the pending hardlink entry, updated with the
destination inode when the file sub-branch returns. -/

inductive EarlyRes where
  /-- fall through: the object has to be processed -/
  | fall
  /-- `return(0)` from the symlink/directory sub-branch (no counters) -/
  | retLink
  /-- `return(0)` from the file sub-branch (`CountSourceItems++`), with
  the updated hardlink entry (`hln->dino = st2.st_ino`) -/
  | retFile (hln : Option HLEntry)
  deriving DecidableEq, Repr

def earlyNoChange (cfg : Config) (st1 st2 : Stat) (st2Valid : Bool)
    (mres fres : Int) (hln : Option HLEntry) : EarlyRes :=
  if st2Valid ∧ st1.mode = st2.mode ∧ st1.flags = st2.flags then
    if st1.mode.ftype = .flnk ∨ st1.mode.ftype = .fdir then
      if ¬cfg.forceOpt ∧ (cfg.useFSMID ∧ fres = 0) then .retLink else .fall
    else
      if ¬cfg.forceOpt ∧ st1.size = st2.size ∧ st1.uid = st2.uid ∧
         st1.gid = st2.gid ∧ st1.mtime = st2.mtime ∧
         (¬cfg.useMD5 ∨ mres = 0) ∧ (¬cfg.useFSMID ∨ fres = 0) then
        .retFile (hln.map fun h => { h with dino := st2.ino })
      else .fall
  else .fall

/-! ## DoCopy (lines 612-1205), tree model

`DoCopy(spath, dpath, sdevNo, ddevNo)` in the model takes the source
object (children always exist in the tree, so only the top-level wrapper
handles a failing source `lstat`), the destination argument (either
`dpath == NULL` or the path together with the object currently there and
the object currently at the sibling work path `<dpath>.tmp`), and the two
device bounds; `dcdev` is the device of the directory containing `dpath`,
i.e. the device any object created at `dpath` lands on.

The result reports the new object at `dpath`, the returned failure count
`r`, the deltas of `CountCopiedItems` / `CountRemovedItems` /
`CountSourceItems` (the byte counters are not modelled; no claim mentions
them), the destination mutations issued, and the net effect on the
sibling entry `<dpath>.tmp` (`none` = untouched, `some v` = that entry is
now `v`) — the temp file lives in the enclosing directory, so clobbering
or leaking it is visible to the parent.

Unreachable-in-model code, with reasons:
 * the hardlink branch (644-708) is guarded by `st_nlink > 1`, and the
   tree model gives every regular file `st_nlink = 1` (a tree has no
   shared inodes); the branch is modelled by `hlStep` below;
 * `checkHLPath`/`UseHLPath` (552-610, 1013-1027): the incremental `-H`
   mode links against a snapshot outside the modelled destination; it is
   off (`NULL`) here, its C default;
 * the `hln` postlude of the file copy (1109-1114) never runs because
   `hln` is always `NULL` in the tree model;
 * `open`/`read`/`write` failures, `mkdir` failures and `opendir`
   failures have no filesystem cause in the model and do not occur. -/

inductive DstArg where
  | noDest
  | dest (dpath : String) (obj : Option FObj) (tmpSib : Option FObj)
  deriving DecidableEq, Repr

structure CopyRes where
  dst : Option FObj
  r : Nat
  copied : Nat
  removed : Nat
  srcItems : Nat
  evs : List Ev
  tmpFx : Option (Option FObj)
  deriving DecidableEq, Repr

structure EntsRes where
  dents : Ents
  list : List (String × Nat)
  r : Nat
  copied : Nat
  removed : Nat
  srcItems : Nat
  evs : List Ev
  deriving DecidableEq, Repr

/-- The component after the last `/` (the `strrchr(fpath, '/') + 1` of the
ignore-file load; `fpath` is `spath/UseCpFile` or an absolute `UseCpFile`,
so this is the base name of `UseCpFile`). -/
def baseName (s : String) : String :=
  ⟨s.data.foldl (fun acc c => if c = '/' then [] else acc ++ [c]) []⟩

/-- The ignore-list loading of the directory branch (lines 848-888): the
ignore file's own base name enters as a literal, then each non-empty
non-`#` line of the file, then the MD5/FSMID cache file names when those
features are on; everything with tag 1. -/
def buildIgnList (cfg : Config) (spath : String) : List (String × Nat) :=
  let l1 := match cfg.useCpFile with
    | none => []
    | some cp =>
      let l := (addList [] (baseName cp) 1).2
      (cfg.cpLines spath).foldl
        (fun acc line =>
          if line ≠ "" ∧ line.front ≠ '#' then (addList acc line 1).2 else acc) l
  let l2 := if cfg.useMD5 then (addList l1 cfg.md5CacheFile 1).2 else l1
  if cfg.useFSMID then (addList l2 cfg.fsmidCacheFile 1).2 else l2

/-- The destination pruning loop (lines 928-951): for every destination
entry (other than `.`/`..`) whose `AddList(name, 3)` comes back 3 — the
name was neither seen in the source pass nor matched by the ignore list —
invoke the pruner and keep whatever residue it leaves. -/
def pruneEnts (cfg : Config) (dpath : String) (dents : Ents)
    (list : List (String × Nat)) (ddev : Int) :
    Ents × List (String × Nat) × Nat × List Ev :=
  match dents with
  | .nil => (.nil, list, 0, [])
  | .cons n obj rest =>
    if n = "." ∨ n = ".." then
      let t := pruneEnts cfg dpath rest list ddev
      (.cons n obj t.1, t.2.1, t.2.2.1, t.2.2.2)
    else
      let al := addList list n 3
      if al.1 = 3 then
        let rm := removeObj cfg (dpath ++ "/" ++ n) obj ddev
        let t := pruneEnts cfg dpath rest al.2 ddev
        ((match rm.1 with | none => t.1 | some o => .cons n o t.1),
         t.2.1, rm.2.1 + t.2.2.1, rm.2.2 ++ t.2.2.2)
      else
        let t := pruneEnts cfg dpath rest al.2 ddev
        (.cons n obj t.1, t.2.1, t.2.2.1, t.2.2.2)

/-- `xrename` (lines 1448-1463): rename, on failure clear the destination
flags, retry, restore the flags.  In the model a rename fails exactly when
the target is a directory (a non-directory can never be renamed over a
directory); the net effect of the failure path is that the directory's
flags become the caller's `flags` argument.  Returns
(success, object now at the target, events). -/
def xrenameModel (dcur : Option FObj) (newObj : FObj) (flags : Nat) :
    Bool × Option FObj × List Ev :=
  match dcur with
  | some (.dir m ents) =>
    (false, some (.dir { m with flags := flags } ents),
     [.evRename, .evChflags, .evRename, .evChflags])
  | _ => (true, some newObj, [.evRename])

/-- The regular-file copy (lines 989-1114, `UseHLPath` off): open the
source, open `<dpath>.tmp` with `O_EXCL` (clearing a stale temp first when
one exists), stream the content, apply utimes/chown/chmod to the temp,
`xrename` it over the destination, and restore non-zero flags after the
rename.  `hc_remove` mirrors POSIX `remove()`, which clears an empty
directory (`rmdir`) but fails on a non-empty one, so only a non-empty
directory parked at the temp path survives the clearing and wedges the
reopen.  On a rename failure `r` is bumped but the item counters are
still incremented (lines 1079-1083 sit outside the rename branch) and
the temp is left behind. -/
def copyRegFile (st1 : Stat) (content : List Nat) (dcur : Option FObj)
    (tmpSib : Option FObj) (st2flags : Nat) (dcdev : Nat) : CopyRes :=
  match tmpSib with
  | some (.dir dm (.cons n0 o0 r0)) =>
    -- O_EXCL fails; `remove()` fails with ENOTEMPTY; the reopen fails:
    -- "create failed", ++r.  The stale temp directory survives, with its
    -- flags cleared by the `hc_chflags(path, 0)`.
    { dst := dcur, r := 1, copied := 0, removed := 0, srcItems := 0,
      evs := [.evChflags, .evRemove],
      tmpFx := some (some (.dir { dm with flags := 0 }
        (.cons n0 o0 r0))) }
  | other =>
    let clobberEvs : List Ev :=
      match other with
      | none => []
      | some _ => [.evChflags, .evRemove]
    let newMeta : Meta :=
      { perm := st1.mode.perm, uid := st1.uid, gid := st1.gid,
        mtime := st1.mtime, flags := st1.flags, dev := dcdev }
    let preEvs := clobberEvs ++ [.evWrite, .evUtimes, .evChown, .evChmod]
    match dcur with
    | some (.dir m ents) =>
      -- the destination is (still) a directory: xrename fails twice, ++r;
      -- the copied temp file is leaked with flags still 0 (the final
      -- chflags only runs after a successful rename)
      { dst := some (.dir { m with flags := st2flags } ents), r := 1,
        copied := 1, removed := 0, srcItems := 1,
        evs := preEvs ++ [.evRename, .evChflags, .evRename, .evChflags],
        tmpFx := some (some (.reg { newMeta with flags := 0 } content)) }
    | _ =>
      { dst := some (.reg newMeta content), r := 0, copied := 1,
        removed := 0, srcItems := 1,
        evs := preEvs ++ [.evRename] ++
          (if st1.flags ≠ 0 then [.evChflags] else []),
        tmpFx := match other with | none => none | some _ => some none }

/-- The symlink branch (lines 1115-1164): readlink both sides; when
forcing or the targets differ (in particular when the destination is not
a symlink), set the umask, remove a stale temp, `symlink`+`lchown` the
temp and rename it over; restore the umask.  A failing rename only logs.
The created link gets the source permissions through the umask. -/
def copySymlink (cfg : Config) (st1 : Stat) (target : String)
    (dcur : Option FObj) (tmpSib : Option FObj) (st2flags : Nat)
    (dcdev : Nat) : CopyRes :=
  let n2 : Option String := match dcur with
    | some (.sym _ t) => some t
    | _ => none
  if cfg.forceOpt ∨ n2 ≠ some target then
    match tmpSib with
    | some (.dir _ (.cons _ _ _)) =>
      -- `hc_remove` (POSIX `remove()`) of the stale non-empty temp
      -- directory fails, `hc_symlink` hits the existing name: ++r; the
      -- umask is NOT restored on this path
      { dst := dcur, r := 1, copied := 0, removed := 0, srcItems := 1,
        evs := [.evUmask, .evRemove], tmpFx := none }
    | other =>
      let symMeta : Meta :=
        { perm := st1.mode.perm, uid := st1.uid, gid := st1.gid, mtime := 0,
          flags := 0, dev := dcdev }
      let symObj : FObj := .sym symMeta target
      let x := xrenameModel dcur symObj st2flags
      -- CountCopiedItems++ and the umask restore run whether or not the
      -- rename succeeded; a failed rename does not touch r
      { dst := x.2.1, r := 0, copied := 1, removed := 0, srcItems := 1,
        evs := [.evUmask, .evRemove, .evSymlink, .evLchown] ++ x.2.2 ++
          [.evUmask],
        tmpFx :=
          if x.1 then (match other with | none => none | some _ => some none)
          else some (some symObj) }
  else
    { dst := dcur, r := 0, copied := 0, removed := 0, srcItems := 1,
      evs := [], tmpFx := none }

/-- The device-node branch (lines 1165-1202): when any identifying
attribute differs, remove a stale temp, `mknod`+`chmod`+`chown` the temp,
remove the destination, rename the temp over it.  `r` is set to 1 when
`mknod` fails; a failing rename only logs.  `CountSourceItems++` on every
path through the branch. -/
def copyDevNode (cfg : Config) (st1 : Stat) (isChr : Bool)
    (dcur : Option FObj) (tmpSib : Option FObj) (st2 : Stat)
    (st2Valid : Bool) (dcdev : Nat) : CopyRes :=
  if cfg.forceOpt ∨ ¬st2Valid ∨ st1.mode ≠ st2.mode ∨ st1.rdev ≠ st2.rdev ∨
     st1.uid ≠ st2.uid ∨ st1.gid ≠ st2.gid then
    match tmpSib with
    | some (.dir _ (.cons _ _ _)) =>
      -- `hc_remove` (POSIX `remove()`) of the stale non-empty temp
      -- directory fails, mknod hits the existing name: `r = 1`
      { dst := dcur, r := 1, copied := 0, removed := 0, srcItems := 1,
        evs := [.evRemove], tmpFx := none }
    | other =>
      let devMeta : Meta :=
        { perm := st1.mode.perm, uid := st1.uid, gid := st1.gid, mtime := 0,
          flags := 0, dev := dcdev }
      let devObj : FObj := .dev devMeta isChr st1.rdev
      -- `hc_remove(dpath)` before the rename fails if dcur is a directory
      let dcur' := match dcur with
        | some (.dir m ents) => some (FObj.dir m ents)
        | _ => none
      let x := xrenameModel dcur' devObj st2.flags
      { dst := x.2.1, r := 0, copied := 1, removed := 0, srcItems := 1,
        evs := [.evRemove, .evMknod, .evChmod, .evChown, .evRemove] ++ x.2.2,
        tmpFx :=
          if x.1 then (match other with | none => none | some _ => some none)
          else some (some devObj) }
  else
    { dst := dcur, r := 0, copied := 0, removed := 0, srcItems := 1,
      evs := [], tmpFx := none }

/-- Pre-scan work of the directory branch with a destination (lines
805-846 plus the ignore-list load): the destination fix-up, the tracked
`st2`, the device-boundary decision and the initial ignore list. -/
structure DirPre where
  mdir : Meta
  dents0 : Ents
  st2t : Stat
  copied : Nat
  evs : List Ev
  noLoop : Bool
  sdev : Int
  ddev : Int
  list0 : List (String × Nat)

def dirPre (cfg : Config) (spath : String) (st1 : Stat) (obj? : Option FObj)
    (sdevNo ddevNo : Int) (dcdev : Nat) : DirPre :=
  -- destination fix-up (lines 805-834): ensure a traversable directory
  let fixed : Meta × Ents × Stat × Nat × List Ev :=
    match obj? with
    | some (.dir m2 ents2) =>
      -- add the owner-traversal bits temporarily when they are missing
      if m2.perm &&& 0o700 ≠ 0o700 then
        ({ m2 with perm := m2.perm ||| 0o700 }, ents2,
         { lstatOf (.dir m2 ents2) with mode := ⟨.fdir, m2.perm ||| 0o700⟩ },
         0, [.evChmod])
      else (m2, ents2, lstatOf (.dir m2 ents2), 0, [])
    | _ =>
      -- hc_remove (result ignored), mkdir(st1.st_mode | 0700) with the
      -- process umask 0, lstat refresh (before the chown, so the tracked
      -- st2 carries the creator uid/gid 0), chown, CountCopiedItems++
      let m0 : Meta := { perm := st1.mode.perm ||| 0o700, uid := 0, gid := 0,
                         mtime := 0, flags := 0, dev := dcdev }
      ({ m0 with uid := st1.uid, gid := st1.gid }, .nil,
       lstatOf (.dir m0 .nil), 1, [.evRemove, .evMkdir, .evChown])
  let st2t := fixed.2.2.1
  -- device boundary rule (lines 836-846)
  let noLoop1 : Bool := decide (0 ≤ sdevNo ∧ (st1.dev : Int) ≠ sdevNo)
  let noLoop2 : Bool := decide (0 ≤ ddevNo ∧ (st2t.dev : Int) ≠ ddevNo)
  { mdir := fixed.1, dents0 := fixed.2.1, st2t := st2t,
    copied := fixed.2.2.2.1, evs := fixed.2.2.2.2,
    noLoop := noLoop1 || noLoop2,
    sdev := if noLoop1 then sdevNo else (st1.dev : Int),
    ddev := if noLoop2 then ddevNo else (st2t.dev : Int),
    list0 := buildIgnList cfg spath }

/-- Exit fix-ups of the directory branch (lines 953-969), assembling the
final directory object; the comparisons run against the tracked `st2`. -/
def dirFinish (cfg : Config) (st1 : Stat) (st2Valid : Bool) (pre : DirPre)
    (scan : EntsRes) (prEnts : Ents) (prRemoved : Nat) (prEvs : List Ev) :
    CopyRes :=
  let doChown := cfg.forceOpt ∨ st2Valid = false ∨ st1.uid ≠ pre.st2t.uid ∨
    st1.gid ≠ pre.st2t.gid
  let doChmod := st2Valid = false ∨ st1.mode ≠ pre.st2t.mode
  let doChfl := st2Valid = false ∨ st1.flags ≠ pre.st2t.flags
  let mfin : Meta :=
    { pre.mdir with
      uid := if doChown then st1.uid else pre.mdir.uid,
      gid := if doChown then st1.gid else pre.mdir.gid,
      perm := if doChmod then st1.mode.perm else pre.mdir.perm,
      flags := if doChfl then st1.flags else pre.mdir.flags }
  { dst := some (.dir mfin prEnts), r := scan.r,
    copied := pre.copied + scan.copied,
    removed := scan.removed + prRemoved, srcItems := scan.srcItems,
    evs := pre.evs ++ scan.evs ++ prEvs ++
      ((if doChown then [.evChown] else []) ++
       (if doChmod then [.evChmod] else []) ++
       (if doChfl then [.evChflags] else [])),
    tmpFx := none }

mutual

/-- The source readdir loop (lines 890-920): skip `.`/`..`, skip ignore
matches (`AddList(name, 0) == 1`), recurse on everything else with the
constructed child paths, threading the destination directory's entries
(each child call sees and may affect its own entry and its `<name>.tmp`
sibling). -/
def doCopyEnts (cfg : Config) (spath : String) (dpO : Option String)
    (ents : Ents) (list : List (String × Nat)) (dents : Ents)
    (sdev ddev : Int) (dcdev : Nat) : EntsRes :=
  match ents with
  | .nil =>
    { dents := dents, list := list, r := 0, copied := 0, removed := 0,
      srcItems := 0, evs := [] }
  | .cons n child rest =>
    if n = "." ∨ n = ".." then
      doCopyEnts cfg spath dpO rest list dents sdev ddev dcdev
    else
      let al := addList list n 0
      if al.1 = 1 then
        doCopyEnts cfg spath dpO rest al.2 dents sdev ddev dcdev
      else
        let darg : DstArg := match dpO with
          | none => .noDest
          | some dpath =>
            .dest (dpath ++ "/" ++ n) (dents.lookup n)
              (dents.lookup (n ++ ".tmp"))
        let res := doCopy cfg (spath ++ "/" ++ n) child darg sdev ddev dcdev
        let dents' := match dpO with
          | none => dents
          | some _ =>
            let d1 := dents.set n res.dst
            match res.tmpFx with
            | none => d1
            | some v => d1.set (n ++ ".tmp") v
        let tl := doCopyEnts cfg spath dpO rest al.2 dents' sdev ddev dcdev
        { dents := tl.dents, list := tl.list, r := res.r + tl.r,
          copied := res.copied + tl.copied,
          removed := res.removed + tl.removed,
          srcItems := res.srcItems + tl.srcItems,
          evs := res.evs ++ tl.evs }

/-- `DoCopy` on a present source object. -/
def doCopy (cfg : Config) (spath : String) (src : FObj) (darg : DstArg)
    (sdevNo ddevNo : Int) (dcdev : Nat) : CopyRes :=
  let st1 := lstatOf src
  match darg with
  | .noDest =>
    match src with
    | .dir _ ents =>
      -- directory branch with dpath == NULL: every destination action is
      -- guarded by `if (dpath)`; st2 stays the lstat-failed placeholder
      let noLoop1 : Bool := decide (0 ≤ sdevNo ∧ (st1.dev : Int) ≠ sdevNo)
      let sdev' : Int := if noLoop1 then sdevNo else (st1.dev : Int)
      let noLoop2 : Bool := decide (0 ≤ ddevNo ∧ (statNone.dev : Int) ≠ ddevNo)
      let ddev' : Int := if noLoop2 then ddevNo else (statNone.dev : Int)
      let list0 := buildIgnList cfg spath
      let scan :=
        if noLoop1 || noLoop2 then
          { dents := Ents.nil, list := list0, r := 0, copied := 0,
            removed := 0, srcItems := 0, evs := [] }
        else doCopyEnts cfg spath none ents list0 .nil sdev' ddev' 0
      { dst := none, r := scan.r, copied := scan.copied,
        removed := scan.removed, srcItems := scan.srcItems, evs := scan.evs,
        tmpFx := none }
    | _ =>
      -- `else if (dpath == NULL)` (lines 971-988): only the MD5 cache on
      -- the source host is refreshed; nothing on the destination
      { dst := none, r := 0, copied := 0, removed := 0, srcItems := 0,
        evs := [], tmpFx := none }
  | .dest dpath obj? tmpSib =>
    let st2Valid := obj?.isSome
    let st2 := match obj? with | some o => lstatOf o | none => statNone
    match earlyNoChange cfg st1 st2 st2Valid (cfg.md5res spath)
        (cfg.fsmidres dpath) none with
    | .retLink =>
      { dst := obj?, r := 0, copied := 0, removed := 0, srcItems := 0,
        evs := [], tmpFx := none }
    | .retFile _ =>
      { dst := obj?, r := 0, copied := 0, removed := 0, srcItems := 1,
        evs := [], tmpFx := none }
    | .fall =>
      -- file-over-directory conflict (lines 776-791)
      if st2Valid ∧ st1.mode.ftype ≠ .fdir ∧ st2.mode.ftype = .fdir ∧
         cfg.safetyOpt then
        -- SAFETY refusal: the `++r` on line 781 is immediately discarded
        -- by the `return(0)` on line 782
        { dst := obj?, r := 0, copied := 0, removed := 0, srcItems := 0,
          evs := [], tmpFx := none }
      else
        let rm :=
          if st2Valid ∧ st1.mode.ftype ≠ .fdir ∧ st2.mode.ftype = .fdir then
            removeRecur cfg dpath obj? ddevNo
          else (obj?, 0, ([] : List Ev))
        let dcur := rm.1
        let res :=
          match src with
          | .dir _ dents2 =>
            let pre := dirPre cfg spath st1 dcur sdevNo ddevNo dcdev
            let scan : EntsRes :=
              if pre.noLoop then
                { dents := pre.dents0, list := pre.list0, r := 0,
                  copied := 0, removed := 0, srcItems := 0, evs := [] }
              else doCopyEnts cfg spath (some dpath) dents2 pre.list0
                     pre.dents0 pre.sdev pre.ddev pre.st2t.dev
            let pr :=
              if pre.noLoop then (scan.dents, scan.list, 0, ([] : List Ev))
              else pruneEnts cfg dpath scan.dents scan.list pre.ddev
            dirFinish cfg st1 st2Valid pre scan pr.1 pr.2.2.1 pr.2.2.2
          | .reg _ content =>
            copyRegFile st1 content dcur tmpSib st2.flags dcdev
          | .sym _ target =>
            copySymlink cfg st1 target dcur tmpSib st2.flags dcdev
          | .dev _ isChr _ =>
            copyDevNode cfg st1 isChr dcur tmpSib st2 st2Valid dcdev
          | .oth _ =>
            -- no dispatch arm matches "other" kinds: nothing happens, not
            -- even a counter
            { dst := dcur, r := 0, copied := 0, removed := 0, srcItems := 0,
              evs := [], tmpFx := none }
        { res with removed := rm.2.1 + res.removed,
                   evs := rm.2.2 ++ res.evs }

end

/-- Top-level call: `main` runs `DoCopy(src, dst, (dev_t)-1, (dev_t)-1)`;
a failing source `lstat` returns 0 silently (lines 627-628).  `dcdev0` is
the device a fresh top-level destination object would be created on. -/
def doCopyTop (cfg : Config) (spath : String) (src : Option FObj)
    (darg : DstArg) (dcdev0 : Nat) : CopyRes :=
  match src with
  | none =>
    { dst := (match darg with | .dest _ o _ => o | .noDest => none),
      r := 0, copied := 0, removed := 0, srcItems := 0, evs := [],
      tmpFx := none }
  | some s => doCopy cfg spath s darg (-1) (-1) dcdev0

/-- `exit((i == 0) ? 0 : 1)` — line 488 of `main`. -/
def mainExit (r : Nat) : Nat := if r = 0 then 0 else 1

/-! ## The hardlink branch of DoCopy (lines 644-708)

This is the `S_ISREG(st1.st_mode) && st1.st_nlink > 1 && dpath` block,
modelled as a step on the hardlink table.  The destination-host outcomes
are oracles: `removeOk` is whether the `hc_remove` of the wrong existing
destination succeeds, `linkRes` is the `xlink` outcome (success, failure
with `EMLINK`, failure with any other errno). -/

inductive LinkRes where
  | ok
  | emlink
  | othererr
  deriving DecidableEq, Repr

inductive HLOut where
  /-- the branch guard is not satisfied: fall through, no pending entry -/
  | noHL
  /-- the destination already carries the recorded inode: `return 0`
  (`CountSourceItems++`) -/
  | retNoChange
  /-- the wrong existing destination could not be unlinked:
  `return (r + 1)` -/
  | retUnlinkFail
  /-- `xlink` succeeded: `return 0` (`CountSourceItems++`,
  `CountCopiedItems++`) -/
  | retLinked
  /-- fall through to the normal copy of this same file, with the pending
  entry `hln` (`none` after a non-EMLINK link failure) and `rInc` added to
  the failure count -/
  | fallCopy (hln : Option HLEntry) (rInc : Nat)
  deriving DecidableEq, Repr

def hlStep (st1 : Stat) (dpath : Option String) (st2Valid : Bool)
    (st2 : Stat) (tbl : List HLEntry) (removeOk : Bool) (linkRes : LinkRes) :
    HLOut × List HLEntry :=
  if st1.mode.ftype = .freg ∧ 1 < st1.nlink ∧ dpath.isSome then
    match hltLookup tbl st1.ino with
    | some hl =>
      -- `hln->nlinked++` happens first
      let tbl1 := hltUpdate tbl st1.ino fun h => { h with nlinked := h.nlinked + 1 }
      if st2Valid ∧ st2.ino = hl.dino then
        -- hard link is already correct, nothing to do
        if hl.nlinked + 1 = st1.nlink then
          (.retNoChange, hltDelete tbl1 st1.ino)
        else (.retNoChange, tbl1)
      else if st2Valid ∧ ¬removeOk then
        -- hard link is not correct and the unlink failed
        (.retUnlinkFail, hltDelete tbl1 st1.ino)
      else
        match linkRes with
        | .ok =>
          if hl.nlinked + 1 = st1.nlink then
            (.retLinked, hltDelete tbl1 st1.ino)
          else (.retLinked, tbl1)
        | .emlink =>
          -- hltdelete, then `goto relink`: a fresh entry, no r increment
          -- (the `++r` after the `if (tryrelink)` is skipped by the goto)
          let fresh := hltAdd (hltDelete tbl1 st1.ino) st1 (dpath.getD "")
          (.fallCopy (some fresh.1) 0, fresh.2)
        | .othererr =>
          -- hltdelete, ++r, fall through with hln = NULL
          (.fallCopy none 1, hltDelete tbl1 st1.ino)
    | none =>
      -- first instance of the hardlink: copy normally with a fresh entry
      let fresh := hltAdd tbl st1 (dpath.getD "")
      (.fallCopy (some fresh.1) 0, fresh.2)
  else (.noHL, tbl)

/-- Distinct inodes in the table (the real table only ever adds an inode
after a failed lookup, so this is its standing invariant). -/
def InoUniq (tbl : List HLEntry) : Prop :=
  tbl.Pairwise fun a b => a.ino ≠ b.ino

theorem hltLookup_none_mem (tbl : List HLEntry) (ino : Nat)
    (h : ∀ e ∈ tbl, e.ino ≠ ino) : hltLookup tbl ino = none := by
  induction tbl with
  | nil => rfl
  | cons e rest ih =>
    simp only [hltLookup]
    rw [if_neg (h e (by simp))]
    exact ih fun x hx => h x (by simp [hx])

theorem hltLookup_update (tbl : List HLEntry) (ino : Nat)
    (f : HLEntry → HLEntry) (hf : ∀ e, (f e).ino = e.ino) :
    hltLookup (hltUpdate tbl ino f) ino = (hltLookup tbl ino).map f := by
  induction tbl with
  | nil => simp [hltLookup, hltUpdate]
  | cons e rest ih =>
    by_cases he : e.ino = ino
    · simp [hltLookup, hltUpdate, he, hf]
    · simp only [hltLookup, hltUpdate, if_neg he]
      exact ih

theorem hltLookup_delete (tbl : List HLEntry) (ino : Nat)
    (huniq : InoUniq tbl) : hltLookup (hltDelete tbl ino) ino = none := by
  induction tbl with
  | nil => rfl
  | cons e rest ih =>
    rcases List.pairwise_cons.mp huniq with ⟨hhead, htail⟩
    by_cases he : e.ino = ino
    · simp only [hltDelete, if_pos he]
      subst he
      exact hltLookup_none_mem rest e.ino fun x hx hc =>
        hhead x hx (hc ▸ rfl)
    · simp only [hltDelete, if_neg he, hltLookup]
      exact ih htail

theorem hltUpdate_eq_map (tbl : List HLEntry) (ino : Nat)
    (f : HLEntry → HLEntry) :
    hltUpdate tbl ino f = tbl.map fun e => if e.ino = ino then f e else e := by
  induction tbl with
  | nil => rfl
  | cons e rest ih => simp only [hltUpdate, List.map_cons, ih]

theorem InoUniq_update (tbl : List HLEntry) (ino : Nat)
    (f : HLEntry → HLEntry) (hf : ∀ e, (f e).ino = e.ino)
    (huniq : InoUniq tbl) : InoUniq (hltUpdate tbl ino f) := by
  rw [hltUpdate_eq_map]
  rw [InoUniq, List.pairwise_map]
  refine huniq.imp_of_mem fun {a b} _ _ hab => ?_
  by_cases ha : a.ino = ino <;> by_cases hb : b.ino = ino <;>
    simp only [ha, hb, if_true, if_false, hf] <;> omega

/-! ## Concrete inputs shared by the claim theorems -/

/-- A batch run configuration: safety on (its default), force off, no
ignore file, MD5/FSMID off, no confirmation prompting, removal enabled. -/
def cfgBatch : Config :=
  { forceOpt := false, safetyOpt := true, askConfirmation := false,
    noRemoveOpt := false, useCpFile := none, cpLines := fun _ => [],
    useMD5 := false, md5CacheFile := ".MD5.CHECKSUMS", md5res := fun _ => 0,
    useFSMID := false, fsmidCacheFile := ".FSMID.CHECK",
    fsmidres := fun _ => 0, yes := fun _ => true }

/-- A multiply-linked regular source file: inode 5, three links. -/
def st1HL : Stat :=
  { mode := ⟨.freg, 0o644⟩, uid := 0, gid := 0, size := 10, mtime := 5,
    nlink := 3, ino := 5, rdev := 0, dev := 1, flags := 0 }

/-- A destination stat whose inode (7) differs from the recorded one. -/
def st2HL : Stat := { st1HL with ino := 7 }

/-- A table entry for inode 5 after its first sighting. -/
def hlE : HLEntry := { ino := 5, dino := 0, name := "d/first", nlinked := 1 }

/-! ## C5 — the hardlink-table invariant -/

/-- **C5 counterexample**: the claim says the entry is removed from the
table exactly when the count reaches the source's `st_nlink` or when
linking fails.  Here the second sighting of inode 5 finds a wrong
destination inode (7 vs recorded 0), `hc_remove` of that destination
fails, and the code deletes the entry and returns — although the
incremented count (2) has not reached `st_nlink` (3) and no link operation
was ever attempted.  So the stated removal condition is violated at this
input. -/
theorem c5_counterexample :
    hlStep st1HL (some "d/second") true st2HL [hlE] false .ok =
      (.retUnlinkFail, []) ∧
    hlE.nlinked + 1 ≠ st1HL.nlink ∧
    hltLookup (hlStep st1HL (some "d/second") true st2HL [hlE] false
        .ok).2 hlE.ino = none := by
  decide

/-- **C5 (amended)**: for every source inode of a multiply-linked regular
file, an entry is created with remaining-link count 1 at the first
sighting, the count is incremented at each subsequent sighting, and the
entry leaves the table exactly when the incremented count reaches the
source's `st_nlink` (on the already-linked and link-success paths), or
when the unlink of a wrong existing destination fails, or when the link
fails — where on `EMLINK` a fresh count-1 entry for the same inode
replaces it for the fall-through copy. -/
theorem c5_hardlink_table_invariant
    (st1 : Stat) (dpath : String) (st2Valid : Bool) (st2 : Stat)
    (tbl : List HLEntry) (removeOk : Bool) (linkRes : LinkRes)
    (hreg : st1.mode.ftype = .freg) (hnl : 1 < st1.nlink)
    (huniq : InoUniq tbl) :
    (hltLookup tbl st1.ino = none →
      hltLookup (hlStep st1 (some dpath) st2Valid st2 tbl removeOk
          linkRes).2 st1.ino =
        some { ino := st1.ino, dino := 0, name := dpath, nlinked := 1 }) ∧
    (∀ e, hltLookup tbl st1.ino = some e →
      hltLookup (hlStep st1 (some dpath) st2Valid st2 tbl removeOk
          linkRes).2 st1.ino =
        (if (st2Valid ∧ st2.ino = e.dino) ∨
            ((¬st2Valid ∨ removeOk) ∧ linkRes = .ok) then
          (if e.nlinked + 1 = st1.nlink then none
           else some { e with nlinked := e.nlinked + 1 })
         else if ¬(st2Valid ∧ st2.ino = e.dino) ∧ st2Valid ∧ removeOk = false
           then none
         else if linkRes = .emlink then
          some { ino := st1.ino, dino := 0, name := dpath, nlinked := 1 }
         else none)) := by
  have hguard : st1.mode.ftype = FType.freg ∧ 1 < st1.nlink ∧
      (some dpath).isSome := ⟨hreg, hnl, rfl⟩
  have hupd : ∀ e : HLEntry,
      (({ e with nlinked := e.nlinked + 1 } : HLEntry)).ino = e.ino := fun _ => rfl
  have huniq1 : InoUniq (hltUpdate tbl st1.ino
      fun h => { h with nlinked := h.nlinked + 1 }) :=
    InoUniq_update tbl st1.ino _ hupd huniq
  constructor
  · intro hnone
    simp only [hlStep, if_pos hguard, hnone]
    simp [hltAdd, hltLookup]
  · intro e he
    simp only [hlStep, if_pos hguard, he]
    have hlu : hltLookup (hltUpdate tbl st1.ino
        fun h => { h with nlinked := h.nlinked + 1 }) st1.ino =
        some { e with nlinked := e.nlinked + 1 } := by
      rw [hltLookup_update tbl st1.ino _ hupd, he]
      rfl
    have hdel : hltLookup (hltDelete (hltUpdate tbl st1.ino
        fun h => { h with nlinked := h.nlinked + 1 }) st1.ino) st1.ino =
        none := hltLookup_delete _ _ huniq1
    by_cases hA : st2Valid ∧ st2.ino = e.dino
    · obtain ⟨hA1, hA2⟩ := hA
      by_cases hcnt : e.nlinked + 1 = st1.nlink <;>
        simp [hA1, hA2, hcnt, hlu, hdel]
    · by_cases hrm : st2Valid ∧ ¬removeOk
      · have hro : removeOk = false := by
          rcases hrm with ⟨_, h⟩; simpa using h
        have hA' : ¬st2.ino = e.dino := fun h => hA ⟨hrm.1, h⟩
        simp [hA, hA', hrm, hrm.1, hro, hdel]
      · have hc2 : ¬(¬(st2Valid ∧ st2.ino = e.dino) ∧ st2Valid ∧
            removeOk = false) := by
          rintro ⟨_, hv, hro⟩
          exact hrm ⟨hv, by simp [hro]⟩
        have hrm' : ¬(st2Valid = true ∧ removeOk = false) := by
          rintro ⟨hv, hro⟩
          exact hrm ⟨hv, by simp [hro]⟩
        have hpro2 : st2Valid = false ∨ removeOk = true := by
          by_cases hv : st2Valid
          · right
            by_contra hro
            exact hrm ⟨hv, by simpa using hro⟩
          · left
            simpa using hv
        cases linkRes with
        | ok =>
          by_cases hcnt : e.nlinked + 1 = st1.nlink <;>
            simp [hA, hrm, hrm', hc2, hpro2, hcnt, hlu, hdel]
        | emlink =>
          simp [hA, hrm, hrm', hc2, hdel, hltAdd, hltLookup]
        | othererr =>
          simp [hA, hrm, hrm', hc2, hdel]

/-- Witness for C5 at a concrete input: second sighting of inode 5 with a
correct destination, count not yet at `st_nlink`. -/
theorem c5_hardlink_table_invariant_witness :
    hltLookup (hlStep st1HL (some "d/second") true st1HL [hlE] true
        .ok).2 st1HL.ino = some { hlE with nlinked := 2 } := by
  have h := (c5_hardlink_table_invariant st1HL "d/second" true st1HL [hlE]
    true .ok (by decide) (by decide)
    (List.pairwise_singleton _ _)).2 hlE (by decide)
  rw [h]
  decide

/-! ## C6 — link-failure handling in the hardlink branch -/

/-- **C6 counterexample**: the claim says that on a non-`EMLINK` link
error the failure count is incremented and processing continues with the
next entry — i.e. `DoCopy` would return to its caller.  At this input
(second sighting, wrong destination inode, unlink fine, link failing with
an errno other than `EMLINK`) the outcome is `fallCopy`: control falls
through to the normal content copy of the *same* file (lines 677-683 end
the `if`/`else` without returning), with the entry deleted and no fresh
entry added.  So "continues with the next entry" is false at this
input. -/
theorem c6_counterexample :
    hlStep st1HL (some "d/second") true st2HL [hlE] true .othererr =
      (.fallCopy none 1, []) := by
  decide

/-- **C6 (amended)**: when relinking a hardlink-group member (entry found,
recorded destination inode absent or different, stale destination
unlinked fine), a link failure with `EMLINK` removes the entry and falls
through to a normal content copy of the file with a fresh count-1 table
entry and no failure-count increment; on any other link error the failure
count is incremented and processing also falls through to the normal
content copy of the same file, with the entry removed and no fresh
entry. -/
theorem c6_link_error_fallthrough
    (st1 : Stat) (dpath : String) (st2Valid : Bool) (st2 : Stat)
    (tbl : List HLEntry) (removeOk : Bool) (e : HLEntry)
    (hreg : st1.mode.ftype = .freg) (hnl : 1 < st1.nlink)
    (he : hltLookup tbl st1.ino = some e)
    (hmis : ¬(st2Valid ∧ st2.ino = e.dino))
    (hrm : ¬(st2Valid ∧ ¬removeOk)) :
    (hlStep st1 (some dpath) st2Valid st2 tbl removeOk .emlink =
      (.fallCopy
        (some { ino := st1.ino, dino := 0, name := dpath, nlinked := 1 }) 0,
       { ino := st1.ino, dino := 0, name := dpath, nlinked := 1 } ::
         hltDelete (hltUpdate tbl st1.ino
           fun h => { h with nlinked := h.nlinked + 1 }) st1.ino)) ∧
    (hlStep st1 (some dpath) st2Valid st2 tbl removeOk .othererr =
      (.fallCopy none 1,
       hltDelete (hltUpdate tbl st1.ino
         fun h => { h with nlinked := h.nlinked + 1 }) st1.ino)) := by
  have hrm' : ¬(st2Valid = true ∧ removeOk = false) := by
    rintro ⟨hv, hro⟩
    exact hrm ⟨hv, by simp [hro]⟩
  constructor <;>
    simp [hlStep, he, hmis, hrm', hreg, hnl, hltAdd]

/-- Witness for C6 at a concrete input. -/
theorem c6_link_error_fallthrough_witness :
    (hlStep st1HL (some "d/x") true st2HL [hlE] true .emlink =
      (.fallCopy
        (some { ino := st1HL.ino, dino := 0, name := "d/x", nlinked := 1 }) 0,
       { ino := st1HL.ino, dino := 0, name := "d/x", nlinked := 1 } ::
         hltDelete (hltUpdate [hlE] st1HL.ino
           fun h => { h with nlinked := h.nlinked + 1 }) st1HL.ino)) ∧
    (hlStep st1HL (some "d/x") true st2HL [hlE] true .othererr =
      (.fallCopy none 1,
       hltDelete (hltUpdate [hlE] st1HL.ino
         fun h => { h with nlinked := h.nlinked + 1 }) st1HL.ino)) :=
  c6_link_error_fallthrough st1HL "d/x" true st2HL [hlE] true hlE
    (by decide) (by decide) (by decide) (by decide) (by decide)

/-! ## C4 — the regular-file no-change fast path -/

/-- **C4**: for every regular source file whose destination stat is valid
with equal mode and flags, if size, uid, gid and mtime all match, force is
off, and the enabled digest / content-id checks report equal, then the
early check returns the file no-change result with the destination inode
recorded in any pending hardlink entry — and `DoCopy` on such a pair in
the tree model performs no copy (no mutation at all) and returns 0. -/
theorem c4_nochange_fast_path
    (cfg : Config) (st1 st2 : Stat) (hln : Option HLEntry) (mres fres : Int)
    (hreg : st1.mode.ftype = .freg)
    (hmode : st1.mode = st2.mode) (hflags : st1.flags = st2.flags)
    (hsize : st1.size = st2.size) (huid : st1.uid = st2.uid)
    (hgid : st1.gid = st2.gid) (hmt : st1.mtime = st2.mtime)
    (hforce : cfg.forceOpt = false)
    (hmd5 : cfg.useMD5 → mres = 0) (hfsm : cfg.useFSMID → fres = 0) :
    earlyNoChange cfg st1 st2 true mres fres hln =
      .retFile (hln.map fun h => { h with dino := st2.ino }) ∧
    (∀ (spath dpath : String) (m : Meta) (c : List Nat) (d : FObj)
      (sdev ddev : Int) (dcdev : Nat),
      lstatOf (.reg m c) = st1 → lstatOf d = st2 →
      cfg.md5res spath = mres → cfg.fsmidres dpath = fres →
      doCopy cfg spath (.reg m c) (.dest dpath (some d) none) sdev ddev
          dcdev =
        { dst := some d, r := 0, copied := 0, removed := 0, srcItems := 1,
          evs := [], tmpFx := none }) := by
  have hlnk : ¬(st1.mode.ftype = FType.flnk ∨ st1.mode.ftype = FType.fdir) := by
    rw [hreg]; rintro (h | h) <;> exact FType.noConfusion h
  have hearly : ∀ h : Option HLEntry,
      earlyNoChange cfg st1 st2 true mres fres h =
        .retFile (h.map fun x => { x with dino := st2.ino }) := by
    intro h
    rw [earlyNoChange,
      if_pos (by exact ⟨rfl, hmode, hflags⟩), if_neg hlnk,
      if_pos ?side]
    case side =>
      refine ⟨by simp [hforce], hsize, huid, hgid, hmt, ?_, ?_⟩
      · by_cases hm : cfg.useMD5
        · right; exact hmd5 hm
        · left; simpa using hm
      · by_cases hm : cfg.useFSMID
        · right; exact hfsm hm
        · left; simpa using hm
  refine ⟨hearly hln, ?_⟩
  intro spath dpath m c d sdev ddev dcdev h1 h2 hm hf
  rw [doCopy]
  simp only [h1, h2, hm, hf, Option.isSome_some, hearly none]

/-- Witness for C4 at a concrete input: identical regular files. -/
theorem c4_nochange_fast_path_witness :
    earlyNoChange cfgBatch st1HL st1HL true 0 0 (some hlE) =
      .retFile (some { hlE with dino := st1HL.ino }) :=
  (c4_nochange_fast_path cfgBatch st1HL st1HL (some hlE) 0 0 rfl rfl rfl
    rfl rfl rfl rfl rfl (fun h => by simp [cfgBatch] at h)
    (fun h => by simp [cfgBatch] at h)).1

/-! ## C1 — the safety refusal and the exit code -/

/-- A source regular file and a destination directory at the same path. -/
def fileC1 : FObj :=
  .reg { perm := 0o644, uid := 0, gid := 0, mtime := 9, flags := 0,
         dev := 3 } [1, 2]

def dirC1 : FObj :=
  .dir { perm := 0o755, uid := 0, gid := 0, mtime := 9, flags := 0,
         dev := 7 } .nil

/-- **C1** (code bug): with the safety flag set (its default), a source
regular file over a destination directory makes `DoCopy` refuse to modify
the destination (correct), but the refusal is NOT recorded in the failure
count it returns: line 781 increments the local `r` (`++r; /* XXX */`) and
line 782 immediately discards it with `return(0)`, so a run whose only
event is such a refusal returns 0 and `main` exits with code 0, not 1.
This evaluation shows the destination unchanged, no destination mutation,
a returned failure count of 0 and an exit code of 0 at the failing
input. -/
theorem c1_safety_refusal_discards_error :
    (doCopyTop cfgBatch "src/f" (some fileC1)
        (.dest "dst/f" (some dirC1) none) 7).dst = some dirC1 ∧
    (doCopyTop cfgBatch "src/f" (some fileC1)
        (.dest "dst/f" (some dirC1) none) 7).r = 0 ∧
    (doCopyTop cfgBatch "src/f" (some fileC1)
        (.dest "dst/f" (some dirC1) none) 7).evs = [] ∧
    mainExit (doCopyTop cfgBatch "src/f" (some fileC1)
        (.dest "dst/f" (some dirC1) none) 7).r = 0 := by
  decide

/-! ## C8 — RemoveRecur and the device bound -/

/-- Entry membership in a directory's entry list. -/
def Ents.Mem (n : String) (o : FObj) : Ents → Prop
  | .nil => False
  | .cons n' o' rest => (n' = n ∧ o' = o) ∨ Ents.Mem n o rest

mutual
/-- Every node of the tree lives on device `d`. -/
def FObj.onDev : FObj → Nat → Bool
  | .reg m _, d => m.dev == d
  | .dir m ents, d => m.dev == d && ents.onDev d
  | .sym m _, d => m.dev == d
  | .dev m _ _, d => m.dev == d
  | .oth m, d => m.dev == d
def Ents.onDev : Ents → Nat → Bool
  | .nil, _ => true
  | .cons _ o rest, d => o.onDev d && rest.onDev d
end

mutual
/-- Number of filesystem objects in the tree. -/
def FObj.count : FObj → Nat
  | .reg _ _ => 1
  | .dir _ ents => 1 + ents.count
  | .sym _ _ => 1
  | .dev _ _ _ => 1
  | .oth _ => 1
def Ents.count : Ents → Nat
  | .nil => 0
  | .cons _ o rest => o.count + rest.count
end

theorem lstatOf_dev (o : FObj) : (lstatOf o).dev = o.meta.dev := by
  cases o <;> rfl

/-- Off-device objects are untouched (the `st.st_dev == devNo` test). -/
theorem removeObj_offDev (cfg : Config) (dpath : String) (obj : FObj)
    (devNo : Int) (hpos : 0 ≤ devNo)
    (hne : ((lstatOf obj).dev : Int) ≠ devNo) :
    removeObj cfg dpath obj devNo = (some obj, 0, []) := by
  have h1 : ¬devNo < 0 := by omega
  cases obj <;>
    (rw [removeObj] <;>
      first
      | (intro a b hh; exact FObj.noConfusion hh)
      | (simp only [h1, if_false]
         rw [if_neg hne]))

mutual
theorem removeObj_full (cfg : Config) (dpath : String) (obj : FObj)
    (devNo : Int) (d : Nat)
    (hask : cfg.askConfirmation = false) (hnr : cfg.noRemoveOpt = false)
    (hdev : obj.onDev d = true) (hdn : devNo = (d : Int) ∨ devNo < 0) :
    (removeObj cfg dpath obj devNo).1 = none ∧
      (removeObj cfg dpath obj devNo).2.1 = obj.count := by
  have hmd : obj.meta.dev = d := by
    cases obj <;> simp [FObj.onDev, FObj.meta] at hdev ⊢ <;> omega
  have hstd : (lstatOf obj).dev = d := by rw [lstatOf_dev, hmd]
  have hdev2 : (if devNo < 0 then ((d : Nat) : Int) else devNo) =
      ((d : Nat) : Int) := by
    rcases hdn with h | h
    · subst h
      simp
    · rw [if_pos h]
  cases obj with
  | dir m ents =>
    have hed : ents.onDev d = true := by
      simp [FObj.onDev] at hdev
      exact hdev.2
    have hrec := removeEnts_full cfg dpath ents ((d : Int)) d hask hnr hed
      (Or.inl rfl)
    rw [removeObj]
    simp only [hstd, hdev2, if_pos rfl]
    simp [hask, hnr, hrec.1, hrec.2, FObj.count, Nat.add_comm]
  | reg m content =>
    rw [removeObj] <;>
      first
      | (intro a b hh; exact FObj.noConfusion hh)
      | (simp only [hstd, hdev2, if_pos rfl]
         simp [hask, hnr, FObj.count])
  | sym m t =>
    rw [removeObj] <;>
      first
      | (intro a b hh; exact FObj.noConfusion hh)
      | (simp only [hstd, hdev2, if_pos rfl]
         simp [hask, hnr, FObj.count])
  | dev m b rd =>
    rw [removeObj] <;>
      first
      | (intro a b hh; exact FObj.noConfusion hh)
      | (simp only [hstd, hdev2, if_pos rfl]
         simp [hask, hnr, FObj.count])
  | oth m =>
    rw [removeObj] <;>
      first
      | (intro a b hh; exact FObj.noConfusion hh)
      | (simp only [hstd, hdev2, if_pos rfl]
         simp [hask, hnr, FObj.count])

theorem removeEnts_full (cfg : Config) (dpath : String) (ents : Ents)
    (devNo : Int) (d : Nat)
    (hask : cfg.askConfirmation = false) (hnr : cfg.noRemoveOpt = false)
    (hdev : ents.onDev d = true)
    (hdn : devNo = (d : Int) ∨ devNo < 0) :
    (removeEnts cfg dpath ents devNo).1 = .nil ∧
      (removeEnts cfg dpath ents devNo).2.1 = ents.count := by
  cases ents with
  | nil => simp [removeEnts, Ents.count]
  | cons n o rest =>
    have hod : o.onDev d = true := by
      simp [Ents.onDev] at hdev; exact hdev.1
    have hrd : rest.onDev d = true := by
      simp [Ents.onDev] at hdev; exact hdev.2
    have h1 := removeObj_full cfg (dpath ++ "/" ++ n) o devNo d hask hnr
      hod hdn
    have h2 := removeEnts_full cfg dpath rest devNo d hask hnr hrd hdn
    rw [removeEnts]
    simp only [h1.1, h2.1]
    simp [Ents.count, h1.2, h2.2]
end

/-- An off-device entry of a directory survives the pruning of that
directory's entries, unchanged. -/
theorem removeEnts_keeps_offDev (cfg : Config) (dpath : String) :
    ∀ (ents : Ents) (devNo : Int) (n : String) (c : FObj),
      0 ≤ devNo → Ents.Mem n c ents → ((lstatOf c).dev : Int) ≠ devNo →
      Ents.Mem n c (removeEnts cfg dpath ents devNo).1
  | .nil, devNo, n, c => by
    intro _ hmem _
    exact absurd hmem id
  | .cons n' o' rest, devNo, n, c => by
    intro hpos hmem hne
    rw [removeEnts]
    rcases hmem with ⟨rfl, rfl⟩ | hmem
    · rw [removeObj_offDev cfg (dpath ++ "/" ++ n') _ devNo hpos hne]
      simp [Ents.Mem]
    · have hrest := removeEnts_keeps_offDev cfg dpath rest devNo n c hpos
        hmem hne
      rcases hobj : (removeObj cfg (dpath ++ "/" ++ n') o' devNo).1
        with _ | o2
      · simpa [hobj] using hrest
      · simp only [hobj]
        exact Or.inr hrest

/-- **C8**: (a) for every destination object whose `lstat` reports a
device-id different from the non-negative device-id passed to the
pruner, `RemoveRecur` removes nothing at or below that path; (b) within
one device (non-interactive, removal enabled) a tree is fully pruned —
directories by recursively removing contents before the `rmdir`, files by
the unlink — every object being removed and counted; (c) removal never
crosses a mount point: an entry of a matching directory that lives on a
different device survives, with its entire subtree intact. -/
theorem c8_removerecur_device_bound :
    (∀ (cfg : Config) (dpath : String) (obj : FObj) (devNo : Int),
      0 ≤ devNo → ((lstatOf obj).dev : Int) ≠ devNo →
      removeRecur cfg dpath (some obj) devNo = (some obj, 0, [])) ∧
    (∀ (cfg : Config) (dpath : String) (obj : FObj) (devNo : Int) (d : Nat),
      cfg.askConfirmation = false → cfg.noRemoveOpt = false →
      obj.onDev d = true → (devNo = (d : Int) ∨ devNo < 0) →
      (removeRecur cfg dpath (some obj) devNo).1 = none ∧
        (removeRecur cfg dpath (some obj) devNo).2.1 = obj.count) ∧
    (∀ (cfg : Config) (dpath : String) (m : Meta) (ents : Ents)
       (devNo : Int) (n : String) (c : FObj),
      0 ≤ devNo → (m.dev : Int) = devNo → Ents.Mem n c ents →
      ((lstatOf c).dev : Int) ≠ devNo →
      ∃ (ents' : Ents) (k : Nat) (evs : List Ev),
        removeRecur cfg dpath (some (.dir m ents)) devNo =
          (some (.dir m ents'), k, evs) ∧ Ents.Mem n c ents') := by
  refine ⟨?_, ?_, ?_⟩
  · intro cfg dpath obj devNo hpos hne
    exact removeObj_offDev cfg dpath obj devNo hpos hne
  · intro cfg dpath obj devNo d hask hnr hdev hdn
    exact removeObj_full cfg dpath obj devNo d hask hnr hdev hdn
  · intro cfg dpath m ents devNo n c hpos hmdev hmem hne
    have hkeep := removeEnts_keeps_offDev cfg dpath ents devNo n c hpos
      hmem hne
    have hne' : (removeEnts cfg dpath ents devNo).1 ≠ .nil := by
      intro hnil
      rw [hnil] at hkeep
      exact hkeep
    rw [removeRecur, removeObj]
    have h1 : ¬devNo < 0 := by omega
    have hdev' : ((lstatOf (FObj.dir m ents)).dev : Int) = devNo := by
      rw [lstatOf_dev]; exact hmdev
    simp only [h1, if_false, hdev', if_pos rfl]
    by_cases ha : cfg.askConfirmation ∧ ¬cfg.noRemoveOpt
    · rw [if_pos ha]
      by_cases hy : cfg.yes dpath
      · rw [if_pos hy, if_neg hne']
        exact ⟨_, _, _, rfl, hkeep⟩
      · rw [if_neg hy]
        exact ⟨_, _, _, rfl, hkeep⟩
    · rw [if_neg ha]
      by_cases hno : cfg.noRemoveOpt
      · rw [if_pos hno]
        exact ⟨_, _, _, rfl, hkeep⟩
      · rw [if_neg hno, if_neg hne']
        exact ⟨_, _, _, rfl, hkeep⟩

def mC8 : Meta :=
  { perm := 0o755, uid := 0, gid := 0, mtime := 9, flags := 0, dev := 7 }

/-- Witness for C8 at concrete inputs: off-device directory untouched,
on-device directory fully pruned, and an off-device entry (`fileC1`, on
device 3) surviving the pruning of its device-7 parent. -/
theorem c8_removerecur_device_bound_witness :
    removeRecur cfgBatch "d/cross" (some dirC1) 9 = (some dirC1, 0, []) ∧
    ((removeRecur cfgBatch "d" (some dirC1) 7).1 = none ∧
      (removeRecur cfgBatch "d" (some dirC1) 7).2.1 = dirC1.count) ∧
    (∃ (ents' : Ents) (k : Nat) (evs : List Ev),
      removeRecur cfgBatch "d"
          (some (.dir mC8 (.cons "mnt" fileC1 .nil))) 7 =
        (some (.dir mC8 ents'), k, evs) ∧
      Ents.Mem "mnt" fileC1 ents') := by
  refine ⟨?_, ?_, ?_⟩
  · exact c8_removerecur_device_bound.1 cfgBatch "d/cross" dirC1 9
      (by decide) (by decide)
  · exact c8_removerecur_device_bound.2.1 cfgBatch "d" dirC1 7 7
      (by decide) (by decide) (by decide) (Or.inl rfl)
  · exact c8_removerecur_device_bound.2.2 cfgBatch "d" _ _ 7 "mnt" fileC1
      (by decide) (by decide) (Or.inl ⟨rfl, rfl⟩) (by decide)

/-! ## C2 — the IgnoreList tag scheme of the directory pass -/

/-- The evolution of the ignore list over the source readdir loop: the
`AddList(den->d_name, 0)` call runs for every non-`.`/`..` entry (the
child recursion never touches the list). -/
def scanList : Ents → List (String × Nat) → List (String × Nat)
  | .nil, list => list
  | .cons n _ rest, list =>
    if n = "." ∨ n = ".." then scanList rest list
    else scanList rest (addList list n 0).2

/-- The real source loop's list is exactly `scanList`. -/
theorem doCopyEnts_list (cfg : Config) (spath : String) (dpO : Option String)
    (sdev ddev : Int) (dcdev : Nat) :
    ∀ (ents : Ents) (list : List (String × Nat)) (dents : Ents),
      (doCopyEnts cfg spath dpO ents list dents sdev ddev dcdev).list =
        scanList ents list
  | .nil, list, dents => rfl
  | .cons n child rest, list, dents => by
    rw [scanList]
    simp only [doCopyEnts]
    by_cases hdot : n = "." ∨ n = ".."
    · rw [if_pos hdot, if_pos hdot]
      exact doCopyEnts_list cfg spath dpO sdev ddev dcdev rest list dents
    · rw [if_neg hdot, if_neg hdot]
      by_cases h1 : (addList list n 0).1 = 1
      · rw [if_pos h1]
        exact doCopyEnts_list cfg spath dpO sdev ddev dcdev rest
          (addList list n 0).2 dents
      · rw [if_neg h1]
        exact doCopyEnts_list cfg spath dpO sdev ddev dcdev rest
          (addList list n 0).2 _

/-- A fresh name is inserted with the caller's tag and that tag is
returned. -/
theorem addList_fresh (list : List (String × Nat)) (n : String) (k : Nat)
    (hw : wildPass n k list = none) (he : exactPass n list = none) :
    addList list n k = (k, (n, k) :: list) := by
  rw [addList, hw, he]

theorem wildPass_mem (n : String) (k : Nat) :
    ∀ (l : List (String × Nat)) (v : Nat), wildPass n k l = some v →
      ∃ p ∈ l, p.2 = v := by
  intro l
  induction l with
  | nil => intro v h; exact absurd h (by simp [wildPass])
  | cons p rest ih =>
    intro v h
    rw [wildPass] at h
    split at h
    · exact ⟨p, by simp, by injection h⟩
    · obtain ⟨q, hq, hv⟩ := ih v h
      exact ⟨q, by simp [hq], hv⟩

theorem exactPass_mem (n : String) :
    ∀ (l : List (String × Nat)) (v : Nat), exactPass n l = some v →
      ∃ p ∈ l, p.2 = v := by
  intro l
  induction l with
  | nil => intro v h; exact absurd h (by simp [exactPass])
  | cons p rest ih =>
    intro v h
    rw [exactPass] at h
    split at h
    · exact ⟨p, by simp, by injection h⟩
    · obtain ⟨q, hq, hv⟩ := ih v h
      exact ⟨q, by simp [hq], hv⟩

/-- On a list that carries no tag-3 entry yet (as at the start of the
prune loop, where tags are 1 from the ignore file and 0 from the source
scan), `AddList(name, 3)` returns 3 exactly for a name that is neither an
ignore match nor a name seen during the source scan. -/
theorem addList_three (list : List (String × Nat)) (n : String)
    (h3 : ∀ p ∈ list, p.2 ≠ 3) :
    (addList list n 3).1 = 3 ↔
      wildPass n 3 list = none ∧ exactPass n list = none := by
  constructor
  · intro h
    rw [addList] at h
    rcases hw : wildPass n 3 list with _ | v
    · rcases he : exactPass n list with _ | v
      · exact ⟨rfl, rfl⟩
      · rw [hw, he] at h
        simp at h
        obtain ⟨p, hp, hv⟩ := exactPass_mem n list v he
        exact absurd (hv.trans h) (h3 p hp)
    · rw [hw] at h
      simp at h
      obtain ⟨p, hp, hv⟩ := wildPass_mem n 3 list v hw
      exact absurd (hv.trans h) (h3 p hp)
  · rintro ⟨hw, he⟩
    rw [addList_fresh list n 3 hw he]

/-- **C2 counterexample**: the claim says every surviving source entry is
inserted into the per-directory IgnoreList with tag 2.  Scanning a source
directory with the single entry `a` (no ignore file, fresh list) records
`a` with tag 0 — the `AddList(den->d_name, 0)` call on line 905 passes 0,
not 2 — so the tag-2 part of the claim is false at this input. -/
theorem c2_counterexample :
    (doCopyEnts cfgBatch "s" (some "d") (.cons "a" fileC1 .nil) [] .nil
        3 7 7).list = [("a", 0)] ∧
    exactPass "a" (doCopyEnts cfgBatch "s" (some "d")
        (.cons "a" fileC1 .nil) [] .nil 3 7 7).list ≠ some 2 := by
  constructor
  · decide
  · decide

/-- **C2 (amended)**: during directory handling, every surviving source
entry is inserted into the per-directory IgnoreList with tag 0 (not 2);
each destination entry is looked up / inserted with tag 3; and a
destination entry is passed to the pruner exactly when that lookup
returns 3, which (on a list without prior tag-3 entries) happens exactly
when the entry was neither seen during source traversal nor matched by an
ignore pattern. -/
theorem c2_ignorelist_tag_scheme :
    (∀ (cfg : Config) (spath : String) (dpO : Option String)
       (sdev ddev : Int) (dcdev : Nat) (ents : Ents)
       (list : List (String × Nat)) (dents : Ents),
      (doCopyEnts cfg spath dpO ents list dents sdev ddev dcdev).list =
        scanList ents list) ∧
    (∀ (list : List (String × Nat)) (n : String),
      wildPass n 0 list = none → exactPass n list = none →
      addList list n 0 = (0, (n, 0) :: list)) ∧
    (∀ (list : List (String × Nat)) (n : String),
      (∀ p ∈ list, p.2 ≠ 3) →
      ((addList list n 3).1 = 3 ↔
        wildPass n 3 list = none ∧ exactPass n list = none)) ∧
    (∀ (cfg : Config) (dpath : String) (n : String) (obj : FObj)
       (rest : Ents) (list : List (String × Nat)) (ddev : Int),
      ¬(n = "." ∨ n = "..") →
      ((addList list n 3).1 = 3 →
        (pruneEnts cfg dpath (.cons n obj rest) list ddev).1 =
          (match (removeObj cfg (dpath ++ "/" ++ n) obj ddev).1 with
           | none =>
             (pruneEnts cfg dpath rest (addList list n 3).2 ddev).1
           | some o =>
             .cons n o
               (pruneEnts cfg dpath rest (addList list n 3).2 ddev).1)) ∧
      ((addList list n 3).1 ≠ 3 →
        (pruneEnts cfg dpath (.cons n obj rest) list ddev).1 =
          .cons n obj
            (pruneEnts cfg dpath rest (addList list n 3).2 ddev).1)) := by
  refine ⟨?_, ?_, ?_, ?_⟩
  · intro cfg spath dpO sdev ddev dcdev ents list dents
    exact doCopyEnts_list cfg spath dpO sdev ddev dcdev ents list dents
  · intro list n hw he
    exact addList_fresh list n 0 hw he
  · intro list n h3
    exact addList_three list n h3
  · intro cfg dpath n obj rest list ddev hdot
    constructor
    · intro h3
      rw [pruneEnts, if_neg hdot, if_pos h3]
    · intro h3
      rw [pruneEnts, if_neg hdot, if_neg h3]

/-- Witness for C2 at concrete inputs. -/
theorem c2_ignorelist_tag_scheme_witness :
    addList [("keep", 0)] "stale" 0 = (0, [("stale", 0), ("keep", 0)]) ∧
    ((addList [("keep", 0)] "stale" 3).1 = 3 ↔
      wildPass "stale" 3 [("keep", 0)] = none ∧
        exactPass "stale" [("keep", 0)] = none) ∧
    (pruneEnts cfgBatch "d" (.cons "stale" fileC1 .nil) [("keep", 0)]
        3).1 =
      (match (removeObj cfgBatch ("d" ++ "/" ++ "stale") fileC1 3).1 with
       | none =>
         (pruneEnts cfgBatch "d" .nil
           (addList [("keep", 0)] "stale" 3).2 3).1
       | some o =>
         .cons "stale" o
           (pruneEnts cfgBatch "d" .nil
             (addList [("keep", 0)] "stale" 3).2 3).1) := by
  refine ⟨?_, ?_, ?_⟩
  · exact c2_ignorelist_tag_scheme.2.1 [("keep", 0)] "stale" (by decide)
      (by decide)
  · exact c2_ignorelist_tag_scheme.2.2.1 [("keep", 0)] "stale"
      (by decide)
  · exact (c2_ignorelist_tag_scheme.2.2.2 cfgBatch "d" "stale" fileC1
      .nil [("keep", 0)] 3 (by decide)).1 (by decide)

/-! ## C3 — idempotence of replication

Supporting development.  The work path for a child `x` of a destination
directory is the sibling name `x.tmp` in the same directory (cpdup.c line
993: `snprintf(path, ..., "%s.tmp", dpath)`), so a destination object
already sitting at `x.tmp` — or a source sibling actually named `x.tmp` —
interferes with the copy of `x`.  `c3_counterexample` exhibits the
resulting failure of literal idempotence; the amended theorem proves
idempotence for a batch configuration under `.tmp`-hygiene side
conditions on the trees. -/

theorem lookup_set_ne (m n : String) (v : Option FObj) (h : n ≠ m) :
    ∀ d : Ents, (d.set m v).lookup n = d.lookup n
  | .nil => by cases v <;> simp [Ents.set, Ents.lookup, Ne.symm h]
  | .cons k o rest => by
    by_cases hk : k = m
    · subst hk
      cases v with
      | none => simp [Ents.set, Ents.lookup, Ne.symm h]
      | some o2 => simp [Ents.set, Ents.lookup, Ne.symm h]
    · by_cases hkn : k = n
      · simp [Ents.set, Ents.lookup, hk, hkn, h]
      · simp [Ents.set, Ents.lookup, hk, hkn, lookup_set_ne m n v h rest]

theorem lookup_set_self (n : String) (o : FObj) :
    ∀ d : Ents, (d.set n (some o)).lookup n = some o
  | .nil => by simp [Ents.set, Ents.lookup]
  | .cons k o2 rest => by
    by_cases hk : k = n
    · simp [Ents.set, Ents.lookup, hk]
    · simp [Ents.set, Ents.lookup, hk, lookup_set_self n o rest]

theorem set_eq_of_lookup (n : String) :
    ∀ (d : Ents) (v : Option FObj), d.lookup n = v → d.set n v = d
  | .nil, v => by
    intro h
    rw [Ents.lookup] at h
    subst h
    rfl
  | .cons k o rest, v => by
    intro h
    rw [Ents.lookup] at h
    by_cases hk : k = n
    · rw [if_pos hk] at h
      subst h
      simp [Ents.set, hk]
    · rw [if_neg hk] at h
      simp [Ents.set, hk, set_eq_of_lookup n rest v h]

/-- First tag recorded under a name (both AddList buckets scan in list
order, so the first entry with the name decides). -/
def tagOf : List (String × Nat) → String → Option Nat
  | [], _ => none
  | (m, v) :: rest, n => if m = n then some v else tagOf rest n

theorem exactPass_eq_tagOf (n : String) :
    ∀ list, exactPass n list = tagOf list n
  | [] => rfl
  | (m, v) :: rest => by
    rw [exactPass, tagOf]
    by_cases h : m = n
    · simp [h]
    · simp [h, exactPass_eq_tagOf n rest]

theorem wildPass_noTag1 (n : String) (k : Nat) :
    ∀ list, (∀ p ∈ list, p.2 ≠ 1) →
      wildPass n k list = if isWildStr n = true then tagOf list n else none
  | [] => by
    intro _
    cases h : isWildStr n <;> simp [wildPass, tagOf, h]
  | (m, v) :: rest => by
    intro h1
    have hv : v ≠ 1 := h1 (m, v) (by simp)
    have hr := wildPass_noTag1 n k rest (fun p hp => h1 p (by simp [hp]))
    rw [wildPass, tagOf]
    by_cases hm : m = n
    · subst hm
      by_cases hw : isWildStr m = true
      · simp [hw]
      · simp [hw, hv]
        simp [hw] at hr
        exact hr
    · simp [hm, hv]
      exact hr

/-- On a list with no tag-1 (pattern) entries, `AddList` is a pure
first-tag lookup with insert-on-miss. -/
theorem addList_noTag1 (list : List (String × Nat)) (n : String) (k : Nat)
    (h1 : ∀ p ∈ list, p.2 ≠ 1) :
    addList list n k =
      match tagOf list n with
      | some t => (t, list)
      | none => (k, (n, k) :: list) := by
  rw [addList, wildPass_noTag1 n k list h1, exactPass_eq_tagOf]
  by_cases hw : isWildStr n = true
  · rw [if_pos hw]
    cases htag : tagOf list n <;> simp [htag]
  · rw [if_neg hw]

theorem tags0_noTag1 (list : List (String × Nat))
    (h : ∀ p ∈ list, p.2 = 0) : ∀ p ∈ list, p.2 ≠ 1 := by
  intro p hp
  simp [h p hp]

theorem tags0_addList (list : List (String × Nat)) (n : String)
    (h : ∀ p ∈ list, p.2 = 0) : ∀ p ∈ (addList list n 0).2, p.2 = 0 := by
  rw [addList_noTag1 list n 0 (tags0_noTag1 list h)]
  cases htag : tagOf list n with
  | none =>
    intro p hp
    rcases (by simpa using hp : p = (n, 0) ∨ p ∈ list) with rfl | hp2
    · rfl
    · exact h p hp2
  | some t => exact fun p hp => h p hp

theorem tags0_scanList : ∀ (ents : Ents) (list : List (String × Nat)),
    (∀ p ∈ list, p.2 = 0) → ∀ p ∈ scanList ents list, p.2 = 0
  | .nil, list => fun h => h
  | .cons n _ rest, list => fun h => by
    rw [scanList]
    by_cases hdot : n = "." ∨ n = ".."
    · rw [if_pos hdot]
      exact tags0_scanList rest list h
    · rw [if_neg hdot]
      exact tags0_scanList rest _ (tags0_addList list n h)

theorem tagOf_addList_mono (list : List (String × Nat)) (n m : String)
    (k t : Nat) (h1 : ∀ p ∈ list, p.2 ≠ 1) (h : tagOf list m = some t) :
    tagOf (addList list n k).2 m = some t := by
  rw [addList_noTag1 list n k h1]
  cases htag : tagOf list n with
  | none =>
    have hnm : n ≠ m := fun he => by rw [he, h] at htag; exact Option.noConfusion htag
    simpa [tagOf, hnm] using h
  | some v => simpa using h

theorem tagOf_scanList_mono : ∀ (ents : Ents) (list : List (String × Nat))
    (m : String) (t : Nat), (∀ p ∈ list, p.2 = 0) → tagOf list m = some t →
    tagOf (scanList ents list) m = some t
  | .nil, _, _, _ => fun _ h => h
  | .cons n _ rest, list, m, t => fun h0 h => by
    rw [scanList]
    by_cases hdot : n = "." ∨ n = ".."
    · rw [if_pos hdot]
      exact tagOf_scanList_mono rest list m t h0 h
    · rw [if_neg hdot]
      exact tagOf_scanList_mono rest _ m t (tags0_addList list n h0)
        (tagOf_addList_mono list n m 0 t (tags0_noTag1 list h0) h)

/-- Every name scanned from the source ends up with tag 0. -/
theorem tagOf_scanList_self : ∀ (ents : Ents) (list : List (String × Nat))
    (n : String), (∀ p ∈ list, p.2 = 0) → n ∈ Ents.names ents →
    n ≠ "." → n ≠ ".." → tagOf (scanList ents list) n = some 0
  | .nil, _, n => by
    intro _ hmem _ _
    simp [Ents.names] at hmem
  | .cons k _ rest, list, n => by
    intro h0 hmem hd1 hd2
    rw [scanList]
    by_cases hdot : k = "." ∨ k = ".."
    · rw [if_pos hdot]
      have hk : n ≠ k := by
        rcases hdot with h | h <;> rw [h] <;> assumption
      have : n ∈ Ents.names rest := by
        simpa [Ents.names, hk] using hmem
      exact tagOf_scanList_self rest list n h0 this hd1 hd2
    · rw [if_neg hdot]
      by_cases hk : n = k
      · subst hk
        refine tagOf_scanList_mono rest _ n 0 (tags0_addList list n h0) ?_
        rw [addList_noTag1 list n 0 (tags0_noTag1 list h0)]
        cases htag : tagOf list n with
        | none => simp [tagOf]
        | some t =>
          have : t = 0 := by
            have := exactPass_mem n list t
            rw [exactPass_eq_tagOf] at this
            obtain ⟨p, hp, hv⟩ := this htag
            rw [← hv]
            exact h0 p hp
          subst this
          simpa using htag
      · have : n ∈ Ents.names rest := by
          simpa [Ents.names, hk] using hmem
        exact tagOf_scanList_self rest _ n (tags0_addList list k h0) this hd1 hd2

/-- A name with an entry in the scan output either is a source name or
already had an entry. -/
theorem tagOf_scanList_keys : ∀ (ents : Ents) (list : List (String × Nat))
    (n : String) (t : Nat),
    (∀ p ∈ list, p.2 = 0) → tagOf (scanList ents list) n = some t →
    n ∈ Ents.names ents ∨ tagOf list n = some t
  | .nil, _, _, _ => fun _ h => Or.inr h
  | .cons k _ rest, list, n, t => fun h0 h => by
    rw [scanList] at h
    by_cases hdot : k = "." ∨ k = ".."
    · rw [if_pos hdot] at h
      rcases tagOf_scanList_keys rest list n t h0 h with h2 | h2
      · exact Or.inl (by simp [Ents.names, h2])
      · exact Or.inr h2
    · rw [if_neg hdot] at h
      rcases tagOf_scanList_keys rest _ n t (tags0_addList list k h0) h with h2 | h2
      · exact Or.inl (by simp [Ents.names, h2])
      · by_cases hk : k = n
        · exact Or.inl (by simp [Ents.names, hk])
        · rw [addList_noTag1 list k 0 (tags0_noTag1 list h0)] at h2
          cases htag : tagOf list k with
          | none =>
            rw [htag] at h2
            simp [tagOf, hk] at h2
            exact Or.inr h2
          | some v =>
            rw [htag] at h2
            exact Or.inr h2

mutual
theorem doCopyEnts_noDest (cfg : Config) (spath : String) :
    ∀ (ents : Ents) (list : List (String × Nat)) (dents : Ents)
      (sdev ddev : Int) (dcdev : Nat),
      doCopyEnts cfg spath none ents list dents sdev ddev dcdev =
        { dents := dents, list := scanList ents list, r := 0, copied := 0,
          removed := 0, srcItems := 0, evs := [] }
  | .nil, list, dents, sdev, ddev, dcdev => rfl
  | .cons n child rest, list, dents, sdev, ddev, dcdev => by
    rw [scanList]
    simp only [doCopyEnts]
    by_cases hdot : n = "." ∨ n = ".."
    · rw [if_pos hdot, if_pos hdot]
      exact doCopyEnts_noDest cfg spath rest list dents sdev ddev dcdev
    · rw [if_neg hdot, if_neg hdot]
      by_cases h1 : (addList list n 0).1 = 1
      · rw [if_pos h1]
        exact doCopyEnts_noDest cfg spath rest (addList list n 0).2 dents
          sdev ddev dcdev
      · rw [if_neg h1]
        have hc := doCopy_noDest cfg (spath ++ "/" ++ n) child sdev ddev
          dcdev
        have ht := doCopyEnts_noDest cfg spath rest (addList list n 0).2
          dents sdev ddev dcdev
        simp [hc, ht]

theorem doCopy_noDest (cfg : Config) (spath : String) :
    ∀ (src : FObj) (sdevNo ddevNo : Int) (dcdev : Nat),
      doCopy cfg spath src .noDest sdevNo ddevNo dcdev =
        { dst := none, r := 0, copied := 0, removed := 0, srcItems := 0,
          evs := [], tmpFx := none }
  | .dir m ents, sdevNo, ddevNo, dcdev => by
    simp only [doCopy]
    rw [doCopyEnts_noDest cfg spath ents]
    simp [apply_ite EntsRes.r, apply_ite EntsRes.copied,
      apply_ite EntsRes.removed, apply_ite EntsRes.srcItems,
      apply_ite EntsRes.evs]
  | .reg m c, sdevNo, ddevNo, dcdev => rfl
  | .sym m t, sdevNo, ddevNo, dcdev => rfl
  | .dev m b r, sdevNo, ddevNo, dcdev => rfl
  | .oth m, sdevNo, ddevNo, dcdev => rfl
end

/-- **C10**: for every source, a `DoCopy` call with a null destination
path (digest-refresh mode) returns 0 and performs no mutating operation
on the destination host — no remove, mkdir, rename, link, symlink, write,
chown, chmod, chflags, utimes, umask or mknod is issued (the recorded
destination-mutation list is empty), in the call and in all of its
recursive children, and no item counter moves. -/
theorem c10_null_dpath_mutates_nothing (cfg : Config) (spath : String)
    (src : Option FObj) (s : FObj) (sdevNo ddevNo : Int)
    (dcdev dcdev0 : Nat) :
    doCopyTop cfg spath src .noDest dcdev0 =
      { dst := none, r := 0, copied := 0, removed := 0, srcItems := 0,
        evs := [], tmpFx := none } ∧
    doCopy cfg spath s .noDest sdevNo ddevNo dcdev =
      { dst := none, r := 0, copied := 0, removed := 0, srcItems := 0,
        evs := [], tmpFx := none } := by
  constructor
  · cases src with
    | none => rfl
    | some s' => exact doCopy_noDest cfg spath s' (-1) (-1) dcdev0
  · exact doCopy_noDest cfg spath s sdevNo ddevNo dcdev

theorem string_append_cancel (a b t : String) (h : a ++ t = b ++ t) :
    a = b := by
  have hd : a.data ++ t.data = b.data ++ t.data := by
    have h2 := congrArg String.data h
    simpa using h2
  cases a with
  | mk la =>
    cases b with
    | mk lb =>
      exact congrArg String.mk (List.append_cancel_right hd)

theorem ne_self_append_tmp (n : String) : n ≠ n ++ ".tmp" := by
  intro h
  have h2 := congrArg String.length h
  simp [String.length_append] at h2
  exact absurd h2 (by decide)

def memS (n : String) : List String → Bool
  | [] => false
  | m :: r => n == m || memS n r

theorem memS_iff (n : String) : ∀ l, memS n l = true ↔ n ∈ l
  | [] => by simp [memS]
  | m :: r => by
    rw [memS]
    simp [memS_iff n r]

/-- No cross pair `m`/`m ++ ".tmp"` between `n` and the other names. -/
def noTmpPair (n : String) : List String → Bool
  | [] => true
  | m :: r => !(m == n ++ ".tmp") && !(n == m ++ ".tmp") && noTmpPair n r

theorem noTmpPair_spec (n : String) : ∀ l, noTmpPair n l = true →
    ∀ m ∈ l, m ≠ n ++ ".tmp" ∧ n ≠ m ++ ".tmp"
  | [] => by simp
  | m :: r => by
    rw [noTmpPair]
    intro h k hk
    simp only [Bool.and_eq_true, Bool.not_eq_true', beq_eq_false_iff_ne] at h
    rcases (by simpa using hk : k = m ∨ k ∈ r) with rfl | hk2
    · exact ⟨h.1.1, h.1.2⟩
    · exact noTmpPair_spec n r h.2 k hk2

/-- Well-formed directory listing on the source side: no `.`/`..`, no
duplicate, and no sibling pair `x`/`x.tmp` (the work path of `x` would be
the sibling `x.tmp`). -/
def namesOK : List String → Bool
  | [] => true
  | n :: rest =>
    !(n == ".") && !(n == "..") && !(memS n rest) && noTmpPair n rest &&
      namesOK rest

theorem namesOK_spec (n : String) (rest : List String)
    (h : namesOK (n :: rest) = true) :
    n ≠ "." ∧ n ≠ ".." ∧ ¬n ∈ rest ∧
      (∀ m ∈ rest, m ≠ n ++ ".tmp" ∧ n ≠ m ++ ".tmp") ∧
      namesOK rest = true := by
  rw [namesOK] at h
  simp only [Bool.and_eq_true, Bool.not_eq_true', beq_eq_false_iff_ne] at h
  refine ⟨h.1.1.1.1, h.1.1.1.2, ?_, noTmpPair_spec n rest h.1.2, h.2⟩
  intro hmem
  rw [(memS_iff n rest).mpr hmem] at h
  exact Bool.noConfusion h.1.1.2

theorem namesOK_nondot : ∀ l, namesOK l = true →
    ∀ n ∈ l, n ≠ "." ∧ n ≠ ".."
  | [] => by simp
  | m :: r => by
    intro h k hk
    obtain ⟨h1, h2, _, _, h5⟩ := namesOK_spec m r h
    rcases (by simpa using hk : k = m ∨ k ∈ r) with rfl | hk2
    · exact ⟨h1, h2⟩
    · exact namesOK_nondot r h5 k hk2

def isDirO : Option FObj → Bool
  | some (.dir _ _) => true
  | _ => false

def isNeDirO : Option FObj → Bool
  | some (.dir _ (.cons _ _ _)) => true
  | _ => false

/-- The temp-sibling hazard: copying a regular file, symlink or device
node stages the new object at `<dpath>.tmp`; `hc_remove` mirrors POSIX
`remove()`, which clears an empty directory (`rmdir`) but fails on a
non-empty one, so only a non-empty directory sitting at the work path
wedges the copy (`O_EXCL`, `symlink` and `mknod` then hit the surviving
name).  Directories and unsupported kinds never touch the work path. -/
def tmpHazOK : FObj → Option FObj → Bool
  | .dir _ _, _ => true
  | .oth _, _ => true
  | _, t => !(isNeDirO t)

mutual
/-- Source-side `.tmp` hygiene, recursively. -/
def srcSafe : FObj → Bool
  | .dir _ ents => namesOK (Ents.names ents) && entsSafe ents
  | _ => true
def entsSafe : Ents → Bool
  | .nil => true
  | .cons _ c rest => srcSafe c && entsSafe rest
end

mutual
/-- Destination-side `.tmp` hygiene against the source tree: wherever a
source directory and a destination directory coexist, no source child of
kind regular/symlink/device has a non-empty directory parked on its work
path. -/
def pairSafe : FObj → Option FObj → Bool
  | .dir _ ents, some (.dir _ dents) => pairEnts ents dents
  | _, _ => true
def pairEnts : Ents → Ents → Bool
  | .nil, _ => true
  | .cons n c rest, dents =>
    tmpHazOK c (dents.lookup (n ++ ".tmp")) &&
      pairSafe c (dents.lookup n) && pairEnts rest dents
end

theorem tmpHazOK_none (src : FObj) : tmpHazOK src none = true := by
  cases src <;> rfl

theorem pairSafe_none (src : FObj) : pairSafe src none = true := by
  cases src <;> rfl

theorem pairEnts_nil : ∀ ents : Ents, pairEnts ents .nil = true
  | .nil => rfl
  | .cons n c rest => by
    rw [pairEnts]
    simp [Ents.lookup, tmpHazOK_none, pairSafe_none, pairEnts_nil rest]

theorem buildIgnList_batch (cfg : Config) (hC : cfg.useCpFile = none)
    (hM : cfg.useMD5 = false) (hI : cfg.useFSMID = false) (spath : String) :
    buildIgnList cfg spath = [] := by
  simp [buildIgnList, hC, hM, hI]

/-! Re-running the pruner over its own residue removes nothing further and
counts nothing: every survivor is either off-device or a directory whose
surviving entries are themselves residues. -/

mutual
theorem removeObj_stable (cfg : Config) (hA : cfg.askConfirmation = false)
    (hN : cfg.noRemoveOpt = false) (dv : Int) (hdv : 0 ≤ dv) :
    ∀ (obj : FObj) (p : String) (o2 : FObj),
      (removeObj cfg p obj dv).1 = some o2 →
      (removeObj cfg p o2 dv).1 = some o2 ∧
        (removeObj cfg p o2 dv).2.1 = 0
  | .dir m ents, p, o2 => by
    intro h
    have hlt : ¬dv < 0 := not_lt.mpr hdv
    by_cases hdev : (((lstatOf (FObj.dir m ents)).dev : Nat) : Int) = dv
    · have hrec := removeEnts_stable cfg hA hN dv hdv ents p
      rw [removeObj] at h
      simp only [hlt, if_false] at h
      rw [if_pos hdev] at h
      simp only [hA, hN, Bool.false_eq_true, false_and, if_false] at h
      by_cases hnil : (removeEnts cfg p ents dv).1 = .nil
      · rw [if_pos hnil] at h
        exact Option.noConfusion h
      · rw [if_neg hnil] at h
        have ho2 : o2 = FObj.dir m (removeEnts cfg p ents dv).1 := by
          have := h
          simp only at this
          exact (Option.some.injEq _ _ ▸ this.symm)
        subst ho2
        have hdev2 :
            (((lstatOf (FObj.dir m (removeEnts cfg p ents dv).1)).dev :
              Nat) : Int) = dv := by
          simpa [lstatOf] using hdev
        rw [removeObj]
        simp only [hlt, if_false]
        rw [if_pos hdev2]
        simp only [hA, hN, Bool.false_eq_true, false_and, if_false]
        rw [if_neg (by rw [hrec.1]; exact hnil)]
        simp [hrec.1, hrec.2]
    · rw [removeObj_offDev cfg p _ dv hdv hdev] at h
      have ho2 : o2 = FObj.dir m ents := by
        simp only at h
        exact (Option.some.injEq _ _ ▸ h.symm)
      subst ho2
      rw [removeObj_offDev cfg p _ dv hdv hdev]
      exact ⟨rfl, rfl⟩
  | .reg m c, p, o2 => by
    intro h
    have hlt : ¬dv < 0 := not_lt.mpr hdv
    by_cases hdev : (((lstatOf (FObj.reg m c)).dev : Nat) : Int) = dv
    · rw [removeObj] at h <;>
        first
        | (intro a b hh; exact FObj.noConfusion hh)
        | (simp only [hlt, if_false] at h
           rw [if_pos hdev] at h
           simp [hA, hN] at h)
    · rw [removeObj_offDev cfg p _ dv hdv hdev] at h
      have ho2 : o2 = FObj.reg m c := by
        simp only at h
        exact (Option.some.injEq _ _ ▸ h.symm)
      subst ho2
      rw [removeObj_offDev cfg p _ dv hdv hdev]
      exact ⟨rfl, rfl⟩
  | .sym m t, p, o2 => by
    intro h
    have hlt : ¬dv < 0 := not_lt.mpr hdv
    by_cases hdev : (((lstatOf (FObj.sym m t)).dev : Nat) : Int) = dv
    · rw [removeObj] at h <;>
        first
        | (intro a b hh; exact FObj.noConfusion hh)
        | (simp only [hlt, if_false] at h
           rw [if_pos hdev] at h
           simp [hA, hN] at h)
    · rw [removeObj_offDev cfg p _ dv hdv hdev] at h
      have ho2 : o2 = FObj.sym m t := by
        simp only at h
        exact (Option.some.injEq _ _ ▸ h.symm)
      subst ho2
      rw [removeObj_offDev cfg p _ dv hdv hdev]
      exact ⟨rfl, rfl⟩
  | .dev m b r, p, o2 => by
    intro h
    have hlt : ¬dv < 0 := not_lt.mpr hdv
    by_cases hdev : (((lstatOf (FObj.dev m b r)).dev : Nat) : Int) = dv
    · rw [removeObj] at h <;>
        first
        | (intro a b hh; exact FObj.noConfusion hh)
        | (simp only [hlt, if_false] at h
           rw [if_pos hdev] at h
           simp [hA, hN] at h)
    · rw [removeObj_offDev cfg p _ dv hdv hdev] at h
      have ho2 : o2 = FObj.dev m b r := by
        simp only at h
        exact (Option.some.injEq _ _ ▸ h.symm)
      subst ho2
      rw [removeObj_offDev cfg p _ dv hdv hdev]
      exact ⟨rfl, rfl⟩
  | .oth m, p, o2 => by
    intro h
    have hlt : ¬dv < 0 := not_lt.mpr hdv
    by_cases hdev : (((lstatOf (FObj.oth m)).dev : Nat) : Int) = dv
    · rw [removeObj] at h <;>
        first
        | (intro a b hh; exact FObj.noConfusion hh)
        | (simp only [hlt, if_false] at h
           rw [if_pos hdev] at h
           simp [hA, hN] at h)
    · rw [removeObj_offDev cfg p _ dv hdv hdev] at h
      have ho2 : o2 = FObj.oth m := by
        simp only at h
        exact (Option.some.injEq _ _ ▸ h.symm)
      subst ho2
      rw [removeObj_offDev cfg p _ dv hdv hdev]
      exact ⟨rfl, rfl⟩

theorem removeEnts_stable (cfg : Config) (hA : cfg.askConfirmation = false)
    (hN : cfg.noRemoveOpt = false) (dv : Int) (hdv : 0 ≤ dv) :
    ∀ (ents : Ents) (p : String),
      (removeEnts cfg p (removeEnts cfg p ents dv).1 dv).1 =
        (removeEnts cfg p ents dv).1 ∧
      (removeEnts cfg p (removeEnts cfg p ents dv).1 dv).2.1 = 0
  | .nil, p => by constructor <;> rfl
  | .cons n obj rest, p => by
    have ih := removeEnts_stable cfg hA hN dv hdv rest p
    rw [removeEnts]
    cases h1 : (removeObj cfg (p ++ "/" ++ n) obj dv).1 with
    | none => simpa using ih
    | some o2 =>
      have hs := removeObj_stable cfg hA hN dv hdv obj (p ++ "/" ++ n) o2 h1
      simp only
      rw [removeEnts]
      simp only [hs.1, hs.2, ih.1, ih.2]
      exact ⟨trivial, trivial⟩
end

/-- Shape of a pruned destination directory, as seen by a second prune
pass over the same source scan `L0`: every entry is `.`/`..`, carries a
source (tag-0) name, or is a stable residue of the pruner. -/
def pruneOK (cfg : Config) (dp : String) (L0 : List (String × Nat))
    (dv : Int) : Ents → Prop
  | .nil => True
  | .cons k o rest =>
    ((k = "." ∨ k = "..") ∨ tagOf L0 k = some 0 ∨
      ((removeObj cfg (dp ++ "/" ++ k) o dv).1 = some o ∧
       (removeObj cfg (dp ++ "/" ++ k) o dv).2.1 = 0)) ∧
    pruneOK cfg dp L0 dv rest

theorem pruneEnts_spec (cfg : Config) (hA : cfg.askConfirmation = false)
    (hN : cfg.noRemoveOpt = false) (dp : String) (dv : Int) (hdv : 0 ≤ dv)
    (L0 : List (String × Nat))
    (hdot0 : ∀ n, tagOf L0 n = some 0 → ¬(n = "." ∨ n = "..")) :
    ∀ (dents : Ents) (list : List (String × Nat)),
      (∀ p ∈ list, p.2 ≠ 1) →
      (∀ n, tagOf list n = some 0 → tagOf L0 n = some 0) →
      (∀ n, tagOf L0 n = some 0 → tagOf list n = some 0) →
      (∀ n t, tagOf list n = some t → t = 0 ∨ t = 3) →
      (∀ n, tagOf L0 n = some 0 →
        (pruneEnts cfg dp dents list dv).1.lookup n = dents.lookup n) ∧
      pruneOK cfg dp L0 dv (pruneEnts cfg dp dents list dv).1
  | .nil, list => by
    intro _ _ _ _
    exact ⟨fun n _ => rfl, trivial⟩
  | .cons k o rest, list => by
    intro h1 hf hb h03
    rw [pruneEnts]
    by_cases hdot : k = "." ∨ k = ".."
    · rw [if_pos hdot]
      obtain ⟨ha, hok⟩ :=
        pruneEnts_spec cfg hA hN dp dv hdv L0 hdot0 rest list h1 hf hb h03
      refine ⟨?_, ⟨Or.inl hdot, hok⟩⟩
      intro n hn
      have hkn : ¬k = n := fun he => hdot0 n hn (he ▸ hdot)
      simp only [Ents.lookup, hkn, if_false]
      exact ha n hn
    · rw [if_neg hdot]
      rw [addList_noTag1 list k 3 h1]
      cases htag : tagOf list k with
      | some t =>
        rcases h03 k t htag with rfl | rfl
        · -- the name was seen in the source scan: the entry is kept
          simp only
          rw [if_neg (by decide : ¬(0 : Nat) = 3)]
          obtain ⟨ha, hok⟩ :=
            pruneEnts_spec cfg hA hN dp dv hdv L0 hdot0 rest list h1 hf hb
              h03
          refine ⟨?_, ⟨Or.inr (Or.inl (hf k htag)), hok⟩⟩
          intro n hn
          by_cases hkn : k = n
          · simp [Ents.lookup, hkn]
          · simp only [Ents.lookup, hkn, if_false]
            exact ha n hn
        · -- a duplicate of an already-pruned name: pruned again
          simp only
          rw [if_pos (by trivial)]
          obtain ⟨ha, hok⟩ :=
            pruneEnts_spec cfg hA hN dp dv hdv L0 hdot0 rest list h1 hf hb
              h03
          have hkn : ∀ n, tagOf L0 n = some 0 → ¬k = n := by
            intro n hn he
            rw [he, hb n hn] at htag
            exact absurd (Option.some.inj htag) (by decide)
          cases hrm : (removeObj cfg (dp ++ "/" ++ k) o dv).1 with
          | none =>
            refine ⟨?_, hok⟩
            intro n hn
            simp only [Ents.lookup, hkn n hn, if_false]
            exact ha n hn
          | some o2 =>
            have hs := removeObj_stable cfg hA hN dv hdv o
              (dp ++ "/" ++ k) o2 hrm
            refine ⟨?_, ⟨Or.inr (Or.inr hs), hok⟩⟩
            intro n hn
            simp only [Ents.lookup, hkn n hn, if_false]
            exact ha n hn
      | none =>
        -- a fresh destination-only name: tagged 3 and pruned
        simp only
        rw [if_pos (by trivial)]
        have h1' : ∀ p ∈ (k, 3) :: list, p.2 ≠ 1 := by
          intro p hp
          rcases (by simpa using hp : p = (k, 3) ∨ p ∈ list) with rfl | hp2
          · simp
          · exact h1 p hp2
        have hkn : ∀ n, tagOf L0 n = some 0 → ¬k = n := by
          intro n hn he
          rw [he, hb n hn] at htag
          exact Option.noConfusion htag
        have hf' : ∀ n, tagOf ((k, 3) :: list) n = some 0 →
            tagOf L0 n = some 0 := by
          intro n hn
          rw [tagOf] at hn
          by_cases hke : k = n
          · rw [if_pos hke] at hn
            exact absurd (Option.some.inj hn) (by decide)
          · rw [if_neg hke] at hn
            exact hf n hn
        have hb' : ∀ n, tagOf L0 n = some 0 →
            tagOf ((k, 3) :: list) n = some 0 := by
          intro n hn
          rw [tagOf, if_neg (hkn n hn)]
          exact hb n hn
        have h03' : ∀ n t, tagOf ((k, 3) :: list) n = some t →
            t = 0 ∨ t = 3 := by
          intro n t hn
          rw [tagOf] at hn
          by_cases hke : k = n
          · rw [if_pos hke] at hn
            exact Or.inr (Option.some.inj hn).symm
          · rw [if_neg hke] at hn
            exact h03 n t hn
        obtain ⟨ha, hok⟩ :=
          pruneEnts_spec cfg hA hN dp dv hdv L0 hdot0 rest ((k, 3) :: list)
            h1' hf' hb' h03'
        cases hrm : (removeObj cfg (dp ++ "/" ++ k) o dv).1 with
        | none =>
          refine ⟨?_, hok⟩
          intro n hn
          simp only [Ents.lookup, hkn n hn, if_false]
          exact ha n hn
        | some o2 =>
          have hs := removeObj_stable cfg hA hN dv hdv o
            (dp ++ "/" ++ k) o2 hrm
          refine ⟨?_, ⟨Or.inr (Or.inr hs), hok⟩⟩
          intro n hn
          simp only [Ents.lookup, hkn n hn, if_false]
          exact ha n hn

theorem pruneEnts_stable (cfg : Config) (hA : cfg.askConfirmation = false)
    (hN : cfg.noRemoveOpt = false) (dp : String) (dv : Int) (hdv : 0 ≤ dv)
    (L0 : List (String × Nat)) :
    ∀ (P : Ents) (list : List (String × Nat)),
      (∀ p ∈ list, p.2 ≠ 1) →
      (∀ n, tagOf L0 n = some 0 → tagOf list n = some 0) →
      pruneOK cfg dp L0 dv P →
      (pruneEnts cfg dp P list dv).1 = P ∧
      (pruneEnts cfg dp P list dv).2.2.1 = 0
  | .nil, list => fun _ _ _ => ⟨rfl, rfl⟩
  | .cons k o rest, list => by
    intro h1 hb hok
    obtain ⟨hcl, hrest⟩ := hok
    rw [pruneEnts]
    by_cases hdot : k = "." ∨ k = ".."
    · rw [if_pos hdot]
      obtain ⟨e1, e2⟩ :=
        pruneEnts_stable cfg hA hN dp dv hdv L0 rest list h1 hb hrest
      simp [e1, e2]
    · rw [if_neg hdot]
      rw [addList_noTag1 list k 3 h1]
      rcases hcl with hdot2 | h0 | hres
      · exact absurd hdot2 hdot
      · -- a source name: kept
        rw [hb k h0]
        simp only
        rw [if_neg (by decide : ¬(0 : Nat) = 3)]
        obtain ⟨e1, e2⟩ :=
          pruneEnts_stable cfg hA hN dp dv hdv L0 rest list h1 hb hrest
        simp [e1, e2]
      · -- a residue: the pruner re-runs on it and removes nothing
        cases htag : tagOf list k with
        | some t =>
          by_cases ht3 : t = 3
          · subst ht3
            simp only
            rw [if_pos (by trivial), hres.1]
            obtain ⟨e1, e2⟩ :=
              pruneEnts_stable cfg hA hN dp dv hdv L0 rest list h1 hb hrest
            simp [e1, e2, hres.2]
          · simp only
            rw [if_neg (fun he => ht3 he)]
            obtain ⟨e1, e2⟩ :=
              pruneEnts_stable cfg hA hN dp dv hdv L0 rest list h1 hb hrest
            simp [e1, e2]
        | none =>
          simp only
          rw [if_pos (by trivial), hres.1]
          have h1' : ∀ p ∈ (k, 3) :: list, p.2 ≠ 1 := by
            intro p hp
            rcases (by simpa using hp : p = (k, 3) ∨ p ∈ list) with rfl | hp2
            · simp
            · exact h1 p hp2
          have hb' : ∀ n, tagOf L0 n = some 0 →
              tagOf ((k, 3) :: list) n = some 0 := by
            intro n hn
            have hkn : ¬k = n := by
              intro he
              rw [he, hb n hn] at htag
              exact Option.noConfusion htag
            rw [tagOf, if_neg hkn]
            exact hb n hn
          obtain ⟨e1, e2⟩ :=
            pruneEnts_stable cfg hA hN dp dv hdv L0 rest ((k, 3) :: list)
              h1' hb' hrest
          simp [e1, e2, hres.2]

theorem earlyNoChange_linkdir (cfg : Config) (hI : cfg.useFSMID = false)
    (st1 st2 : Stat) (v : Bool) (mres fres : Int) (hln : Option HLEntry)
    (hft : st1.mode.ftype = .flnk ∨ st1.mode.ftype = .fdir) :
    earlyNoChange cfg st1 st2 v mres fres hln = .fall := by
  rw [earlyNoChange]
  by_cases h1 : v = true ∧ st1.mode = st2.mode ∧ st1.flags = st2.flags
  · rw [if_pos h1, if_pos hft]
    simp [hI]
  · rw [if_neg h1]

theorem earlyNoChange_file (cfg : Config) (hF : cfg.forceOpt = false)
    (hM : cfg.useMD5 = false) (hI : cfg.useFSMID = false)
    (st1 st2 : Stat) (v : Bool) (mres fres : Int) (hln : Option HLEntry)
    (hft : ¬(st1.mode.ftype = .flnk ∨ st1.mode.ftype = .fdir)) :
    earlyNoChange cfg st1 st2 v mres fres hln =
      if v = true ∧ st1.mode = st2.mode ∧ st1.flags = st2.flags ∧
         st1.size = st2.size ∧ st1.uid = st2.uid ∧ st1.gid = st2.gid ∧
         st1.mtime = st2.mtime then
        .retFile (hln.map fun h => { h with dino := st2.ino })
      else .fall := by
  rw [earlyNoChange]
  by_cases h1 : v = true ∧ st1.mode = st2.mode ∧ st1.flags = st2.flags
  · rw [if_pos h1, if_neg hft]
    by_cases h2 : st1.size = st2.size ∧ st1.uid = st2.uid ∧
        st1.gid = st2.gid ∧ st1.mtime = st2.mtime
    · rw [if_pos ⟨by simp [hF], h2.1, h2.2.1, h2.2.2.1, h2.2.2.2,
        Or.inl (by simp [hM]), Or.inl (by simp [hI])⟩]
      rw [if_pos ⟨h1.1, h1.2.1, h1.2.2, h2.1, h2.2.1, h2.2.2.1, h2.2.2.2⟩]
    · rw [if_neg (fun hc => h2 ⟨hc.2.1, hc.2.2.1, hc.2.2.2.1,
        hc.2.2.2.2.1⟩)]
      rw [if_neg (fun hc => h2 ⟨hc.2.2.2.1, hc.2.2.2.2.1, hc.2.2.2.2.2.1,
        hc.2.2.2.2.2.2⟩)]
  · rw [if_neg h1, if_neg (fun hc => h1 ⟨hc.1, hc.2.1, hc.2.2.1⟩)]

theorem earlyNoChange_retFile (cfg : Config) (hF : cfg.forceOpt = false)
    (hM : cfg.useMD5 = false) (hI : cfg.useFSMID = false)
    (st1 st2 : Stat) (mres fres : Int) (hln : Option HLEntry)
    (hft : ¬(st1.mode.ftype = .flnk ∨ st1.mode.ftype = .fdir))
    (hmode : st1.mode = st2.mode) (hflags : st1.flags = st2.flags)
    (hsize : st1.size = st2.size) (huid : st1.uid = st2.uid)
    (hgid : st1.gid = st2.gid) (hmtime : st1.mtime = st2.mtime) :
    earlyNoChange cfg st1 st2 true mres fres hln =
      .retFile (hln.map fun h => { h with dino := st2.ino }) := by
  rw [earlyNoChange_file cfg hF hM hI st1 st2 true mres fres hln hft]
  rw [if_pos ⟨rfl, hmode, hflags, hsize, huid, hgid, hmtime⟩]

/-- The source loop only writes the destination entries named after the
source children and their `.tmp` work names. -/
theorem doCopyEnts_untouched (cfg : Config) (sp dp : String)
    (sdev ddev : Int) (dcdev : Nat) :
    ∀ (ents : Ents) (list : List (String × Nat)) (dents : Ents)
      (k : String),
      (∀ m ∈ Ents.names ents, ¬k = m ∧ ¬k = m ++ ".tmp") →
      (doCopyEnts cfg sp (some dp) ents list dents sdev ddev
        dcdev).dents.lookup k = dents.lookup k
  | .nil, list, dents, k => fun _ => rfl
  | .cons n child rest, list, dents, k => fun hk => by
    have hkn := hk n (by simp [Ents.names])
    have hkr : ∀ m ∈ Ents.names rest, ¬k = m ∧ ¬k = m ++ ".tmp" := by
      intro m hm
      exact hk m (by simp [Ents.names, hm])
    simp only [doCopyEnts]
    by_cases hdot : n = "." ∨ n = ".."
    · rw [if_pos hdot]
      exact doCopyEnts_untouched cfg sp dp sdev ddev dcdev rest list dents
        k hkr
    · rw [if_neg hdot]
      by_cases h1 : (addList list n 0).1 = 1
      · rw [if_pos h1]
        exact doCopyEnts_untouched cfg sp dp sdev ddev dcdev rest
          (addList list n 0).2 dents k hkr
      · rw [if_neg h1]
        rw [doCopyEnts_untouched cfg sp dp sdev ddev dcdev rest
          (addList list n 0).2 _ k hkr]
        cases htf : (doCopy cfg (sp ++ "/" ++ n) child
            (DstArg.dest (dp ++ "/" ++ n) (dents.lookup n)
              (dents.lookup (n ++ ".tmp"))) sdev ddev dcdev).tmpFx with
        | none =>
          simp only [htf]
          exact lookup_set_ne n k _ hkn.1 dents
        | some v =>
          simp only [htf]
          rw [lookup_set_ne _ k _ hkn.2 _, lookup_set_ne n k _ hkn.1 dents]

/-- One `DoCopy` call with a destination path. -/
def runCopy (cfg : Config) (sp dp : String) (src : FObj)
    (dcur tmp : Option FObj) (sdev ddev : Int) (dcdev : Nat) : CopyRes :=
  doCopy cfg sp src (.dest dp dcur tmp) sdev ddev dcdev

/-- Stability of one `DoCopy` call: the first run leaves the work path
clean (untouched or removed), returns `none` only when nothing was there,
and a second run over its output changes nothing and counts nothing,
whatever now sits at the work path. -/
def stableAt (cfg : Config) (sp dp : String) (src : FObj)
    (dcur tmp : Option FObj) (sdev ddev : Int) (dcdev : Nat) : Prop :=
  ((runCopy cfg sp dp src dcur tmp sdev ddev dcdev).tmpFx = none ∨
   (runCopy cfg sp dp src dcur tmp sdev ddev dcdev).tmpFx = some none) ∧
  ((runCopy cfg sp dp src dcur tmp sdev ddev dcdev).dst = none →
    dcur = none) ∧
  ∀ tmp2 : Option FObj,
    (runCopy cfg sp dp src
        (runCopy cfg sp dp src dcur tmp sdev ddev dcdev).dst tmp2
        sdev ddev dcdev).dst =
      (runCopy cfg sp dp src dcur tmp sdev ddev dcdev).dst ∧
    (runCopy cfg sp dp src
        (runCopy cfg sp dp src dcur tmp sdev ddev dcdev).dst tmp2
        sdev ddev dcdev).r = 0 ∧
    (runCopy cfg sp dp src
        (runCopy cfg sp dp src dcur tmp sdev ddev dcdev).dst tmp2
        sdev ddev dcdev).copied = 0 ∧
    (runCopy cfg sp dp src
        (runCopy cfg sp dp src dcur tmp sdev ddev dcdev).dst tmp2
        sdev ddev dcdev).removed = 0 ∧
    (runCopy cfg sp dp src
        (runCopy cfg sp dp src dcur tmp sdev ddev dcdev).dst tmp2
        sdev ddev dcdev).tmpFx = none

/-- The metadata the file copy stamps on the new destination file. -/
def regMeta (st1 : Stat) (dc : Nat) : Meta :=
  { perm := st1.mode.perm, uid := st1.uid, gid := st1.gid,
    mtime := st1.mtime, flags := st1.flags, dev := dc }

theorem copyRegFile_ok (st1 : Stat) (c : List Nat) :
    ∀ (dcur tmp : Option FObj) (f dc : Nat),
      isDirO dcur = false → isNeDirO tmp = false →
      (copyRegFile st1 c dcur tmp f dc).dst =
        some (.reg (regMeta st1 dc) c) ∧
      (copyRegFile st1 c dcur tmp f dc).r = 0 ∧
      (copyRegFile st1 c dcur tmp f dc).copied = 1 ∧
      (copyRegFile st1 c dcur tmp f dc).removed = 0 ∧
      ((copyRegFile st1 c dcur tmp f dc).tmpFx = none ∨
       (copyRegFile st1 c dcur tmp f dc).tmpFx = some none) := by
  intro dcur tmp f dc h1 h2
  rcases dcur with _ | o1
  · rcases tmp with _ | o2
    · simp [copyRegFile, regMeta]
    · cases o2 <;>
        first
        | (simp_all [copyRegFile, isDirO, isNeDirO, regMeta]; done)
        | (rename_i dents2; cases dents2 <;>
            simp_all [copyRegFile, isDirO, isNeDirO, regMeta])
  · cases o1 <;> rcases tmp with _ | o2 <;>
      first
      | (simp_all [copyRegFile, isDirO, isNeDirO, regMeta]; done)
      | (cases o2 <;>
          first
          | (simp_all [copyRegFile, isDirO, isNeDirO, regMeta]; done)
          | (rename_i dents2; cases dents2 <;>
              simp_all [copyRegFile, isDirO, isNeDirO, regMeta]))

theorem stableAt_of (cfg : Config) (sp dp : String) (src : FObj)
    (dcur tmp : Option FObj) (sdev ddev : Int) (dcdev : Nat)
    (d : Option FObj)
    (hdst : (runCopy cfg sp dp src dcur tmp sdev ddev dcdev).dst = d)
    (htf : (runCopy cfg sp dp src dcur tmp sdev ddev dcdev).tmpFx = none ∨
      (runCopy cfg sp dp src dcur tmp sdev ddev dcdev).tmpFx = some none)
    (hnone : d = none → dcur = none)
    (h2 : ∀ tmp2 : Option FObj,
      (runCopy cfg sp dp src d tmp2 sdev ddev dcdev).dst = d ∧
      (runCopy cfg sp dp src d tmp2 sdev ddev dcdev).r = 0 ∧
      (runCopy cfg sp dp src d tmp2 sdev ddev dcdev).copied = 0 ∧
      (runCopy cfg sp dp src d tmp2 sdev ddev dcdev).removed = 0 ∧
      (runCopy cfg sp dp src d tmp2 sdev ddev dcdev).tmpFx = none) :
    stableAt cfg sp dp src dcur tmp sdev ddev dcdev := by
  refine ⟨htf, fun h => hnone (hdst.symm.trans h), fun tmp2 => ?_⟩
  rw [hdst]
  exact h2 tmp2

theorem regStable (cfg : Config) (hF : cfg.forceOpt = false)
    (hS : cfg.safetyOpt = true) (hM : cfg.useMD5 = false)
    (hI : cfg.useFSMID = false) (sp dp : String) (m : Meta) (c : List Nat)
    (dcur tmp : Option FObj) (sdev ddev : Int) (dcdev : Nat)
    (htmp : tmpHazOK (.reg m c) tmp = true) :
    stableAt cfg sp dp (.reg m c) dcur tmp sdev ddev dcdev := by
  have htd : isNeDirO tmp = false := by
    simpa [tmpHazOK] using htmp
  have hfile : ¬((lstatOf (FObj.reg m c)).mode.ftype = .flnk ∨
      (lstatOf (FObj.reg m c)).mode.ftype = .fdir) := by
    simp [lstatOf]
  have hfr2 : ∀ tmp2 : Option FObj,
      runCopy cfg sp dp (.reg m c)
        (some (.reg (regMeta (lstatOf (.reg m c)) dcdev) c)) tmp2
        sdev ddev dcdev =
      { dst := some (.reg (regMeta (lstatOf (.reg m c)) dcdev) c), r := 0,
        copied := 0, removed := 0, srcItems := 1, evs := [],
        tmpFx := none } := by
    intro tmp2
    rw [runCopy]
    simp only [doCopy, Option.isSome_some]
    rw [earlyNoChange_retFile cfg hF hM hI _ _ _ _ _ hfile
      (by simp [lstatOf, regMeta]) (by simp [lstatOf, regMeta])
      (by simp [lstatOf, regMeta]) (by simp [lstatOf, regMeta])
      (by simp [lstatOf, regMeta]) (by simp [lstatOf, regMeta])]
  have hfr2p : ∀ tmp2 : Option FObj,
      (runCopy cfg sp dp (.reg m c)
        (some (.reg (regMeta (lstatOf (.reg m c)) dcdev) c)) tmp2
        sdev ddev dcdev).dst =
        some (.reg (regMeta (lstatOf (.reg m c)) dcdev) c) ∧
      (runCopy cfg sp dp (.reg m c)
        (some (.reg (regMeta (lstatOf (.reg m c)) dcdev) c)) tmp2
        sdev ddev dcdev).r = 0 ∧
      (runCopy cfg sp dp (.reg m c)
        (some (.reg (regMeta (lstatOf (.reg m c)) dcdev) c)) tmp2
        sdev ddev dcdev).copied = 0 ∧
      (runCopy cfg sp dp (.reg m c)
        (some (.reg (regMeta (lstatOf (.reg m c)) dcdev) c)) tmp2
        sdev ddev dcdev).removed = 0 ∧
      (runCopy cfg sp dp (.reg m c)
        (some (.reg (regMeta (lstatOf (.reg m c)) dcdev) c)) tmp2
        sdev ddev dcdev).tmpFx = none := by
    intro tmp2
    rw [hfr2 tmp2]
    exact ⟨rfl, rfl, rfl, rfl, rfl⟩
  rcases dcur with _ | o1
  · -- nothing at the destination: a plain copy, then no-change on rerun
    have hearly : earlyNoChange cfg (lstatOf (FObj.reg m c)) statNone false
        (cfg.md5res sp) (cfg.fsmidres dp) none = .fall := by
      rw [earlyNoChange_file cfg hF hM hI _ _ _ _ _ _ hfile]
      exact if_neg (fun hc => Bool.noConfusion hc.1)
    have hr : runCopy cfg sp dp (.reg m c) none tmp sdev ddev dcdev =
        { copyRegFile (lstatOf (.reg m c)) c none tmp statNone.flags dcdev
          with
          removed := 0 + (copyRegFile (lstatOf (.reg m c)) c none tmp
            statNone.flags dcdev).removed,
          evs := [] ++ (copyRegFile (lstatOf (.reg m c)) c none tmp
            statNone.flags dcdev).evs } := by
      rw [runCopy]
      simp only [doCopy, Option.isSome_none]
      rw [hearly]
      rw [if_neg (fun hc => Bool.noConfusion hc.1)]
      rw [if_neg (fun hc => Bool.noConfusion hc.1)]
    obtain ⟨hc1, hc2, hc3, hc4, hc5⟩ :=
      copyRegFile_ok (lstatOf (.reg m c)) c none tmp statNone.flags dcdev
        rfl htd
    refine stableAt_of cfg sp dp (.reg m c) none tmp sdev ddev dcdev
      (some (.reg (regMeta (lstatOf (.reg m c)) dcdev) c)) ?_ ?_
      (fun _ => rfl) hfr2p
    · rw [hr]
      simpa using hc1
    · rw [hr]
      rcases hc5 with h | h
      · left
        simpa using h
      · right
        simpa using h
  · cases o1 with
    | dir m2 e2 =>
      -- SAFETY refusal, both runs
      have hearly : earlyNoChange cfg (lstatOf (FObj.reg m c))
          (lstatOf (FObj.dir m2 e2)) true (cfg.md5res sp)
          (cfg.fsmidres dp) none = .fall := by
        rw [earlyNoChange_file cfg hF hM hI _ _ _ _ _ _ hfile]
        refine if_neg (fun hc => ?_)
        have := hc.2.1
        simp [lstatOf] at this
      have hrun : ∀ t : Option FObj,
          runCopy cfg sp dp (.reg m c) (some (.dir m2 e2)) t
            sdev ddev dcdev =
          { dst := some (.dir m2 e2), r := 0, copied := 0, removed := 0,
            srcItems := 0, evs := [], tmpFx := none } := by
        intro t
        rw [runCopy]
        simp only [doCopy, Option.isSome_some]
        rw [hearly]
        rw [if_pos ⟨by trivial, by simp [lstatOf], by simp [lstatOf], hS⟩]
      refine stableAt_of cfg sp dp (.reg m c) (some (.dir m2 e2)) tmp
        sdev ddev dcdev (some (.dir m2 e2)) (by rw [hrun tmp])
        (by rw [hrun tmp]; left; rfl)
        (fun h => Option.noConfusion h) ?_
      intro tmp2
      rw [hrun tmp2]
      exact ⟨rfl, rfl, rfl, rfl, rfl⟩
    | reg m2 c2 =>
      by_cases hC : (true = true) ∧
          (lstatOf (FObj.reg m c)).mode = (lstatOf (FObj.reg m2 c2)).mode ∧
          (lstatOf (FObj.reg m c)).flags = (lstatOf (FObj.reg m2 c2)).flags ∧
          (lstatOf (FObj.reg m c)).size = (lstatOf (FObj.reg m2 c2)).size ∧
          (lstatOf (FObj.reg m c)).uid = (lstatOf (FObj.reg m2 c2)).uid ∧
          (lstatOf (FObj.reg m c)).gid = (lstatOf (FObj.reg m2 c2)).gid ∧
          (lstatOf (FObj.reg m c)).mtime = (lstatOf (FObj.reg m2 c2)).mtime
      · -- unchanged: the no-change fast path fires on both runs
        have hrun : ∀ t : Option FObj,
            runCopy cfg sp dp (.reg m c) (some (.reg m2 c2)) t
              sdev ddev dcdev =
            { dst := some (.reg m2 c2), r := 0, copied := 0, removed := 0,
              srcItems := 1, evs := [], tmpFx := none } := by
          intro t
          rw [runCopy]
          simp only [doCopy, Option.isSome_some]
          rw [earlyNoChange_file cfg hF hM hI _ _ _ _ _ _ hfile, if_pos hC]
        refine stableAt_of cfg sp dp (.reg m c) (some (.reg m2 c2)) tmp
          sdev ddev dcdev (some (.reg m2 c2)) (by rw [hrun tmp])
          (by rw [hrun tmp]; left; rfl)
          (fun h => Option.noConfusion h) ?_
        intro tmp2
        rw [hrun tmp2]
        exact ⟨rfl, rfl, rfl, rfl, rfl⟩
      · -- changed: recopied, then no-change on rerun
        have hearly : earlyNoChange cfg (lstatOf (FObj.reg m c))
            (lstatOf (FObj.reg m2 c2)) true (cfg.md5res sp)
            (cfg.fsmidres dp) none = .fall := by
          rw [earlyNoChange_file cfg hF hM hI _ _ _ _ _ _ hfile]
          exact if_neg hC
        have hr : runCopy cfg sp dp (.reg m c) (some (.reg m2 c2)) tmp
            sdev ddev dcdev =
            { copyRegFile (lstatOf (.reg m c)) c (some (.reg m2 c2)) tmp
                (lstatOf (FObj.reg m2 c2)).flags dcdev
              with
              removed := 0 + (copyRegFile (lstatOf (.reg m c)) c
                (some (.reg m2 c2)) tmp (lstatOf (FObj.reg m2 c2)).flags
                dcdev).removed,
              evs := [] ++ (copyRegFile (lstatOf (.reg m c)) c
                (some (.reg m2 c2)) tmp (lstatOf (FObj.reg m2 c2)).flags
                dcdev).evs } := by
          rw [runCopy]
          simp only [doCopy, Option.isSome_some]
          rw [hearly]
          rw [if_neg (fun hc => by have := hc.2.2; simp [lstatOf] at this)]
          rw [if_neg (fun hc => by have := hc.2.2; simp [lstatOf] at this)]
        obtain ⟨hc1, hc2, hc3, hc4, hc5⟩ :=
          copyRegFile_ok (lstatOf (.reg m c)) c (some (.reg m2 c2)) tmp
            (lstatOf (FObj.reg m2 c2)).flags dcdev rfl htd
        refine stableAt_of cfg sp dp (.reg m c) (some (.reg m2 c2)) tmp
          sdev ddev dcdev
          (some (.reg (regMeta (lstatOf (.reg m c)) dcdev) c)) ?_ ?_
          (fun h => Option.noConfusion h) hfr2p
        · rw [hr]
          simpa using hc1
        · rw [hr]
          rcases hc5 with h | h
          · left
            simpa using h
          · right
            simpa using h
    | sym m2 t2 =>
      have hearly : earlyNoChange cfg (lstatOf (FObj.reg m c))
          (lstatOf (FObj.sym m2 t2)) true (cfg.md5res sp)
          (cfg.fsmidres dp) none = .fall := by
        rw [earlyNoChange_file cfg hF hM hI _ _ _ _ _ _ hfile]
        refine if_neg (fun hc => ?_)
        have := hc.2.1
        simp [lstatOf] at this
      have hr : runCopy cfg sp dp (.reg m c) (some (.sym m2 t2)) tmp
          sdev ddev dcdev =
          { copyRegFile (lstatOf (.reg m c)) c (some (.sym m2 t2)) tmp
              (lstatOf (FObj.sym m2 t2)).flags dcdev
            with
            removed := 0 + (copyRegFile (lstatOf (.reg m c)) c
              (some (.sym m2 t2)) tmp (lstatOf (FObj.sym m2 t2)).flags
              dcdev).removed,
            evs := [] ++ (copyRegFile (lstatOf (.reg m c)) c
              (some (.sym m2 t2)) tmp (lstatOf (FObj.sym m2 t2)).flags
              dcdev).evs } := by
        rw [runCopy]
        simp only [doCopy, Option.isSome_some]
        rw [hearly]
        rw [if_neg (fun hc => by have := hc.2.2; simp [lstatOf] at this)]
        rw [if_neg (fun hc => by have := hc.2.2; simp [lstatOf] at this)]
      obtain ⟨hc1, hc2, hc3, hc4, hc5⟩ :=
        copyRegFile_ok (lstatOf (.reg m c)) c (some (.sym m2 t2)) tmp
          (lstatOf (FObj.sym m2 t2)).flags dcdev rfl htd
      refine stableAt_of cfg sp dp (.reg m c) (some (.sym m2 t2)) tmp
        sdev ddev dcdev
        (some (.reg (regMeta (lstatOf (.reg m c)) dcdev) c)) ?_ ?_
        (fun h => Option.noConfusion h) hfr2p
      · rw [hr]
        simpa using hc1
      · rw [hr]
        rcases hc5 with h | h
        · left
          simpa using h
        · right
          simpa using h
    | dev m2 b2 r2 =>
      have hearly : earlyNoChange cfg (lstatOf (FObj.reg m c))
          (lstatOf (FObj.dev m2 b2 r2)) true (cfg.md5res sp)
          (cfg.fsmidres dp) none = .fall := by
        rw [earlyNoChange_file cfg hF hM hI _ _ _ _ _ _ hfile]
        refine if_neg (fun hc => ?_)
        have := hc.2.1
        simp [lstatOf] at this
        cases b2 <;> simp_all
      have hr : runCopy cfg sp dp (.reg m c) (some (.dev m2 b2 r2)) tmp
          sdev ddev dcdev =
          { copyRegFile (lstatOf (.reg m c)) c (some (.dev m2 b2 r2)) tmp
              (lstatOf (FObj.dev m2 b2 r2)).flags dcdev
            with
            removed := 0 + (copyRegFile (lstatOf (.reg m c)) c
              (some (.dev m2 b2 r2)) tmp (lstatOf (FObj.dev m2 b2 r2)).flags
              dcdev).removed,
            evs := [] ++ (copyRegFile (lstatOf (.reg m c)) c
              (some (.dev m2 b2 r2)) tmp (lstatOf (FObj.dev m2 b2 r2)).flags
              dcdev).evs } := by
        rw [runCopy]
        simp only [doCopy, Option.isSome_some]
        rw [hearly]
        rw [if_neg (fun hc => by
          have := hc.2.2
          simp [lstatOf] at this
          cases b2 <;> simp_all)]
        rw [if_neg (fun hc => by
          have := hc.2.2
          simp [lstatOf] at this
          cases b2 <;> simp_all)]
      obtain ⟨hc1, hc2, hc3, hc4, hc5⟩ :=
        copyRegFile_ok (lstatOf (.reg m c)) c (some (.dev m2 b2 r2)) tmp
          (lstatOf (FObj.dev m2 b2 r2)).flags dcdev rfl htd
      refine stableAt_of cfg sp dp (.reg m c) (some (.dev m2 b2 r2)) tmp
        sdev ddev dcdev
        (some (.reg (regMeta (lstatOf (.reg m c)) dcdev) c)) ?_ ?_
        (fun h => Option.noConfusion h) hfr2p
      · rw [hr]
        simpa using hc1
      · rw [hr]
        rcases hc5 with h | h
        · left
          simpa using h
        · right
          simpa using h
    | oth m2 =>
      have hearly : earlyNoChange cfg (lstatOf (FObj.reg m c))
          (lstatOf (FObj.oth m2)) true (cfg.md5res sp)
          (cfg.fsmidres dp) none = .fall := by
        rw [earlyNoChange_file cfg hF hM hI _ _ _ _ _ _ hfile]
        refine if_neg (fun hc => ?_)
        have := hc.2.1
        simp [lstatOf] at this
      have hr : runCopy cfg sp dp (.reg m c) (some (.oth m2)) tmp
          sdev ddev dcdev =
          { copyRegFile (lstatOf (.reg m c)) c (some (.oth m2)) tmp
              (lstatOf (FObj.oth m2)).flags dcdev
            with
            removed := 0 + (copyRegFile (lstatOf (.reg m c)) c
              (some (.oth m2)) tmp (lstatOf (FObj.oth m2)).flags
              dcdev).removed,
            evs := [] ++ (copyRegFile (lstatOf (.reg m c)) c
              (some (.oth m2)) tmp (lstatOf (FObj.oth m2)).flags
              dcdev).evs } := by
        rw [runCopy]
        simp only [doCopy, Option.isSome_some]
        rw [hearly]
        rw [if_neg (fun hc => by have := hc.2.2; simp [lstatOf] at this)]
        rw [if_neg (fun hc => by have := hc.2.2; simp [lstatOf] at this)]
      obtain ⟨hc1, hc2, hc3, hc4, hc5⟩ :=
        copyRegFile_ok (lstatOf (.reg m c)) c (some (.oth m2)) tmp
          (lstatOf (FObj.oth m2)).flags dcdev rfl htd
      refine stableAt_of cfg sp dp (.reg m c) (some (.oth m2)) tmp
        sdev ddev dcdev
        (some (.reg (regMeta (lstatOf (.reg m c)) dcdev) c)) ?_ ?_
        (fun h => Option.noConfusion h) hfr2p
      · rw [hr]
        simpa using hc1
      · rw [hr]
        rcases hc5 with h | h
        · left
          simpa using h
        · right
          simpa using h

/-- The metadata stamped on a freshly created symlink or device node
(`umask 0` symlink / `mknod`: mtime and flags are never set). -/
def freshMeta (st1 : Stat) (dc : Nat) : Meta :=
  { perm := st1.mode.perm, uid := st1.uid, gid := st1.gid,
    mtime := 0, flags := 0, dev := dc }

theorem copySymlink_ok (cfg : Config) (st1 : Stat) (t : String) :
    ∀ (dcur tmp : Option FObj) (f dc : Nat),
      isDirO dcur = false → isNeDirO tmp = false →
      (match dcur with
       | some (.sym _ t2) => some t2
       | _ => none) ≠ some t →
      (copySymlink cfg st1 t dcur tmp f dc).dst =
        some (.sym (freshMeta st1 dc) t) ∧
      (copySymlink cfg st1 t dcur tmp f dc).r = 0 ∧
      (copySymlink cfg st1 t dcur tmp f dc).copied = 1 ∧
      (copySymlink cfg st1 t dcur tmp f dc).removed = 0 ∧
      ((copySymlink cfg st1 t dcur tmp f dc).tmpFx = none ∨
       (copySymlink cfg st1 t dcur tmp f dc).tmpFx = some none) := by
  intro dcur tmp f dc h1 h2 hn2
  rw [copySymlink.eq_def]
  rw [if_pos (Or.inr hn2)]
  rcases dcur with _ | o1
  · rcases tmp with _ | o2
    · simp [xrenameModel, freshMeta]
    · cases o2 <;>
        first
        | (simp_all [xrenameModel, freshMeta, isDirO, isNeDirO]; done)
        | (rename_i dents2; cases dents2 <;>
            simp_all [xrenameModel, freshMeta, isDirO, isNeDirO])
  · cases o1 <;> rcases tmp with _ | o2 <;>
      first
      | (simp_all [xrenameModel, freshMeta, isDirO, isNeDirO]; done)
      | (cases o2 <;>
          first
          | (simp_all [xrenameModel, freshMeta, isDirO, isNeDirO]; done)
          | (rename_i dents2; cases dents2 <;>
              simp_all [xrenameModel, freshMeta, isDirO, isNeDirO]))

theorem symStable (cfg : Config) (hF : cfg.forceOpt = false)
    (hS : cfg.safetyOpt = true) (hM : cfg.useMD5 = false)
    (hI : cfg.useFSMID = false) (sp dp : String) (m : Meta) (t : String)
    (dcur tmp : Option FObj) (sdev ddev : Int) (dcdev : Nat)
    (htmp : tmpHazOK (.sym m t) tmp = true) :
    stableAt cfg sp dp (.sym m t) dcur tmp sdev ddev dcdev := by
  have htd : isNeDirO tmp = false := by
    simpa [tmpHazOK] using htmp
  have hearly0 : ∀ (st2 : Stat) (v : Bool),
      earlyNoChange cfg (lstatOf (FObj.sym m t)) st2 v (cfg.md5res sp)
        (cfg.fsmidres dp) none = .fall := fun st2 v =>
    earlyNoChange_linkdir cfg hI _ st2 v _ _ none
      (Or.inl (by simp [lstatOf]))
  have hfr2p : ∀ tmp2 : Option FObj,
      (runCopy cfg sp dp (.sym m t)
        (some (.sym (freshMeta (lstatOf (.sym m t)) dcdev) t)) tmp2
        sdev ddev dcdev).dst =
        some (.sym (freshMeta (lstatOf (.sym m t)) dcdev) t) ∧
      (runCopy cfg sp dp (.sym m t)
        (some (.sym (freshMeta (lstatOf (.sym m t)) dcdev) t)) tmp2
        sdev ddev dcdev).r = 0 ∧
      (runCopy cfg sp dp (.sym m t)
        (some (.sym (freshMeta (lstatOf (.sym m t)) dcdev) t)) tmp2
        sdev ddev dcdev).copied = 0 ∧
      (runCopy cfg sp dp (.sym m t)
        (some (.sym (freshMeta (lstatOf (.sym m t)) dcdev) t)) tmp2
        sdev ddev dcdev).removed = 0 ∧
      (runCopy cfg sp dp (.sym m t)
        (some (.sym (freshMeta (lstatOf (.sym m t)) dcdev) t)) tmp2
        sdev ddev dcdev).tmpFx = none := by
    intro tmp2
    rw [runCopy]
    simp only [doCopy, Option.isSome_some]
    rw [hearly0 _ _]
    rw [if_neg (fun hc => by have := hc.2.2; simp [lstatOf] at this)]
    rw [if_neg (fun hc => by have := hc.2.2; simp [lstatOf] at this)]
    rw [copySymlink.eq_def]
    rw [if_neg (by simp [hF])]
    exact ⟨rfl, rfl, rfl, rfl, rfl⟩
  rcases dcur with _ | o1
  · -- nothing at the destination: the link is created
    have hr : runCopy cfg sp dp (.sym m t) none tmp sdev ddev dcdev =
        { copySymlink cfg (lstatOf (.sym m t)) t none tmp statNone.flags
            dcdev
          with
          removed := 0 + (copySymlink cfg (lstatOf (.sym m t)) t none tmp
            statNone.flags dcdev).removed,
          evs := [] ++ (copySymlink cfg (lstatOf (.sym m t)) t none tmp
            statNone.flags dcdev).evs } := by
      rw [runCopy]
      simp only [doCopy, Option.isSome_none]
      rw [hearly0 _ _]
      rw [if_neg (fun hc => Bool.noConfusion hc.1)]
      rw [if_neg (fun hc => Bool.noConfusion hc.1)]
    obtain ⟨hc1, hc2, hc3, hc4, hc5⟩ :=
      copySymlink_ok cfg (lstatOf (.sym m t)) t none tmp statNone.flags
        dcdev rfl htd (by simp)
    refine stableAt_of cfg sp dp (.sym m t) none tmp sdev ddev dcdev
      (some (.sym (freshMeta (lstatOf (.sym m t)) dcdev) t)) ?_ ?_
      (fun _ => rfl) hfr2p
    · rw [hr]
      simpa using hc1
    · rw [hr]
      rcases hc5 with h | h
      · left
        simpa using h
      · right
        simpa using h
  · cases o1 with
    | dir m2 e2 =>
      have hrun : ∀ tx : Option FObj,
          runCopy cfg sp dp (.sym m t) (some (.dir m2 e2)) tx
            sdev ddev dcdev =
          { dst := some (.dir m2 e2), r := 0, copied := 0, removed := 0,
            srcItems := 0, evs := [], tmpFx := none } := by
        intro tx
        rw [runCopy]
        simp only [doCopy, Option.isSome_some]
        rw [hearly0 _ _]
        rw [if_pos ⟨by trivial, by simp [lstatOf], by simp [lstatOf], hS⟩]
      refine stableAt_of cfg sp dp (.sym m t) (some (.dir m2 e2)) tmp
        sdev ddev dcdev (some (.dir m2 e2)) (by rw [hrun tmp])
        (by rw [hrun tmp]; left; rfl)
        (fun h => Option.noConfusion h) ?_
      intro tmp2
      rw [hrun tmp2]
      exact ⟨rfl, rfl, rfl, rfl, rfl⟩
    | sym m2 t2 =>
      by_cases ht : t2 = t
      · subst ht
        -- same target: nothing to do on either run
        have hrun : ∀ tx : Option FObj,
            runCopy cfg sp dp (.sym m t2) (some (.sym m2 t2)) tx
              sdev ddev dcdev =
            { dst := some (.sym m2 t2), r := 0, copied := 0, removed := 0,
              srcItems := 1, evs := [], tmpFx := none } := by
          intro tx
          rw [runCopy]
          simp only [doCopy, Option.isSome_some]
          rw [hearly0 _ _]
          rw [if_neg (fun hc => by have := hc.2.2; simp [lstatOf] at this)]
          rw [if_neg (fun hc => by have := hc.2.2; simp [lstatOf] at this)]
          rw [copySymlink.eq_def]
          rw [if_neg (by simp [hF])]
          rfl
        refine stableAt_of cfg sp dp (.sym m t2) (some (.sym m2 t2)) tmp
          sdev ddev dcdev (some (.sym m2 t2)) (by rw [hrun tmp])
          (by rw [hrun tmp]; left; rfl)
          (fun h => Option.noConfusion h) ?_
        intro tmp2
        rw [hrun tmp2]
        exact ⟨rfl, rfl, rfl, rfl, rfl⟩
      · -- different target: relinked
        have hr : runCopy cfg sp dp (.sym m t) (some (.sym m2 t2)) tmp
            sdev ddev dcdev =
            { copySymlink cfg (lstatOf (.sym m t)) t (some (.sym m2 t2))
                tmp (lstatOf (FObj.sym m2 t2)).flags dcdev
              with
              removed := 0 + (copySymlink cfg (lstatOf (.sym m t)) t
                (some (.sym m2 t2)) tmp (lstatOf (FObj.sym m2 t2)).flags
                dcdev).removed,
              evs := [] ++ (copySymlink cfg (lstatOf (.sym m t)) t
                (some (.sym m2 t2)) tmp (lstatOf (FObj.sym m2 t2)).flags
                dcdev).evs } := by
          rw [runCopy]
          simp only [doCopy, Option.isSome_some]
          rw [hearly0 _ _]
          rw [if_neg (fun hc => by have := hc.2.2; simp [lstatOf] at this)]
          rw [if_neg (fun hc => by have := hc.2.2; simp [lstatOf] at this)]
        obtain ⟨hc1, hc2, hc3, hc4, hc5⟩ :=
          copySymlink_ok cfg (lstatOf (.sym m t)) t (some (.sym m2 t2)) tmp
            (lstatOf (FObj.sym m2 t2)).flags dcdev rfl htd (by simp [ht])
        refine stableAt_of cfg sp dp (.sym m t) (some (.sym m2 t2)) tmp
          sdev ddev dcdev
          (some (.sym (freshMeta (lstatOf (.sym m t)) dcdev) t)) ?_ ?_
          (fun h => Option.noConfusion h) hfr2p
        · rw [hr]
          simpa using hc1
        · rw [hr]
          rcases hc5 with h | h
          · left
            simpa using h
          · right
            simpa using h
    | reg m2 c2 =>
      have hr : runCopy cfg sp dp (.sym m t) (some (.reg m2 c2)) tmp
          sdev ddev dcdev =
          { copySymlink cfg (lstatOf (.sym m t)) t (some (.reg m2 c2))
              tmp (lstatOf (FObj.reg m2 c2)).flags dcdev
            with
            removed := 0 + (copySymlink cfg (lstatOf (.sym m t)) t
              (some (.reg m2 c2)) tmp (lstatOf (FObj.reg m2 c2)).flags
              dcdev).removed,
            evs := [] ++ (copySymlink cfg (lstatOf (.sym m t)) t
              (some (.reg m2 c2)) tmp (lstatOf (FObj.reg m2 c2)).flags
              dcdev).evs } := by
        rw [runCopy]
        simp only [doCopy, Option.isSome_some]
        rw [hearly0 _ _]
        rw [if_neg (fun hc => by have := hc.2.2; simp [lstatOf] at this)]
        rw [if_neg (fun hc => by have := hc.2.2; simp [lstatOf] at this)]
      obtain ⟨hc1, hc2, hc3, hc4, hc5⟩ :=
        copySymlink_ok cfg (lstatOf (.sym m t)) t (some (.reg m2 c2)) tmp
          (lstatOf (FObj.reg m2 c2)).flags dcdev rfl htd (by simp)
      refine stableAt_of cfg sp dp (.sym m t) (some (.reg m2 c2)) tmp
        sdev ddev dcdev
        (some (.sym (freshMeta (lstatOf (.sym m t)) dcdev) t)) ?_ ?_
        (fun h => Option.noConfusion h) hfr2p
      · rw [hr]
        simpa using hc1
      · rw [hr]
        rcases hc5 with h | h
        · left
          simpa using h
        · right
          simpa using h
    | dev m2 b2 r2 =>
      have hr : runCopy cfg sp dp (.sym m t) (some (.dev m2 b2 r2)) tmp
          sdev ddev dcdev =
          { copySymlink cfg (lstatOf (.sym m t)) t (some (.dev m2 b2 r2))
              tmp (lstatOf (FObj.dev m2 b2 r2)).flags dcdev
            with
            removed := 0 + (copySymlink cfg (lstatOf (.sym m t)) t
              (some (.dev m2 b2 r2)) tmp (lstatOf (FObj.dev m2 b2 r2)).flags
              dcdev).removed,
            evs := [] ++ (copySymlink cfg (lstatOf (.sym m t)) t
              (some (.dev m2 b2 r2)) tmp (lstatOf (FObj.dev m2 b2 r2)).flags
              dcdev).evs } := by
        rw [runCopy]
        simp only [doCopy, Option.isSome_some]
        rw [hearly0 _ _]
        rw [if_neg (fun hc => by
          have := hc.2.2
          simp [lstatOf] at this
          cases b2 <;> simp_all)]
        rw [if_neg (fun hc => by
          have := hc.2.2
          simp [lstatOf] at this
          cases b2 <;> simp_all)]
      obtain ⟨hc1, hc2, hc3, hc4, hc5⟩ :=
        copySymlink_ok cfg (lstatOf (.sym m t)) t (some (.dev m2 b2 r2)) tmp
          (lstatOf (FObj.dev m2 b2 r2)).flags dcdev rfl htd (by simp)
      refine stableAt_of cfg sp dp (.sym m t) (some (.dev m2 b2 r2)) tmp
        sdev ddev dcdev
        (some (.sym (freshMeta (lstatOf (.sym m t)) dcdev) t)) ?_ ?_
        (fun h => Option.noConfusion h) hfr2p
      · rw [hr]
        simpa using hc1
      · rw [hr]
        rcases hc5 with h | h
        · left
          simpa using h
        · right
          simpa using h
    | oth m2 =>
      have hr : runCopy cfg sp dp (.sym m t) (some (.oth m2)) tmp
          sdev ddev dcdev =
          { copySymlink cfg (lstatOf (.sym m t)) t (some (.oth m2))
              tmp (lstatOf (FObj.oth m2)).flags dcdev
            with
            removed := 0 + (copySymlink cfg (lstatOf (.sym m t)) t
              (some (.oth m2)) tmp (lstatOf (FObj.oth m2)).flags
              dcdev).removed,
            evs := [] ++ (copySymlink cfg (lstatOf (.sym m t)) t
              (some (.oth m2)) tmp (lstatOf (FObj.oth m2)).flags
              dcdev).evs } := by
        rw [runCopy]
        simp only [doCopy, Option.isSome_some]
        rw [hearly0 _ _]
        rw [if_neg (fun hc => by have := hc.2.2; simp [lstatOf] at this)]
        rw [if_neg (fun hc => by have := hc.2.2; simp [lstatOf] at this)]
      obtain ⟨hc1, hc2, hc3, hc4, hc5⟩ :=
        copySymlink_ok cfg (lstatOf (.sym m t)) t (some (.oth m2)) tmp
          (lstatOf (FObj.oth m2)).flags dcdev rfl htd (by simp)
      refine stableAt_of cfg sp dp (.sym m t) (some (.oth m2)) tmp
        sdev ddev dcdev
        (some (.sym (freshMeta (lstatOf (.sym m t)) dcdev) t)) ?_ ?_
        (fun h => Option.noConfusion h) hfr2p
      · rw [hr]
        simpa using hc1
      · rw [hr]
        rcases hc5 with h | h
        · left
          simpa using h
        · right
          simpa using h

theorem copyDevNode_ok (cfg : Config) (st1 : Stat) (b : Bool) :
    ∀ (dcur tmp : Option FObj) (st2 : Stat) (v : Bool) (dc : Nat),
      isDirO dcur = false → isNeDirO tmp = false →
      (cfg.forceOpt = true ∨ ¬v = true ∨ st1.mode ≠ st2.mode ∨
        st1.rdev ≠ st2.rdev ∨ st1.uid ≠ st2.uid ∨ st1.gid ≠ st2.gid) →
      (copyDevNode cfg st1 b dcur tmp st2 v dc).dst =
        some (.dev (freshMeta st1 dc) b st1.rdev) ∧
      (copyDevNode cfg st1 b dcur tmp st2 v dc).r = 0 ∧
      (copyDevNode cfg st1 b dcur tmp st2 v dc).copied = 1 ∧
      (copyDevNode cfg st1 b dcur tmp st2 v dc).removed = 0 ∧
      ((copyDevNode cfg st1 b dcur tmp st2 v dc).tmpFx = none ∨
       (copyDevNode cfg st1 b dcur tmp st2 v dc).tmpFx = some none) := by
  intro dcur tmp st2 v dc h1 h2 h3
  rw [copyDevNode.eq_def]
  rw [if_pos h3]
  rcases dcur with _ | o1
  · rcases tmp with _ | o2
    · simp [xrenameModel, freshMeta]
    · cases o2 <;>
        first
        | (simp_all [xrenameModel, freshMeta, isDirO, isNeDirO]; done)
        | (rename_i dents2; cases dents2 <;>
            simp_all [xrenameModel, freshMeta, isDirO, isNeDirO])
  · cases o1 <;> rcases tmp with _ | o2 <;>
      first
      | (simp_all [xrenameModel, freshMeta, isDirO, isNeDirO]; done)
      | (cases o2 <;>
          first
          | (simp_all [xrenameModel, freshMeta, isDirO, isNeDirO]; done)
          | (rename_i dents2; cases dents2 <;>
              simp_all [xrenameModel, freshMeta, isDirO, isNeDirO]))

theorem devStable (cfg : Config) (hF : cfg.forceOpt = false)
    (hS : cfg.safetyOpt = true) (hM : cfg.useMD5 = false)
    (hI : cfg.useFSMID = false) (sp dp : String) (m : Meta) (b : Bool)
    (r : Nat) (dcur tmp : Option FObj) (sdev ddev : Int) (dcdev : Nat)
    (htmp : tmpHazOK (.dev m b r) tmp = true) :
    stableAt cfg sp dp (.dev m b r) dcur tmp sdev ddev dcdev := by
  have htd : isNeDirO tmp = false := by
    simpa [tmpHazOK] using htmp
  have hfile : ¬((lstatOf (FObj.dev m b r)).mode.ftype = FType.flnk ∨
      (lstatOf (FObj.dev m b r)).mode.ftype = FType.fdir) := by
    cases b <;> simp [lstatOf]
  have hfr2p : ∀ tmp2 : Option FObj,
      (runCopy cfg sp dp (.dev m b r)
        (some (.dev (freshMeta (lstatOf (.dev m b r)) dcdev) b r)) tmp2
        sdev ddev dcdev).dst =
        some (.dev (freshMeta (lstatOf (.dev m b r)) dcdev) b r) ∧
      (runCopy cfg sp dp (.dev m b r)
        (some (.dev (freshMeta (lstatOf (.dev m b r)) dcdev) b r)) tmp2
        sdev ddev dcdev).r = 0 ∧
      (runCopy cfg sp dp (.dev m b r)
        (some (.dev (freshMeta (lstatOf (.dev m b r)) dcdev) b r)) tmp2
        sdev ddev dcdev).copied = 0 ∧
      (runCopy cfg sp dp (.dev m b r)
        (some (.dev (freshMeta (lstatOf (.dev m b r)) dcdev) b r)) tmp2
        sdev ddev dcdev).removed = 0 ∧
      (runCopy cfg sp dp (.dev m b r)
        (some (.dev (freshMeta (lstatOf (.dev m b r)) dcdev) b r)) tmp2
        sdev ddev dcdev).tmpFx = none := by
    intro tmp2
    rw [runCopy]
    simp only [doCopy, Option.isSome_some]
    rw [earlyNoChange_file cfg hF hM hI _ _ _ _ _ _ hfile]
    by_cases hC : (true = true) ∧
        (lstatOf (FObj.dev m b r)).mode =
          (lstatOf (FObj.dev (freshMeta (lstatOf (.dev m b r)) dcdev)
            b r)).mode ∧
        (lstatOf (FObj.dev m b r)).flags =
          (lstatOf (FObj.dev (freshMeta (lstatOf (.dev m b r)) dcdev)
            b r)).flags ∧
        (lstatOf (FObj.dev m b r)).size =
          (lstatOf (FObj.dev (freshMeta (lstatOf (.dev m b r)) dcdev)
            b r)).size ∧
        (lstatOf (FObj.dev m b r)).uid =
          (lstatOf (FObj.dev (freshMeta (lstatOf (.dev m b r)) dcdev)
            b r)).uid ∧
        (lstatOf (FObj.dev m b r)).gid =
          (lstatOf (FObj.dev (freshMeta (lstatOf (.dev m b r)) dcdev)
            b r)).gid ∧
        (lstatOf (FObj.dev m b r)).mtime =
          (lstatOf (FObj.dev (freshMeta (lstatOf (.dev m b r)) dcdev)
            b r)).mtime
    · rw [if_pos hC]
      exact ⟨rfl, rfl, rfl, rfl, rfl⟩
    · rw [if_neg hC]
      rw [if_neg (fun hc => by
        have := hc.2.2
        simp [lstatOf] at this
        cases b <;> simp_all)]
      rw [if_neg (fun hc => by
        have := hc.2.2
        simp [lstatOf] at this
        cases b <;> simp_all)]
      rw [copyDevNode.eq_def]
      rw [if_neg (fun hc => by
        rcases hc with h | h | h | h | h | h
        · rw [hF] at h
          exact Bool.noConfusion h
        · exact h rfl
        · exact h (by cases b <;> simp [lstatOf, freshMeta])
        · exact h (by simp [lstatOf])
        · exact h (by simp [lstatOf, freshMeta])
        · exact h (by simp [lstatOf, freshMeta]))]
      exact ⟨rfl, rfl, rfl, rfl, rfl⟩
  rcases dcur with _ | o1
  · -- nothing at the destination: the node is created
    have hr : runCopy cfg sp dp (.dev m b r) none tmp sdev ddev dcdev =
        { copyDevNode cfg (lstatOf (.dev m b r)) b none tmp statNone false
            dcdev
          with
          removed := 0 + (copyDevNode cfg (lstatOf (.dev m b r)) b none tmp
            statNone false dcdev).removed,
          evs := [] ++ (copyDevNode cfg (lstatOf (.dev m b r)) b none tmp
            statNone false dcdev).evs } := by
      rw [runCopy]
      simp only [doCopy, Option.isSome_none]
      rw [earlyNoChange_file cfg hF hM hI _ _ _ _ _ _ hfile]
      rw [if_neg (fun hc => Bool.noConfusion hc.1)]
      rw [if_neg (fun hc => Bool.noConfusion hc.1)]
      rw [if_neg (fun hc => Bool.noConfusion hc.1)]
    obtain ⟨hc1, hc2, hc3, hc4, hc5⟩ :=
      copyDevNode_ok cfg (lstatOf (.dev m b r)) b none tmp statNone false
        dcdev rfl htd (Or.inr (Or.inl (by simp)))
    refine stableAt_of cfg sp dp (.dev m b r) none tmp sdev ddev dcdev
      (some (.dev (freshMeta (lstatOf (.dev m b r)) dcdev) b r)) ?_ ?_
      (fun _ => rfl) hfr2p
    · rw [hr]
      simpa [lstatOf] using hc1
    · rw [hr]
      rcases hc5 with h | h
      · left
        simpa using h
      · right
        simpa using h
  · cases o1 with
    | dir m2 e2 =>
      have hrun : ∀ tx : Option FObj,
          runCopy cfg sp dp (.dev m b r) (some (.dir m2 e2)) tx
            sdev ddev dcdev =
          { dst := some (.dir m2 e2), r := 0, copied := 0, removed := 0,
            srcItems := 0, evs := [], tmpFx := none } := by
        intro tx
        rw [runCopy]
        simp only [doCopy, Option.isSome_some]
        rw [earlyNoChange_file cfg hF hM hI _ _ _ _ _ _ hfile]
        rw [if_neg (fun hc => by
          have := hc.2.1
          cases b <;> simp [lstatOf] at this)]
        rw [if_pos ⟨by trivial, by cases b <;> simp [lstatOf],
          by simp [lstatOf], hS⟩]
      refine stableAt_of cfg sp dp (.dev m b r) (some (.dir m2 e2)) tmp
        sdev ddev dcdev (some (.dir m2 e2)) (by rw [hrun tmp])
        (by rw [hrun tmp]; left; rfl)
        (fun h => Option.noConfusion h) ?_
      intro tmp2
      rw [hrun tmp2]
      exact ⟨rfl, rfl, rfl, rfl, rfl⟩
    | dev m2 b2 r2 =>
      by_cases hC : (true = true) ∧
          (lstatOf (FObj.dev m b r)).mode =
            (lstatOf (FObj.dev m2 b2 r2)).mode ∧
          (lstatOf (FObj.dev m b r)).flags =
            (lstatOf (FObj.dev m2 b2 r2)).flags ∧
          (lstatOf (FObj.dev m b r)).size =
            (lstatOf (FObj.dev m2 b2 r2)).size ∧
          (lstatOf (FObj.dev m b r)).uid =
            (lstatOf (FObj.dev m2 b2 r2)).uid ∧
          (lstatOf (FObj.dev m b r)).gid =
            (lstatOf (FObj.dev m2 b2 r2)).gid ∧
          (lstatOf (FObj.dev m b r)).mtime =
            (lstatOf (FObj.dev m2 b2 r2)).mtime
      · have hrun : ∀ tx : Option FObj,
            runCopy cfg sp dp (.dev m b r) (some (.dev m2 b2 r2)) tx
              sdev ddev dcdev =
            { dst := some (.dev m2 b2 r2), r := 0, copied := 0,
              removed := 0, srcItems := 1, evs := [], tmpFx := none } := by
          intro tx
          rw [runCopy]
          simp only [doCopy, Option.isSome_some]
          rw [earlyNoChange_file cfg hF hM hI _ _ _ _ _ _ hfile, if_pos hC]
        refine stableAt_of cfg sp dp (.dev m b r) (some (.dev m2 b2 r2))
          tmp sdev ddev dcdev (some (.dev m2 b2 r2)) (by rw [hrun tmp])
          (by rw [hrun tmp]; left; rfl)
          (fun h => Option.noConfusion h) ?_
        intro tmp2
        rw [hrun tmp2]
        exact ⟨rfl, rfl, rfl, rfl, rfl⟩
      · by_cases hD : cfg.forceOpt = true ∨
            ¬(true : Bool) = true ∨
            (lstatOf (FObj.dev m b r)).mode ≠
              (lstatOf (FObj.dev m2 b2 r2)).mode ∨
            (lstatOf (FObj.dev m b r)).rdev ≠
              (lstatOf (FObj.dev m2 b2 r2)).rdev ∨
            (lstatOf (FObj.dev m b r)).uid ≠
              (lstatOf (FObj.dev m2 b2 r2)).uid ∨
            (lstatOf (FObj.dev m b r)).gid ≠
              (lstatOf (FObj.dev m2 b2 r2)).gid
        · -- attributes differ: the node is recreated
          have hr : runCopy cfg sp dp (.dev m b r) (some (.dev m2 b2 r2))
              tmp sdev ddev dcdev =
              { copyDevNode cfg (lstatOf (.dev m b r)) b
                  (some (.dev m2 b2 r2)) tmp (lstatOf (FObj.dev m2 b2 r2))
                  true dcdev
                with
                removed := 0 + (copyDevNode cfg (lstatOf (.dev m b r)) b
                  (some (.dev m2 b2 r2)) tmp (lstatOf (FObj.dev m2 b2 r2))
                  true dcdev).removed,
                evs := [] ++ (copyDevNode cfg (lstatOf (.dev m b r)) b
                  (some (.dev m2 b2 r2)) tmp (lstatOf (FObj.dev m2 b2 r2))
                  true dcdev).evs } := by
            rw [runCopy]
            simp only [doCopy, Option.isSome_some]
            rw [earlyNoChange_file cfg hF hM hI _ _ _ _ _ _ hfile,
              if_neg hC]
            rw [if_neg (fun hc => by
              have := hc.2.2
              simp [lstatOf] at this
              cases b2 <;> simp_all)]
            rw [if_neg (fun hc => by
              have := hc.2.2
              simp [lstatOf] at this
              cases b2 <;> simp_all)]
          obtain ⟨hc1, hc2, hc3, hc4, hc5⟩ :=
            copyDevNode_ok cfg (lstatOf (.dev m b r)) b
              (some (.dev m2 b2 r2)) tmp (lstatOf (FObj.dev m2 b2 r2))
              true dcdev rfl htd hD
          refine stableAt_of cfg sp dp (.dev m b r) (some (.dev m2 b2 r2))
            tmp sdev ddev dcdev
            (some (.dev (freshMeta (lstatOf (.dev m b r)) dcdev) b r))
            ?_ ?_ (fun h => Option.noConfusion h) hfr2p
          · rw [hr]
            simpa [lstatOf] using hc1
          · rw [hr]
            rcases hc5 with h | h
            · left
              simpa using h
            · right
              simpa using h
        · -- same node, metadata drift only: the branch does nothing
          have hrun : ∀ tx : Option FObj,
              runCopy cfg sp dp (.dev m b r) (some (.dev m2 b2 r2)) tx
                sdev ddev dcdev =
              { dst := some (.dev m2 b2 r2), r := 0, copied := 0,
                removed := 0, srcItems := 1, evs := [],
                tmpFx := none } := by
            intro tx
            rw [runCopy]
            simp only [doCopy, Option.isSome_some]
            rw [earlyNoChange_file cfg hF hM hI _ _ _ _ _ _ hfile,
              if_neg hC]
            rw [if_neg (fun hc => by
              have := hc.2.2
              simp [lstatOf] at this
              cases b2 <;> simp_all)]
            rw [if_neg (fun hc => by
              have := hc.2.2
              simp [lstatOf] at this
              cases b2 <;> simp_all)]
            rw [copyDevNode.eq_def]
            rw [if_neg hD]
            rfl
          refine stableAt_of cfg sp dp (.dev m b r) (some (.dev m2 b2 r2))
            tmp sdev ddev dcdev (some (.dev m2 b2 r2)) (by rw [hrun tmp])
            (by rw [hrun tmp]; left; rfl)
            (fun h => Option.noConfusion h) ?_
          intro tmp2
          rw [hrun tmp2]
          exact ⟨rfl, rfl, rfl, rfl, rfl⟩
    | reg m2 c2 =>
      have hr : runCopy cfg sp dp (.dev m b r) (some (.reg m2 c2)) tmp
          sdev ddev dcdev =
          { copyDevNode cfg (lstatOf (.dev m b r)) b (some (.reg m2 c2))
              tmp (lstatOf (FObj.reg m2 c2)) true dcdev
            with
            removed := 0 + (copyDevNode cfg (lstatOf (.dev m b r)) b
              (some (.reg m2 c2)) tmp (lstatOf (FObj.reg m2 c2)) true
              dcdev).removed,
            evs := [] ++ (copyDevNode cfg (lstatOf (.dev m b r)) b
              (some (.reg m2 c2)) tmp (lstatOf (FObj.reg m2 c2)) true
              dcdev).evs } := by
        rw [runCopy]
        simp only [doCopy, Option.isSome_some]
        rw [earlyNoChange_file cfg hF hM hI _ _ _ _ _ _ hfile]
        rw [if_neg (fun hc => by
          have := hc.2.1
          cases b <;> simp [lstatOf] at this)]
        rw [if_neg (fun hc => by have := hc.2.2; simp [lstatOf] at this)]
        rw [if_neg (fun hc => by have := hc.2.2; simp [lstatOf] at this)]
      obtain ⟨hc1, hc2, hc3, hc4, hc5⟩ :=
        copyDevNode_ok cfg (lstatOf (.dev m b r)) b (some (.reg m2 c2)) tmp
          (lstatOf (FObj.reg m2 c2)) true dcdev rfl htd
          (Or.inr (Or.inr (Or.inl (by cases b <;> simp [lstatOf]))))
      refine stableAt_of cfg sp dp (.dev m b r) (some (.reg m2 c2)) tmp
        sdev ddev dcdev
        (some (.dev (freshMeta (lstatOf (.dev m b r)) dcdev) b r)) ?_ ?_
        (fun h => Option.noConfusion h) hfr2p
      · rw [hr]
        simpa [lstatOf] using hc1
      · rw [hr]
        rcases hc5 with h | h
        · left
          simpa using h
        · right
          simpa using h
    | sym m2 t2 =>
      have hr : runCopy cfg sp dp (.dev m b r) (some (.sym m2 t2)) tmp
          sdev ddev dcdev =
          { copyDevNode cfg (lstatOf (.dev m b r)) b (some (.sym m2 t2))
              tmp (lstatOf (FObj.sym m2 t2)) true dcdev
            with
            removed := 0 + (copyDevNode cfg (lstatOf (.dev m b r)) b
              (some (.sym m2 t2)) tmp (lstatOf (FObj.sym m2 t2)) true
              dcdev).removed,
            evs := [] ++ (copyDevNode cfg (lstatOf (.dev m b r)) b
              (some (.sym m2 t2)) tmp (lstatOf (FObj.sym m2 t2)) true
              dcdev).evs } := by
        rw [runCopy]
        simp only [doCopy, Option.isSome_some]
        rw [earlyNoChange_file cfg hF hM hI _ _ _ _ _ _ hfile]
        rw [if_neg (fun hc => by
          have := hc.2.1
          cases b <;> simp [lstatOf] at this)]
        rw [if_neg (fun hc => by have := hc.2.2; simp [lstatOf] at this)]
        rw [if_neg (fun hc => by have := hc.2.2; simp [lstatOf] at this)]
      obtain ⟨hc1, hc2, hc3, hc4, hc5⟩ :=
        copyDevNode_ok cfg (lstatOf (.dev m b r)) b (some (.sym m2 t2)) tmp
          (lstatOf (FObj.sym m2 t2)) true dcdev rfl htd
          (Or.inr (Or.inr (Or.inl (by cases b <;> simp [lstatOf]))))
      refine stableAt_of cfg sp dp (.dev m b r) (some (.sym m2 t2)) tmp
        sdev ddev dcdev
        (some (.dev (freshMeta (lstatOf (.dev m b r)) dcdev) b r)) ?_ ?_
        (fun h => Option.noConfusion h) hfr2p
      · rw [hr]
        simpa [lstatOf] using hc1
      · rw [hr]
        rcases hc5 with h | h
        · left
          simpa using h
        · right
          simpa using h
    | oth m2 =>
      have hr : runCopy cfg sp dp (.dev m b r) (some (.oth m2)) tmp
          sdev ddev dcdev =
          { copyDevNode cfg (lstatOf (.dev m b r)) b (some (.oth m2))
              tmp (lstatOf (FObj.oth m2)) true dcdev
            with
            removed := 0 + (copyDevNode cfg (lstatOf (.dev m b r)) b
              (some (.oth m2)) tmp (lstatOf (FObj.oth m2)) true
              dcdev).removed,
            evs := [] ++ (copyDevNode cfg (lstatOf (.dev m b r)) b
              (some (.oth m2)) tmp (lstatOf (FObj.oth m2)) true
              dcdev).evs } := by
        rw [runCopy]
        simp only [doCopy, Option.isSome_some]
        rw [earlyNoChange_file cfg hF hM hI _ _ _ _ _ _ hfile]
        rw [if_neg (fun hc => by
          have := hc.2.1
          cases b <;> simp [lstatOf] at this)]
        rw [if_neg (fun hc => by have := hc.2.2; simp [lstatOf] at this)]
        rw [if_neg (fun hc => by have := hc.2.2; simp [lstatOf] at this)]
      obtain ⟨hc1, hc2, hc3, hc4, hc5⟩ :=
        copyDevNode_ok cfg (lstatOf (.dev m b r)) b (some (.oth m2)) tmp
          (lstatOf (FObj.oth m2)) true dcdev rfl htd
          (Or.inr (Or.inr (Or.inl (by cases b <;> simp [lstatOf]))))
      refine stableAt_of cfg sp dp (.dev m b r) (some (.oth m2)) tmp
        sdev ddev dcdev
        (some (.dev (freshMeta (lstatOf (.dev m b r)) dcdev) b r)) ?_ ?_
        (fun h => Option.noConfusion h) hfr2p
      · rw [hr]
        simpa [lstatOf] using hc1
      · rw [hr]
        rcases hc5 with h | h
        · left
          simpa using h
        · right
          simpa using h

theorem othStable (cfg : Config) (hF : cfg.forceOpt = false)
    (hS : cfg.safetyOpt = true) (hM : cfg.useMD5 = false)
    (hI : cfg.useFSMID = false) (sp dp : String) (m : Meta)
    (dcur tmp : Option FObj) (sdev ddev : Int) (dcdev : Nat) :
    stableAt cfg sp dp (.oth m) dcur tmp sdev ddev dcdev := by
  have hfile : ¬((lstatOf (FObj.oth m)).mode.ftype = FType.flnk ∨
      (lstatOf (FObj.oth m)).mode.ftype = FType.fdir) := by
    simp [lstatOf]
  rcases dcur with _ | o1
  · have hrun : ∀ tx : Option FObj,
        runCopy cfg sp dp (.oth m) none tx sdev ddev dcdev =
        { dst := none, r := 0, copied := 0, removed := 0, srcItems := 0,
          evs := [], tmpFx := none } := by
      intro tx
      rw [runCopy]
      simp only [doCopy, Option.isSome_none]
      rw [earlyNoChange_file cfg hF hM hI _ _ _ _ _ _ hfile]
      rw [if_neg (fun hc => Bool.noConfusion hc.1)]
      rw [if_neg (fun hc => Bool.noConfusion hc.1)]
      rw [if_neg (fun hc => Bool.noConfusion hc.1)]
      rfl
    refine stableAt_of cfg sp dp (.oth m) none tmp sdev ddev dcdev none
      (by rw [hrun tmp]) (by rw [hrun tmp]; left; rfl) (fun _ => rfl) ?_
    intro tmp2
    rw [hrun tmp2]
    exact ⟨rfl, rfl, rfl, rfl, rfl⟩
  · cases o1 with
    | dir m2 e2 =>
      have hrun : ∀ tx : Option FObj,
          runCopy cfg sp dp (.oth m) (some (.dir m2 e2)) tx
            sdev ddev dcdev =
          { dst := some (.dir m2 e2), r := 0, copied := 0, removed := 0,
            srcItems := 0, evs := [], tmpFx := none } := by
        intro tx
        rw [runCopy]
        simp only [doCopy, Option.isSome_some]
        rw [earlyNoChange_file cfg hF hM hI _ _ _ _ _ _ hfile]
        rw [if_neg (fun hc => by
          have := hc.2.1
          simp [lstatOf] at this)]
        rw [if_pos ⟨by trivial, by simp [lstatOf], by simp [lstatOf], hS⟩]
      refine stableAt_of cfg sp dp (.oth m) (some (.dir m2 e2)) tmp
        sdev ddev dcdev (some (.dir m2 e2)) (by rw [hrun tmp])
        (by rw [hrun tmp]; left; rfl)
        (fun h => Option.noConfusion h) ?_
      intro tmp2
      rw [hrun tmp2]
      exact ⟨rfl, rfl, rfl, rfl, rfl⟩
    | oth m2 =>
      by_cases hC : (true = true) ∧
          (lstatOf (FObj.oth m)).mode = (lstatOf (FObj.oth m2)).mode ∧
          (lstatOf (FObj.oth m)).flags = (lstatOf (FObj.oth m2)).flags ∧
          (lstatOf (FObj.oth m)).size = (lstatOf (FObj.oth m2)).size ∧
          (lstatOf (FObj.oth m)).uid = (lstatOf (FObj.oth m2)).uid ∧
          (lstatOf (FObj.oth m)).gid = (lstatOf (FObj.oth m2)).gid ∧
          (lstatOf (FObj.oth m)).mtime = (lstatOf (FObj.oth m2)).mtime
      · have hrun : ∀ tx : Option FObj,
            runCopy cfg sp dp (.oth m) (some (.oth m2)) tx
              sdev ddev dcdev =
            { dst := some (.oth m2), r := 0, copied := 0, removed := 0,
              srcItems := 1, evs := [], tmpFx := none } := by
          intro tx
          rw [runCopy]
          simp only [doCopy, Option.isSome_some]
          rw [earlyNoChange_file cfg hF hM hI _ _ _ _ _ _ hfile, if_pos hC]
        refine stableAt_of cfg sp dp (.oth m) (some (.oth m2)) tmp
          sdev ddev dcdev (some (.oth m2)) (by rw [hrun tmp])
          (by rw [hrun tmp]; left; rfl)
          (fun h => Option.noConfusion h) ?_
        intro tmp2
        rw [hrun tmp2]
        exact ⟨rfl, rfl, rfl, rfl, rfl⟩
      · have hrun : ∀ tx : Option FObj,
            runCopy cfg sp dp (.oth m) (some (.oth m2)) tx
              sdev ddev dcdev =
            { dst := some (.oth m2), r := 0, copied := 0, removed := 0,
              srcItems := 0, evs := [], tmpFx := none } := by
          intro tx
          rw [runCopy]
          simp only [doCopy, Option.isSome_some]
          rw [earlyNoChange_file cfg hF hM hI _ _ _ _ _ _ hfile,
            if_neg hC]
          rw [if_neg (fun hc => by
            have := hc.2.2
            simp [lstatOf] at this)]
          rw [if_neg (fun hc => by
            have := hc.2.2
            simp [lstatOf] at this)]
          rfl
        refine stableAt_of cfg sp dp (.oth m) (some (.oth m2)) tmp
          sdev ddev dcdev (some (.oth m2)) (by rw [hrun tmp])
          (by rw [hrun tmp]; left; rfl)
          (fun h => Option.noConfusion h) ?_
        intro tmp2
        rw [hrun tmp2]
        exact ⟨rfl, rfl, rfl, rfl, rfl⟩
    | reg m2 c2 =>
      have hrun : ∀ tx : Option FObj,
          runCopy cfg sp dp (.oth m) (some (.reg m2 c2)) tx
            sdev ddev dcdev =
          { dst := some (.reg m2 c2), r := 0, copied := 0, removed := 0,
            srcItems := 0, evs := [], tmpFx := none } := by
        intro tx
        rw [runCopy]
        simp only [doCopy, Option.isSome_some]
        rw [earlyNoChange_file cfg hF hM hI _ _ _ _ _ _ hfile]
        rw [if_neg (fun hc => by
          have := hc.2.1
          simp [lstatOf] at this)]
        rw [if_neg (fun hc => by have := hc.2.2; simp [lstatOf] at this)]
        rw [if_neg (fun hc => by have := hc.2.2; simp [lstatOf] at this)]
        rfl
      refine stableAt_of cfg sp dp (.oth m) (some (.reg m2 c2)) tmp
        sdev ddev dcdev (some (.reg m2 c2)) (by rw [hrun tmp])
        (by rw [hrun tmp]; left; rfl)
        (fun h => Option.noConfusion h) ?_
      intro tmp2
      rw [hrun tmp2]
      exact ⟨rfl, rfl, rfl, rfl, rfl⟩
    | sym m2 t2 =>
      have hrun : ∀ tx : Option FObj,
          runCopy cfg sp dp (.oth m) (some (.sym m2 t2)) tx
            sdev ddev dcdev =
          { dst := some (.sym m2 t2), r := 0, copied := 0, removed := 0,
            srcItems := 0, evs := [], tmpFx := none } := by
        intro tx
        rw [runCopy]
        simp only [doCopy, Option.isSome_some]
        rw [earlyNoChange_file cfg hF hM hI _ _ _ _ _ _ hfile]
        rw [if_neg (fun hc => by
          have := hc.2.1
          simp [lstatOf] at this)]
        rw [if_neg (fun hc => by have := hc.2.2; simp [lstatOf] at this)]
        rw [if_neg (fun hc => by have := hc.2.2; simp [lstatOf] at this)]
        rfl
      refine stableAt_of cfg sp dp (.oth m) (some (.sym m2 t2)) tmp
        sdev ddev dcdev (some (.sym m2 t2)) (by rw [hrun tmp])
        (by rw [hrun tmp]; left; rfl)
        (fun h => Option.noConfusion h) ?_
      intro tmp2
      rw [hrun tmp2]
      exact ⟨rfl, rfl, rfl, rfl, rfl⟩
    | dev m2 b2 r2 =>
      have hrun : ∀ tx : Option FObj,
          runCopy cfg sp dp (.oth m) (some (.dev m2 b2 r2)) tx
            sdev ddev dcdev =
          { dst := some (.dev m2 b2 r2), r := 0, copied := 0, removed := 0,
            srcItems := 0, evs := [], tmpFx := none } := by
        intro tx
        rw [runCopy]
        simp only [doCopy, Option.isSome_some]
        rw [earlyNoChange_file cfg hF hM hI _ _ _ _ _ _ hfile]
        rw [if_neg (fun hc => by
          have := hc.2.1
          simp [lstatOf] at this
          cases b2 <;> simp_all)]
        rw [if_neg (fun hc => by
          have := hc.2.2
          simp [lstatOf] at this
          cases b2 <;> simp_all)]
        rw [if_neg (fun hc => by
          have := hc.2.2
          simp [lstatOf] at this
          cases b2 <;> simp_all)]
        rfl
      refine stableAt_of cfg sp dp (.oth m) (some (.dev m2 b2 r2)) tmp
        sdev ddev dcdev (some (.dev m2 b2 r2)) (by rw [hrun tmp])
        (by rw [hrun tmp]; left; rfl)
        (fun h => Option.noConfusion h) ?_
      intro tmp2
      rw [hrun tmp2]
      exact ⟨rfl, rfl, rfl, rfl, rfl⟩

/-- `DoCopy` on a directory source always reaches the directory branch:
the no-change test falls through (no FSMID), and the conflict/`RemoveRecur`
steps are skipped because the source is a directory. -/
theorem doCopy_dir_eq (cfg : Config) (hI : cfg.useFSMID = false)
    (sp dp : String) (m : Meta) (ents : Ents) (dcur tmp : Option FObj)
    (sdevNo ddevNo : Int) (dcdev : Nat) :
    doCopy cfg sp (.dir m ents) (.dest dp dcur tmp) sdevNo ddevNo dcdev =
      (let st1 := lstatOf (.dir m ents)
       let pre := dirPre cfg sp st1 dcur sdevNo ddevNo dcdev
       let scan : EntsRes :=
         if pre.noLoop then
           { dents := pre.dents0, list := pre.list0, r := 0, copied := 0,
             removed := 0, srcItems := 0, evs := [] }
         else doCopyEnts cfg sp (some dp) ents pre.list0 pre.dents0
                pre.sdev pre.ddev pre.st2t.dev
       let pr :=
         if pre.noLoop then (scan.dents, scan.list, 0, ([] : List Ev))
         else pruneEnts cfg dp scan.dents scan.list pre.ddev
       let res := dirFinish cfg st1 dcur.isSome pre scan pr.1 pr.2.2.1
         pr.2.2.2
       { res with removed := 0 + res.removed, evs := [] ++ res.evs }) := by
  simp only [doCopy]
  rw [earlyNoChange_linkdir cfg hI _ _ _ _ _ _ (Or.inr (by simp [lstatOf]))]
  rw [if_neg (fun hc => hc.2.1 (by simp [lstatOf]))]
  rw [if_neg (fun hc => hc.2.1 (by simp [lstatOf]))]

/-- The metadata of the directory object assembled by the exit fix-ups. -/
def dirMetaOf (st1 : Stat) (mt dv : Nat) : Meta :=
  { perm := st1.mode.perm, uid := st1.uid, gid := st1.gid, mtime := mt,
    flags := st1.flags, dev := dv }

theorem metaExt (a b : Meta) (h1 : a.perm = b.perm) (h2 : a.uid = b.uid)
    (h3 : a.gid = b.gid) (h4 : a.mtime = b.mtime) (h5 : a.flags = b.flags)
    (h6 : a.dev = b.dev) : a = b := by
  cases a
  cases b
  simp_all

/-- Whatever was at the destination, the directory branch ends with the
source's permissions, owner and flags on the destination directory. -/
theorem dirFinish_dst (cfg : Config) (sp : String) (st1 : Stat)
    (dcur : Option FObj) (s d : Int) (dc : Nat)
    (scan : EntsRes) (prE : Ents) (prR : Nat) (prEv : List Ev) :
    (dirFinish cfg st1 dcur.isSome (dirPre cfg sp st1 dcur s d dc) scan
      prE prR prEv).dst =
      some (.dir (dirMetaOf st1 (dirPre cfg sp st1 dcur s d dc).mdir.mtime
        (dirPre cfg sp st1 dcur s d dc).mdir.dev) prE) := by
  rcases dcur with _ | o
  · simp only [dirPre, dirFinish, dirMetaOf, Option.isSome_none, lstatOf]
    refine congrArg some ?_
    refine congrArg (fun mm => FObj.dir mm prE) ?_
    simp only [Meta.mk.injEq]
    refine ⟨?_, ?_, ?_, ?_, ?_, ?_⟩ <;>
      first
      | trivial
      | (split
         · rfl
         · rename_i hc
           push_neg at hc
           first
           | rfl
           | exact hc.2.symm
           | exact hc.2.2.1.symm
           | exact hc.2.2.2.symm
           | exact (congrArg Mode.perm hc.2).symm)
  · cases o with
    | dir m2 e2 =>
      by_cases hperm : m2.perm &&& 0o700 ≠ 0o700
      · simp only [dirPre, dirFinish, dirMetaOf, Option.isSome_some,
          if_pos hperm, lstatOf]
        refine congrArg some ?_
        refine congrArg (fun mm => FObj.dir mm prE) ?_
        simp only [Meta.mk.injEq]
        refine ⟨?_, ?_, ?_, ?_, ?_, ?_⟩ <;>
          first
          | trivial
          | (split
             · rfl
             · rename_i hc
               push_neg at hc
               first
               | rfl
               | exact hc.2.symm
               | exact hc.2.2.1.symm
               | exact hc.2.2.2.symm
               | exact (congrArg Mode.perm hc.2).symm)
      · simp only [dirPre, dirFinish, dirMetaOf, Option.isSome_some,
          if_neg hperm, lstatOf]
        refine congrArg some ?_
        refine congrArg (fun mm => FObj.dir mm prE) ?_
        simp only [Meta.mk.injEq]
        refine ⟨?_, ?_, ?_, ?_, ?_, ?_⟩ <;>
          first
          | trivial
          | (split
             · rfl
             · rename_i hc
               push_neg at hc
               first
               | rfl
               | exact hc.2.symm
               | exact hc.2.2.1.symm
               | exact hc.2.2.2.symm
               | exact (congrArg Mode.perm hc.2).symm)
    | reg m2 c2 =>
      simp only [dirPre, dirFinish, dirMetaOf, Option.isSome_some, lstatOf]
      refine congrArg some ?_
      refine congrArg (fun mm => FObj.dir mm prE) ?_
      simp only [Meta.mk.injEq]
      refine ⟨?_, ?_, ?_, ?_, ?_, ?_⟩ <;>
        first
        | trivial
        | (split
           · rfl
           · rename_i hc
             push_neg at hc
             first
             | rfl
             | exact hc.2.symm
             | exact hc.2.2.1.symm
             | exact hc.2.2.2.symm
             | exact (congrArg Mode.perm hc.2).symm)
    | sym m2 t2 =>
      simp only [dirPre, dirFinish, dirMetaOf, Option.isSome_some, lstatOf]
      refine congrArg some ?_
      refine congrArg (fun mm => FObj.dir mm prE) ?_
      simp only [Meta.mk.injEq]
      refine ⟨?_, ?_, ?_, ?_, ?_, ?_⟩ <;>
        first
        | trivial
        | (split
           · rfl
           · rename_i hc
             push_neg at hc
             first
             | rfl
             | exact hc.2.symm
             | exact hc.2.2.1.symm
             | exact hc.2.2.2.symm
             | exact (congrArg Mode.perm hc.2).symm)
    | dev m2 b2 r2 =>
      simp only [dirPre, dirFinish, dirMetaOf, Option.isSome_some, lstatOf]
      refine congrArg some ?_
      refine congrArg (fun mm => FObj.dir mm prE) ?_
      simp only [Meta.mk.injEq]
      refine ⟨?_, ?_, ?_, ?_, ?_, ?_⟩ <;>
        first
        | trivial
        | (split
           · rfl
           · rename_i hc
             push_neg at hc
             first
             | rfl
             | exact hc.2.symm
             | exact hc.2.2.1.symm
             | exact hc.2.2.2.symm
             | exact (congrArg Mode.perm hc.2).symm)
    | oth m2 =>
      simp only [dirPre, dirFinish, dirMetaOf, Option.isSome_some, lstatOf]
      refine congrArg some ?_
      refine congrArg (fun mm => FObj.dir mm prE) ?_
      simp only [Meta.mk.injEq]
      refine ⟨?_, ?_, ?_, ?_, ?_, ?_⟩ <;>
        first
        | trivial
        | (split
           · rfl
           · rename_i hc
             push_neg at hc
             first
             | rfl
             | exact hc.2.symm
             | exact hc.2.2.1.symm
             | exact hc.2.2.2.symm
             | exact (congrArg Mode.perm hc.2).symm)

theorem dirPre_noLoop_eq (cfg : Config) (sp : String) (st1 : Stat)
    (dcur : Option FObj) (s d : Int) (dc : Nat) :
    (dirPre cfg sp st1 dcur s d dc).noLoop =
      (decide (0 ≤ s ∧ (st1.dev : Int) ≠ s) ||
       decide (0 ≤ d ∧
         (((dirPre cfg sp st1 dcur s d dc).st2t.dev : Nat) : Int) ≠ d)) :=
  rfl

theorem dirPre_sdev_eq (cfg : Config) (sp : String) (st1 : Stat)
    (dcur : Option FObj) (s d : Int) (dc : Nat)
    (h : (dirPre cfg sp st1 dcur s d dc).noLoop = false) :
    (dirPre cfg sp st1 dcur s d dc).sdev = (st1.dev : Int) := by
  rw [dirPre_noLoop_eq, Bool.or_eq_false_iff] at h
  show (if decide (0 ≤ s ∧ (st1.dev : Int) ≠ s) = true then s
    else (st1.dev : Int)) = (st1.dev : Int)
  rw [h.1]
  simp

theorem dirPre_ddev_eq (cfg : Config) (sp : String) (st1 : Stat)
    (dcur : Option FObj) (s d : Int) (dc : Nat)
    (h : (dirPre cfg sp st1 dcur s d dc).noLoop = false) :
    (dirPre cfg sp st1 dcur s d dc).ddev =
      (((dirPre cfg sp st1 dcur s d dc).st2t.dev : Nat) : Int) := by
  rw [dirPre_noLoop_eq, Bool.or_eq_false_iff] at h
  show (if decide (0 ≤ d ∧
      (((dirPre cfg sp st1 dcur s d dc).st2t.dev : Nat) : Int) ≠ d) = true
    then d
    else (((dirPre cfg sp st1 dcur s d dc).st2t.dev : Nat) : Int)) = _
  rw [h.2]
  simp

theorem dirPre_proj_dir (cfg : Config) (sp : String) (st1 : Stat)
    (m2 : Meta) (e2 : Ents) (s d : Int) (dc : Nat) :
    (dirPre cfg sp st1 (some (.dir m2 e2)) s d dc).dents0 = e2 ∧
    (dirPre cfg sp st1 (some (.dir m2 e2)) s d dc).copied = 0 ∧
    (dirPre cfg sp st1 (some (.dir m2 e2)) s d dc).mdir.mtime = m2.mtime ∧
    (dirPre cfg sp st1 (some (.dir m2 e2)) s d dc).mdir.dev = m2.dev ∧
    (dirPre cfg sp st1 (some (.dir m2 e2)) s d dc).st2t.dev = m2.dev := by
  by_cases hperm : m2.perm &&& 0o700 ≠ 0o700
  · simp [dirPre, if_pos hperm, lstatOf]
  · simp [dirPre, if_neg hperm, lstatOf]

theorem dirPre_proj_none (cfg : Config) (sp : String) (st1 : Stat)
    (s d : Int) (dc : Nat) :
    (dirPre cfg sp st1 none s d dc).dents0 = .nil ∧
    (dirPre cfg sp st1 none s d dc).copied = 1 ∧
    (dirPre cfg sp st1 none s d dc).mdir.mtime = 0 ∧
    (dirPre cfg sp st1 none s d dc).mdir.dev = dc ∧
    (dirPre cfg sp st1 none s d dc).st2t.dev = dc := by
  simp [dirPre, lstatOf]

theorem dirPre_proj_reg (cfg : Config) (sp : String) (st1 : Stat)
    (m2 : Meta) (c2 : List Nat) (s d : Int) (dc : Nat) :
    (dirPre cfg sp st1 (some (.reg m2 c2)) s d dc).dents0 = .nil ∧
    (dirPre cfg sp st1 (some (.reg m2 c2)) s d dc).copied = 1 ∧
    (dirPre cfg sp st1 (some (.reg m2 c2)) s d dc).mdir.mtime = 0 ∧
    (dirPre cfg sp st1 (some (.reg m2 c2)) s d dc).mdir.dev = dc ∧
    (dirPre cfg sp st1 (some (.reg m2 c2)) s d dc).st2t.dev = dc := by
  simp [dirPre, lstatOf]

theorem dirPre_proj_sym (cfg : Config) (sp : String) (st1 : Stat)
    (m2 : Meta) (t2 : String) (s d : Int) (dc : Nat) :
    (dirPre cfg sp st1 (some (.sym m2 t2)) s d dc).dents0 = .nil ∧
    (dirPre cfg sp st1 (some (.sym m2 t2)) s d dc).copied = 1 ∧
    (dirPre cfg sp st1 (some (.sym m2 t2)) s d dc).mdir.mtime = 0 ∧
    (dirPre cfg sp st1 (some (.sym m2 t2)) s d dc).mdir.dev = dc ∧
    (dirPre cfg sp st1 (some (.sym m2 t2)) s d dc).st2t.dev = dc := by
  simp [dirPre, lstatOf]

theorem dirPre_proj_dev (cfg : Config) (sp : String) (st1 : Stat)
    (m2 : Meta) (b2 : Bool) (r2 : Nat) (s d : Int) (dc : Nat) :
    (dirPre cfg sp st1 (some (.dev m2 b2 r2)) s d dc).dents0 = .nil ∧
    (dirPre cfg sp st1 (some (.dev m2 b2 r2)) s d dc).copied = 1 ∧
    (dirPre cfg sp st1 (some (.dev m2 b2 r2)) s d dc).mdir.mtime = 0 ∧
    (dirPre cfg sp st1 (some (.dev m2 b2 r2)) s d dc).mdir.dev = dc ∧
    (dirPre cfg sp st1 (some (.dev m2 b2 r2)) s d dc).st2t.dev = dc := by
  simp [dirPre, lstatOf]

theorem dirPre_proj_oth (cfg : Config) (sp : String) (st1 : Stat)
    (m2 : Meta) (s d : Int) (dc : Nat) :
    (dirPre cfg sp st1 (some (.oth m2)) s d dc).dents0 = .nil ∧
    (dirPre cfg sp st1 (some (.oth m2)) s d dc).copied = 1 ∧
    (dirPre cfg sp st1 (some (.oth m2)) s d dc).mdir.mtime = 0 ∧
    (dirPre cfg sp st1 (some (.oth m2)) s d dc).mdir.dev = dc ∧
    (dirPre cfg sp st1 (some (.oth m2)) s d dc).st2t.dev = dc := by
  simp [dirPre, lstatOf]

theorem dirPre_list0 (cfg : Config) (sp : String) (st1 : Stat)
    (dcur : Option FObj) (s d : Int) (dc : Nat) :
    (dirPre cfg sp st1 dcur s d dc).list0 = buildIgnList cfg sp :=
  rfl

/-- The directory branch when the device-boundary rule suppresses the
scan: nothing below the directory is touched, only its own metadata is
re-asserted. -/
theorem dirRun_noLoop (cfg : Config) (hI : cfg.useFSMID = false)
    (sp dp : String) (m : Meta) (ents : Ents) (dcur tmp : Option FObj)
    (sdevNo ddevNo : Int) (dcdev : Nat)
    (hnl : (dirPre cfg sp (lstatOf (.dir m ents)) dcur sdevNo ddevNo
      dcdev).noLoop = true) :
    (doCopy cfg sp (.dir m ents) (.dest dp dcur tmp) sdevNo ddevNo
      dcdev).dst =
      some (.dir (dirMetaOf (lstatOf (.dir m ents))
        (dirPre cfg sp (lstatOf (.dir m ents)) dcur sdevNo ddevNo
          dcdev).mdir.mtime
        (dirPre cfg sp (lstatOf (.dir m ents)) dcur sdevNo ddevNo
          dcdev).mdir.dev)
        (dirPre cfg sp (lstatOf (.dir m ents)) dcur sdevNo ddevNo
          dcdev).dents0) ∧
    (doCopy cfg sp (.dir m ents) (.dest dp dcur tmp) sdevNo ddevNo
      dcdev).r = 0 ∧
    (doCopy cfg sp (.dir m ents) (.dest dp dcur tmp) sdevNo ddevNo
      dcdev).copied =
      (dirPre cfg sp (lstatOf (.dir m ents)) dcur sdevNo ddevNo
        dcdev).copied ∧
    (doCopy cfg sp (.dir m ents) (.dest dp dcur tmp) sdevNo ddevNo
      dcdev).removed = 0 ∧
    (doCopy cfg sp (.dir m ents) (.dest dp dcur tmp) sdevNo ddevNo
      dcdev).tmpFx = none := by
  rw [doCopy_dir_eq cfg hI]
  simp only [hnl, if_true, ite_true]
  refine ⟨?_, rfl, rfl, rfl, rfl⟩
  exact dirFinish_dst cfg sp (lstatOf (.dir m ents)) dcur sdevNo ddevNo
    dcdev _ _ _ _

/-- The directory branch in scanning mode, expressed through the source
loop and the pruner. -/
theorem dirRun_scan (cfg : Config) (hC : cfg.useCpFile = none)
    (hM : cfg.useMD5 = false) (hI : cfg.useFSMID = false)
    (sp dp : String) (m : Meta) (ents : Ents) (dcur tmp : Option FObj)
    (sdevNo ddevNo : Int) (dcdev : Nat) (D0 : Ents) (CP : Nat)
    (hnl : (dirPre cfg sp (lstatOf (.dir m ents)) dcur sdevNo ddevNo
      dcdev).noLoop = false)
    (hd0 : (dirPre cfg sp (lstatOf (.dir m ents)) dcur sdevNo ddevNo
      dcdev).dents0 = D0)
    (hcop : (dirPre cfg sp (lstatOf (.dir m ents)) dcur sdevNo ddevNo
      dcdev).copied = CP)
    (hstm : (dirPre cfg sp (lstatOf (.dir m ents)) dcur sdevNo ddevNo
      dcdev).st2t.dev =
      (dirPre cfg sp (lstatOf (.dir m ents)) dcur sdevNo ddevNo
        dcdev).mdir.dev) :
    (doCopy cfg sp (.dir m ents) (.dest dp dcur tmp) sdevNo ddevNo
      dcdev).dst =
      some (.dir (dirMetaOf (lstatOf (.dir m ents))
        (dirPre cfg sp (lstatOf (.dir m ents)) dcur sdevNo ddevNo
          dcdev).mdir.mtime
        (dirPre cfg sp (lstatOf (.dir m ents)) dcur sdevNo ddevNo
          dcdev).mdir.dev)
        (pruneEnts cfg dp
          (doCopyEnts cfg sp (some dp) ents [] D0 ((m.dev : Nat) : Int)
            (((dirPre cfg sp (lstatOf (.dir m ents)) dcur sdevNo ddevNo
              dcdev).mdir.dev : Nat) : Int)
            (dirPre cfg sp (lstatOf (.dir m ents)) dcur sdevNo ddevNo
              dcdev).mdir.dev).dents
          (scanList ents [])
          (((dirPre cfg sp (lstatOf (.dir m ents)) dcur sdevNo ddevNo
            dcdev).mdir.dev : Nat) : Int)).1) ∧
    (doCopy cfg sp (.dir m ents) (.dest dp dcur tmp) sdevNo ddevNo
      dcdev).r =
      (doCopyEnts cfg sp (some dp) ents [] D0 ((m.dev : Nat) : Int)
        (((dirPre cfg sp (lstatOf (.dir m ents)) dcur sdevNo ddevNo
          dcdev).mdir.dev : Nat) : Int)
        (dirPre cfg sp (lstatOf (.dir m ents)) dcur sdevNo ddevNo
          dcdev).mdir.dev).r ∧
    (doCopy cfg sp (.dir m ents) (.dest dp dcur tmp) sdevNo ddevNo
      dcdev).copied =
      CP + (doCopyEnts cfg sp (some dp) ents [] D0 ((m.dev : Nat) : Int)
        (((dirPre cfg sp (lstatOf (.dir m ents)) dcur sdevNo ddevNo
          dcdev).mdir.dev : Nat) : Int)
        (dirPre cfg sp (lstatOf (.dir m ents)) dcur sdevNo ddevNo
          dcdev).mdir.dev).copied ∧
    (doCopy cfg sp (.dir m ents) (.dest dp dcur tmp) sdevNo ddevNo
      dcdev).removed =
      (doCopyEnts cfg sp (some dp) ents [] D0 ((m.dev : Nat) : Int)
        (((dirPre cfg sp (lstatOf (.dir m ents)) dcur sdevNo ddevNo
          dcdev).mdir.dev : Nat) : Int)
        (dirPre cfg sp (lstatOf (.dir m ents)) dcur sdevNo ddevNo
          dcdev).mdir.dev).removed +
      (pruneEnts cfg dp
        (doCopyEnts cfg sp (some dp) ents [] D0 ((m.dev : Nat) : Int)
          (((dirPre cfg sp (lstatOf (.dir m ents)) dcur sdevNo ddevNo
            dcdev).mdir.dev : Nat) : Int)
          (dirPre cfg sp (lstatOf (.dir m ents)) dcur sdevNo ddevNo
            dcdev).mdir.dev).dents
        (scanList ents [])
        (((dirPre cfg sp (lstatOf (.dir m ents)) dcur sdevNo ddevNo
          dcdev).mdir.dev : Nat) : Int)).2.2.1 ∧
    (doCopy cfg sp (.dir m ents) (.dest dp dcur tmp) sdevNo ddevNo
      dcdev).tmpFx = none := by
  rw [doCopy_dir_eq cfg hI]
  have hsd : (dirPre cfg sp (lstatOf (.dir m ents)) dcur sdevNo ddevNo
      dcdev).sdev = ((m.dev : Nat) : Int) := by
    rw [dirPre_sdev_eq cfg sp _ dcur sdevNo ddevNo dcdev hnl]
    simp [lstatOf]
  have hdd : (dirPre cfg sp (lstatOf (.dir m ents)) dcur sdevNo ddevNo
      dcdev).ddev =
      (((dirPre cfg sp (lstatOf (.dir m ents)) dcur sdevNo ddevNo
        dcdev).mdir.dev : Nat) : Int) := by
    rw [dirPre_ddev_eq cfg sp _ dcur sdevNo ddevNo dcdev hnl, hstm]
  have hl0 : (dirPre cfg sp (lstatOf (.dir m ents)) dcur sdevNo ddevNo
      dcdev).list0 = [] := by
    rw [dirPre_list0, buildIgnList_batch cfg hC hM hI]
  simp only [hnl, Bool.false_eq_true, if_false, ite_false, hsd, hdd, hl0,
    hd0, hstm]
  rw [doCopyEnts_list]
  refine ⟨dirFinish_dst cfg sp (lstatOf (.dir m ents)) dcur sdevNo ddevNo
    dcdev _ _ _ _, rfl, ?_, ?_, rfl⟩
  · rw [← hcop]; exact rfl
  · rw [Nat.zero_add]; exact rfl

theorem dirPre_stm (cfg : Config) (sp : String) (st1 : Stat) :
    ∀ (dcur : Option FObj) (s d : Int) (dc : Nat),
      (dirPre cfg sp st1 dcur s d dc).st2t.dev =
        (dirPre cfg sp st1 dcur s d dc).mdir.dev
  | none, s, d, dc => by
    have h := dirPre_proj_none cfg sp st1 s d dc
    rw [h.2.2.2.2, h.2.2.2.1]
  | some (.dir m2 e2), s, d, dc => by
    have h := dirPre_proj_dir cfg sp st1 m2 e2 s d dc
    rw [h.2.2.2.2, h.2.2.2.1]
  | some (.reg m2 c2), s, d, dc => by
    have h := dirPre_proj_reg cfg sp st1 m2 c2 s d dc
    rw [h.2.2.2.2, h.2.2.2.1]
  | some (.sym m2 t2), s, d, dc => by
    have h := dirPre_proj_sym cfg sp st1 m2 t2 s d dc
    rw [h.2.2.2.2, h.2.2.2.1]
  | some (.dev m2 b2 r2), s, d, dc => by
    have h := dirPre_proj_dev cfg sp st1 m2 b2 r2 s d dc
    rw [h.2.2.2.2, h.2.2.2.1]
  | some (.oth m2), s, d, dc => by
    have h := dirPre_proj_oth cfg sp st1 m2 s d dc
    rw [h.2.2.2.2, h.2.2.2.1]

theorem tagOf_tags0 (list : List (String × Nat))
    (h : ∀ p ∈ list, p.2 = 0) (n : String) (t : Nat)
    (ht : tagOf list n = some t) : t = 0 := by
  obtain ⟨p, hp, hv⟩ := exactPass_mem n list t
    (by rw [exactPass_eq_tagOf]; exact ht)
  rw [← hv]
  exact h p hp

/-- The destination entries the scan starts from satisfy the pair
hygiene: they are the existing directory's entries, or empty after a
fresh `mkdir`. -/
theorem pairEnts_dents0 (cfg : Config) (sp : String) (st1 : Stat)
    (m : Meta) (ents : Ents) :
    ∀ (dcur : Option FObj) (s d : Int) (dc : Nat),
      pairSafe (.dir m ents) dcur = true →
      pairEnts ents (dirPre cfg sp st1 dcur s d dc).dents0 = true
  | none, s, d, dc => fun _ => by
    rw [(dirPre_proj_none cfg sp st1 s d dc).1]
    exact pairEnts_nil ents
  | some (.dir m2 e2), s, d, dc => fun hp => by
    rw [(dirPre_proj_dir cfg sp st1 m2 e2 s d dc).1]
    rw [pairSafe] at hp
    exact hp
  | some (.reg m2 c2), s, d, dc => fun _ => by
    rw [(dirPre_proj_reg cfg sp st1 m2 c2 s d dc).1]
    exact pairEnts_nil ents
  | some (.sym m2 t2), s, d, dc => fun _ => by
    rw [(dirPre_proj_sym cfg sp st1 m2 t2 s d dc).1]
    exact pairEnts_nil ents
  | some (.dev m2 b2 r2), s, d, dc => fun _ => by
    rw [(dirPre_proj_dev cfg sp st1 m2 b2 r2 s d dc).1]
    exact pairEnts_nil ents
  | some (.oth m2), s, d, dc => fun _ => by
    rw [(dirPre_proj_oth cfg sp st1 m2 s d dc).1]
    exact pairEnts_nil ents

/-- Idempotence of the source readdir loop over a directory listing:
after one pass starting from hygienic destination entries, a second pass
over any destination that agrees on the source names is the identity and
counts nothing.  The second pass's `.tmp` siblings are unconstrained. -/
def entsIdem (cfg : Config) (sp dp : String) (ents : Ents) : Prop :=
  ∀ (list : List (String × Nat)) (dents dents0 : Ents) (sdev ddev : Int)
    (dcdev : Nat),
    entsSafe ents = true →
    namesOK (Ents.names ents) = true →
    (∀ p ∈ list, p.2 = 0) →
    (∀ n ∈ Ents.names ents,
      dents.lookup n = dents0.lookup n ∧
      dents.lookup (n ++ ".tmp") = dents0.lookup (n ++ ".tmp")) →
    pairEnts ents dents0 = true →
    ∀ dents2 : Ents,
      (∀ n ∈ Ents.names ents,
        dents2.lookup n =
          (doCopyEnts cfg sp (some dp) ents list dents sdev ddev
            dcdev).dents.lookup n) →
      (doCopyEnts cfg sp (some dp) ents list dents2 sdev ddev
        dcdev).dents = dents2 ∧
      (doCopyEnts cfg sp (some dp) ents list dents2 sdev ddev
        dcdev).r = 0 ∧
      (doCopyEnts cfg sp (some dp) ents list dents2 sdev ddev
        dcdev).copied = 0 ∧
      (doCopyEnts cfg sp (some dp) ents list dents2 sdev ddev
        dcdev).removed = 0

theorem nilStable (cfg : Config) (sp dp : String) :
    entsIdem cfg sp dp .nil := by
  intro list dents dents0 sdev ddev dcdev _ _ _ _ _ dents2 _
  exact ⟨rfl, rfl, rfl, rfl⟩

theorem dirMetaOf_mtime (st1 : Stat) (a b : Nat) :
    (dirMetaOf st1 a b).mtime = a := rfl

theorem dirMetaOf_dev (st1 : Stat) (a b : Nat) :
    (dirMetaOf st1 a b).dev = b := rfl

/-- A directory copy is stable: given idempotence of the entry scan, the
work-path hygiene of source and destination, re-running the directory
branch over its own output is the identity and counts nothing. -/
theorem dirStable (cfg : Config) (hF : cfg.forceOpt = false)
    (hS : cfg.safetyOpt = true) (hA : cfg.askConfirmation = false)
    (hN : cfg.noRemoveOpt = false) (hC : cfg.useCpFile = none)
    (hM : cfg.useMD5 = false) (hI : cfg.useFSMID = false)
    (sp dp : String) (m : Meta) (ents : Ents)
    (dcur tmp : Option FObj) (sdev ddev : Int) (dcdev : Nat)
    (ES : entsIdem cfg sp dp ents)
    (hsrc : srcSafe (.dir m ents) = true)
    (hpair : pairSafe (.dir m ents) dcur = true) :
    stableAt cfg sp dp (.dir m ents) dcur tmp sdev ddev dcdev := by
  have hsrc' : namesOK (Ents.names ents) = true ∧ entsSafe ents = true := by
    rw [srcSafe, Bool.and_eq_true] at hsrc
    exact hsrc
  obtain ⟨hnames, hsafe⟩ := hsrc'
  by_cases hnl : (dirPre cfg sp (lstatOf (.dir m ents)) dcur sdev ddev
      dcdev).noLoop = true
  · -- the device-boundary rule holds down the scan in both runs
    obtain ⟨h1d, h1r, h1c, h1rm, h1t⟩ :=
      dirRun_noLoop cfg hI sp dp m ents dcur tmp sdev ddev dcdev hnl
    refine stableAt_of cfg sp dp (.dir m ents) dcur tmp sdev ddev dcdev
      _ h1d (Or.inl h1t) (fun h => Option.noConfusion h) ?_
    intro tmp2
    have hp2 := dirPre_proj_dir cfg sp (lstatOf (.dir m ents))
      (dirMetaOf (lstatOf (.dir m ents))
        (dirPre cfg sp (lstatOf (.dir m ents)) dcur sdev ddev
          dcdev).mdir.mtime
        (dirPre cfg sp (lstatOf (.dir m ents)) dcur sdev ddev
          dcdev).mdir.dev)
      ((dirPre cfg sp (lstatOf (.dir m ents)) dcur sdev ddev dcdev).dents0)
      sdev ddev dcdev
    have hnl2 : (dirPre cfg sp (lstatOf (.dir m ents))
        (some (.dir (dirMetaOf (lstatOf (.dir m ents))
          (dirPre cfg sp (lstatOf (.dir m ents)) dcur sdev ddev
            dcdev).mdir.mtime
          (dirPre cfg sp (lstatOf (.dir m ents)) dcur sdev ddev
            dcdev).mdir.dev)
          ((dirPre cfg sp (lstatOf (.dir m ents)) dcur sdev ddev
            dcdev).dents0)))
        sdev ddev dcdev).noLoop = true := by
      rw [dirPre_noLoop_eq] at hnl ⊢
      simp only [hp2.2.2.2.2, dirMetaOf_dev]
      rw [← dirPre_stm cfg sp (lstatOf (.dir m ents)) dcur sdev ddev dcdev]
      exact hnl
    obtain ⟨h2d, h2r, h2c, h2rm, h2t⟩ :=
      dirRun_noLoop cfg hI sp dp m ents _ tmp2 sdev ddev dcdev hnl2
    simp only [hp2.1, hp2.2.2.1, hp2.2.2.2.1, dirMetaOf_mtime,
      dirMetaOf_dev] at h2d
    refine ⟨h2d, h2r, ?_, h2rm, h2t⟩
    rw [runCopy, h2c]
    exact hp2.2.1
  · -- scanning mode in both runs
    rw [Bool.not_eq_true] at hnl
    obtain ⟨h1d, h1r, h1c, h1rm, h1t⟩ :=
      dirRun_scan cfg hC hM hI sp dp m ents dcur tmp sdev ddev dcdev _ _
        hnl rfl rfl (dirPre_stm cfg sp (lstatOf (.dir m ents)) dcur sdev
          ddev dcdev)
    have htags0 : ∀ p ∈ scanList ents [], p.2 = 0 :=
      tags0_scanList ents [] (by simp)
    have hno1 : ∀ p ∈ scanList ents [], p.2 ≠ 1 :=
      tags0_noTag1 (scanList ents []) htags0
    have hdot0 : ∀ n, tagOf (scanList ents []) n = some 0 →
        ¬(n = "." ∨ n = "..") := by
      intro n hn hd
      rcases tagOf_scanList_keys ents [] n 0 (by simp) hn with hmem | habs
      · obtain ⟨d1, d2⟩ := namesOK_nondot _ hnames n hmem
        rcases hd with h | h
        · exact d1 h
        · exact d2 h
      · simp [tagOf] at habs
    have h03 : ∀ n t, tagOf (scanList ents []) n = some t →
        t = 0 ∨ t = 3 := fun n t ht =>
      Or.inl (tagOf_tags0 (scanList ents []) htags0 n t ht)
    have hdv : (0 : Int) ≤
        ((dirPre cfg sp (lstatOf (.dir m ents)) dcur sdev ddev
          dcdev).mdir.dev : Int) := Int.natCast_nonneg _
    obtain ⟨hpres, hpok⟩ :=
      pruneEnts_spec cfg hA hN dp
        ((dirPre cfg sp (lstatOf (.dir m ents)) dcur sdev ddev
          dcdev).mdir.dev : Int) hdv (scanList ents []) hdot0
        (doCopyEnts cfg sp (some dp) ents []
          (dirPre cfg sp (lstatOf (.dir m ents)) dcur sdev ddev
            dcdev).dents0 (m.dev : Int)
          ((dirPre cfg sp (lstatOf (.dir m ents)) dcur sdev ddev
            dcdev).mdir.dev : Int)
          (dirPre cfg sp (lstatOf (.dir m ents)) dcur sdev ddev
            dcdev).mdir.dev).dents
        (scanList ents []) hno1 (fun n h => h) (fun n h => h) h03
    have hnm0 : ∀ n ∈ Ents.names ents,
        tagOf (scanList ents []) n = some 0 := fun n hn =>
      tagOf_scanList_self ents [] n (by simp) hn
        (namesOK_nondot _ hnames n hn).1 (namesOK_nondot _ hnames n hn).2
    have hE2 := ES []
      (dirPre cfg sp (lstatOf (.dir m ents)) dcur sdev ddev dcdev).dents0
      (dirPre cfg sp (lstatOf (.dir m ents)) dcur sdev ddev dcdev).dents0
      (m.dev : Int)
      ((dirPre cfg sp (lstatOf (.dir m ents)) dcur sdev ddev
        dcdev).mdir.dev : Int)
      (dirPre cfg sp (lstatOf (.dir m ents)) dcur sdev ddev dcdev).mdir.dev
      hsafe hnames (by simp) (fun n _ => ⟨rfl, rfl⟩)
      (pairEnts_dents0 cfg sp (lstatOf (.dir m ents)) m ents dcur sdev ddev
        dcdev hpair)
      (pruneEnts cfg dp
        (doCopyEnts cfg sp (some dp) ents []
          (dirPre cfg sp (lstatOf (.dir m ents)) dcur sdev ddev
            dcdev).dents0 (m.dev : Int)
          ((dirPre cfg sp (lstatOf (.dir m ents)) dcur sdev ddev
            dcdev).mdir.dev : Int)
          (dirPre cfg sp (lstatOf (.dir m ents)) dcur sdev ddev
            dcdev).mdir.dev).dents
        (scanList ents [])
        ((dirPre cfg sp (lstatOf (.dir m ents)) dcur sdev ddev
          dcdev).mdir.dev : Int)).1
      (fun n hn => hpres n (hnm0 n hn))
    obtain ⟨hps1, hps2⟩ :=
      pruneEnts_stable cfg hA hN dp
        ((dirPre cfg sp (lstatOf (.dir m ents)) dcur sdev ddev
          dcdev).mdir.dev : Int) hdv (scanList ents [])
        (pruneEnts cfg dp
          (doCopyEnts cfg sp (some dp) ents []
            (dirPre cfg sp (lstatOf (.dir m ents)) dcur sdev ddev
              dcdev).dents0 (m.dev : Int)
            ((dirPre cfg sp (lstatOf (.dir m ents)) dcur sdev ddev
              dcdev).mdir.dev : Int)
            (dirPre cfg sp (lstatOf (.dir m ents)) dcur sdev ddev
              dcdev).mdir.dev).dents
          (scanList ents [])
          ((dirPre cfg sp (lstatOf (.dir m ents)) dcur sdev ddev
            dcdev).mdir.dev : Int)).1
        (scanList ents []) hno1 (fun n h => h) hpok
    refine stableAt_of cfg sp dp (.dir m ents) dcur tmp sdev ddev dcdev
      _ h1d (Or.inl h1t) (fun h => Option.noConfusion h) ?_
    intro tmp2
    have hp2 := dirPre_proj_dir cfg sp (lstatOf (.dir m ents))
      (dirMetaOf (lstatOf (.dir m ents))
        (dirPre cfg sp (lstatOf (.dir m ents)) dcur sdev ddev
          dcdev).mdir.mtime
        (dirPre cfg sp (lstatOf (.dir m ents)) dcur sdev ddev
          dcdev).mdir.dev)
      (pruneEnts cfg dp
        (doCopyEnts cfg sp (some dp) ents []
          (dirPre cfg sp (lstatOf (.dir m ents)) dcur sdev ddev
            dcdev).dents0 (m.dev : Int)
          ((dirPre cfg sp (lstatOf (.dir m ents)) dcur sdev ddev
            dcdev).mdir.dev : Int)
          (dirPre cfg sp (lstatOf (.dir m ents)) dcur sdev ddev
            dcdev).mdir.dev).dents
        (scanList ents [])
        ((dirPre cfg sp (lstatOf (.dir m ents)) dcur sdev ddev
          dcdev).mdir.dev : Int)).1
      sdev ddev dcdev
    have hnl2 : (dirPre cfg sp (lstatOf (.dir m ents))
        (some (.dir (dirMetaOf (lstatOf (.dir m ents))
          (dirPre cfg sp (lstatOf (.dir m ents)) dcur sdev ddev
            dcdev).mdir.mtime
          (dirPre cfg sp (lstatOf (.dir m ents)) dcur sdev ddev
            dcdev).mdir.dev)
          (pruneEnts cfg dp
            (doCopyEnts cfg sp (some dp) ents []
              (dirPre cfg sp (lstatOf (.dir m ents)) dcur sdev ddev
                dcdev).dents0 (m.dev : Int)
              ((dirPre cfg sp (lstatOf (.dir m ents)) dcur sdev ddev
                dcdev).mdir.dev : Int)
              (dirPre cfg sp (lstatOf (.dir m ents)) dcur sdev ddev
                dcdev).mdir.dev).dents
            (scanList ents [])
            ((dirPre cfg sp (lstatOf (.dir m ents)) dcur sdev ddev
              dcdev).mdir.dev : Int)).1))
        sdev ddev dcdev).noLoop = false := by
      rw [dirPre_noLoop_eq] at hnl ⊢
      simp only [hp2.2.2.2.2, dirMetaOf_dev]
      rw [← dirPre_stm cfg sp (lstatOf (.dir m ents)) dcur sdev ddev dcdev]
      exact hnl
    obtain ⟨h2d, h2r, h2c, h2rm, h2t⟩ :=
      dirRun_scan cfg hC hM hI sp dp m ents _ tmp2 sdev ddev dcdev _ _
        hnl2 hp2.1 hp2.2.1 (dirPre_stm cfg sp (lstatOf (.dir m ents)) _
          sdev ddev dcdev)
    simp only [hp2.2.2.1, hp2.2.2.2.1, dirMetaOf_mtime, dirMetaOf_dev]
      at h2d h2r h2c h2rm
    rw [hE2.1, hps1] at h2d
    rw [hE2.2.1] at h2r
    rw [hE2.2.2.1] at h2c
    rw [hE2.1, hE2.2.2.2, hps2] at h2rm
    exact ⟨h2d, h2r, h2c, h2rm, h2t⟩

/-- One step of the source loop preserves idempotence: the child's copy
is stable and writes only its own entry and work sibling, the tail is
idempotent on the rest. -/
theorem consStable (cfg : Config) (sp dp : String) (n : String)
    (child : FObj) (rest : Ents)
    (OS : ∀ (sp' dp' : String) (dcur tmp : Option FObj) (sdev ddev : Int)
      (dcdev : Nat), srcSafe child = true → pairSafe child dcur = true →
      tmpHazOK child tmp = true →
      stableAt cfg sp' dp' child dcur tmp sdev ddev dcdev)
    (ES : entsIdem cfg sp dp rest) :
    entsIdem cfg sp dp (.cons n child rest) := by
  intro list dents dents0 sdev ddev dcdev hsafe hnames htags0 hagr hpair
    dents2 hlk2
  rw [entsSafe, Bool.and_eq_true] at hsafe
  obtain ⟨hsc, hse⟩ := hsafe
  obtain ⟨hn1, hn2, hn3, hn4, hn5⟩ := namesOK_spec n (Ents.names rest)
    hnames
  rw [pairEnts] at hpair
  simp only [Bool.and_eq_true] at hpair
  obtain ⟨⟨hptmp, hpsafe⟩, hprest⟩ := hpair
  have hagrn := hagr n (by simp [Ents.names])
  have hagrr : ∀ k ∈ Ents.names rest, dents.lookup k = dents0.lookup k ∧
      dents.lookup (k ++ ".tmp") = dents0.lookup (k ++ ".tmp") :=
    fun k hk => hagr k (by simp [Ents.names, hk])
  have hdot : ¬(n = "." ∨ n = "..") := by
    rintro (h | h)
    · exact hn1 h
    · exact hn2 h
  have hal0 : (addList list n 0).1 = 0 := by
    rw [addList_noTag1 list n 0 (tags0_noTag1 list htags0)]
    cases htag : tagOf list n with
    | none => rfl
    | some t =>
      have := tagOf_tags0 list htags0 n t htag
      simp [this]
  have hal1 : ¬((addList list n 0).1 = 1) := by
    rw [hal0]
    decide
  have htl0 : ∀ p ∈ (addList list n 0).2, p.2 = 0 :=
    tags0_addList list n htags0
  have hkn : ∀ k ∈ Ents.names rest, ¬k = n ∧ ¬k = n ++ ".tmp" ∧
      ¬k ++ ".tmp" = n ∧ ¬k ++ ".tmp" = n ++ ".tmp" := by
    intro k hk
    have h1 : ¬k = n := fun he => hn3 (he ▸ hk)
    refine ⟨h1, (hn4 k hk).1, fun he => (hn4 k hk).2 he.symm, ?_⟩
    exact fun he => h1 (string_append_cancel k n ".tmp" he)
  have hnotin : ∀ m' ∈ Ents.names rest, ¬n = m' ∧ ¬n = m' ++ ".tmp" :=
    fun m' hm' => ⟨fun he => hn3 (he ▸ hm'), (hn4 m' hm').2⟩
  have hstab := OS (sp ++ "/" ++ n) (dp ++ "/" ++ n) (dents.lookup n)
    (dents.lookup (n ++ ".tmp")) sdev ddev dcdev hsc
    (by rw [hagrn.1]; exact hpsafe) (by rw [hagrn.2]; exact hptmp)
  have hTF : (doCopy cfg (sp ++ "/" ++ n) child
      (.dest (dp ++ "/" ++ n) (dents.lookup n)
        (dents.lookup (n ++ ".tmp"))) sdev ddev dcdev).tmpFx = none ∨
      (doCopy cfg (sp ++ "/" ++ n) child
      (.dest (dp ++ "/" ++ n) (dents.lookup n)
        (dents.lookup (n ++ ".tmp"))) sdev ddev dcdev).tmpFx =
        some none := hstab.1
  have hNONE : (doCopy cfg (sp ++ "/" ++ n) child
      (.dest (dp ++ "/" ++ n) (dents.lookup n)
        (dents.lookup (n ++ ".tmp"))) sdev ddev dcdev).dst = none →
      dents.lookup n = none := hstab.2.1
  have hR : (doCopy cfg (sp ++ "/" ++ n) child (.dest (dp ++ "/" ++ n)
      ((doCopy cfg (sp ++ "/" ++ n) child (.dest (dp ++ "/" ++ n)
        (dents.lookup n) (dents.lookup (n ++ ".tmp"))) sdev ddev
        dcdev).dst)
      (dents2.lookup (n ++ ".tmp"))) sdev ddev dcdev).dst =
      (doCopy cfg (sp ++ "/" ++ n) child (.dest (dp ++ "/" ++ n)
        (dents.lookup n) (dents.lookup (n ++ ".tmp"))) sdev ddev
        dcdev).dst ∧
      (doCopy cfg (sp ++ "/" ++ n) child (.dest (dp ++ "/" ++ n)
      ((doCopy cfg (sp ++ "/" ++ n) child (.dest (dp ++ "/" ++ n)
        (dents.lookup n) (dents.lookup (n ++ ".tmp"))) sdev ddev
        dcdev).dst)
      (dents2.lookup (n ++ ".tmp"))) sdev ddev dcdev).r = 0 ∧
      (doCopy cfg (sp ++ "/" ++ n) child (.dest (dp ++ "/" ++ n)
      ((doCopy cfg (sp ++ "/" ++ n) child (.dest (dp ++ "/" ++ n)
        (dents.lookup n) (dents.lookup (n ++ ".tmp"))) sdev ddev
        dcdev).dst)
      (dents2.lookup (n ++ ".tmp"))) sdev ddev dcdev).copied = 0 ∧
      (doCopy cfg (sp ++ "/" ++ n) child (.dest (dp ++ "/" ++ n)
      ((doCopy cfg (sp ++ "/" ++ n) child (.dest (dp ++ "/" ++ n)
        (dents.lookup n) (dents.lookup (n ++ ".tmp"))) sdev ddev
        dcdev).dst)
      (dents2.lookup (n ++ ".tmp"))) sdev ddev dcdev).removed = 0 ∧
      (doCopy cfg (sp ++ "/" ++ n) child (.dest (dp ++ "/" ++ n)
      ((doCopy cfg (sp ++ "/" ++ n) child (.dest (dp ++ "/" ++ n)
        (dents.lookup n) (dents.lookup (n ++ ".tmp"))) sdev ddev
        dcdev).dst)
      (dents2.lookup (n ++ ".tmp"))) sdev ddev dcdev).tmpFx = none :=
    hstab.2.2 (dents2.lookup (n ++ ".tmp"))
  rcases hTF with htf1 | htf1
  · -- the child's first copy left the work path untouched
    have hkey : dents2.lookup n = (doCopy cfg (sp ++ "/" ++ n) child
        (.dest (dp ++ "/" ++ n) (dents.lookup n)
          (dents.lookup (n ++ ".tmp"))) sdev ddev dcdev).dst := by
      have h := hlk2 n (by simp [Ents.names])
      rw [h]
      simp only [doCopyEnts]
      rw [if_neg hdot, if_neg hal1]
      simp only [htf1]
      rw [doCopyEnts_untouched cfg sp dp sdev ddev dcdev rest
        (addList list n 0).2 _ n hnotin]
      cases hdst : (doCopy cfg (sp ++ "/" ++ n) child
          (.dest (dp ++ "/" ++ n) (dents.lookup n)
            (dents.lookup (n ++ ".tmp"))) sdev ddev dcdev).dst with
      | some o1 => exact lookup_set_self n o1 dents
      | none =>
        rw [set_eq_of_lookup n dents none (hNONE hdst)]
        exact hNONE hdst
    have hagrA : ∀ k ∈ Ents.names rest,
        (dents.set n ((doCopy cfg (sp ++ "/" ++ n) child
          (.dest (dp ++ "/" ++ n) (dents.lookup n)
            (dents.lookup (n ++ ".tmp"))) sdev ddev
            dcdev).dst)).lookup k = dents0.lookup k ∧
        (dents.set n ((doCopy cfg (sp ++ "/" ++ n) child
          (.dest (dp ++ "/" ++ n) (dents.lookup n)
            (dents.lookup (n ++ ".tmp"))) sdev ddev
            dcdev).dst)).lookup (k ++ ".tmp") =
          dents0.lookup (k ++ ".tmp") := by
      intro k hk
      obtain ⟨h1, h2, h3, h4⟩ := hkn k hk
      constructor
      · rw [lookup_set_ne n k _ h1 dents]
        exact (hagrr k hk).1
      · rw [lookup_set_ne n (k ++ ".tmp") _ h3 dents]
        exact (hagrr k hk).2
    have hlkA : ∀ k ∈ Ents.names rest, dents2.lookup k =
        (doCopyEnts cfg sp (some dp) rest (addList list n 0).2
          (dents.set n ((doCopy cfg (sp ++ "/" ++ n) child
            (.dest (dp ++ "/" ++ n) (dents.lookup n)
              (dents.lookup (n ++ ".tmp"))) sdev ddev dcdev).dst))
          sdev ddev dcdev).dents.lookup k := by
      intro k hk
      have h := hlk2 k (by simp [Ents.names, hk])
      rw [h]
      simp only [doCopyEnts]
      rw [if_neg hdot, if_neg hal1]
      simp only [htf1]
    have hEr := ES (addList list n 0).2
      (dents.set n ((doCopy cfg (sp ++ "/" ++ n) child
        (.dest (dp ++ "/" ++ n) (dents.lookup n)
          (dents.lookup (n ++ ".tmp"))) sdev ddev dcdev).dst))
      dents0 sdev ddev dcdev hse hn5 htl0 hagrA hprest dents2 hlkA
    simp only [doCopyEnts]
    rw [if_neg hdot, if_neg hal1, hkey]
    simp only [hR.1, hR.2.1, hR.2.2.1, hR.2.2.2.1, hR.2.2.2.2]
    rw [set_eq_of_lookup n dents2 _ hkey]
    refine ⟨hEr.1, ?_, ?_, ?_⟩
    · simp [hEr.2.1]
    · simp [hEr.2.2.1]
    · simp [hEr.2.2.2]
  · -- the child's first copy removed a stale work file
    have hkey : dents2.lookup n = (doCopy cfg (sp ++ "/" ++ n) child
        (.dest (dp ++ "/" ++ n) (dents.lookup n)
          (dents.lookup (n ++ ".tmp"))) sdev ddev dcdev).dst := by
      have h := hlk2 n (by simp [Ents.names])
      rw [h]
      simp only [doCopyEnts]
      rw [if_neg hdot, if_neg hal1]
      simp only [htf1]
      rw [doCopyEnts_untouched cfg sp dp sdev ddev dcdev rest
        (addList list n 0).2 _ n hnotin]
      rw [lookup_set_ne (n ++ ".tmp") n none (ne_self_append_tmp n) _]
      cases hdst : (doCopy cfg (sp ++ "/" ++ n) child
          (.dest (dp ++ "/" ++ n) (dents.lookup n)
            (dents.lookup (n ++ ".tmp"))) sdev ddev dcdev).dst with
      | some o1 => exact lookup_set_self n o1 dents
      | none =>
        rw [set_eq_of_lookup n dents none (hNONE hdst)]
        exact hNONE hdst
    have hagrA : ∀ k ∈ Ents.names rest,
        ((dents.set n ((doCopy cfg (sp ++ "/" ++ n) child
          (.dest (dp ++ "/" ++ n) (dents.lookup n)
            (dents.lookup (n ++ ".tmp"))) sdev ddev
            dcdev).dst)).set (n ++ ".tmp") none).lookup k =
          dents0.lookup k ∧
        ((dents.set n ((doCopy cfg (sp ++ "/" ++ n) child
          (.dest (dp ++ "/" ++ n) (dents.lookup n)
            (dents.lookup (n ++ ".tmp"))) sdev ddev
            dcdev).dst)).set (n ++ ".tmp") none).lookup (k ++ ".tmp") =
          dents0.lookup (k ++ ".tmp") := by
      intro k hk
      obtain ⟨h1, h2, h3, h4⟩ := hkn k hk
      constructor
      · rw [lookup_set_ne (n ++ ".tmp") k none h2 _,
          lookup_set_ne n k _ h1 dents]
        exact (hagrr k hk).1
      · rw [lookup_set_ne (n ++ ".tmp") (k ++ ".tmp") none h4 _,
          lookup_set_ne n (k ++ ".tmp") _ h3 dents]
        exact (hagrr k hk).2
    have hlkA : ∀ k ∈ Ents.names rest, dents2.lookup k =
        (doCopyEnts cfg sp (some dp) rest (addList list n 0).2
          ((dents.set n ((doCopy cfg (sp ++ "/" ++ n) child
            (.dest (dp ++ "/" ++ n) (dents.lookup n)
              (dents.lookup (n ++ ".tmp"))) sdev ddev dcdev).dst)).set
            (n ++ ".tmp") none)
          sdev ddev dcdev).dents.lookup k := by
      intro k hk
      have h := hlk2 k (by simp [Ents.names, hk])
      rw [h]
      simp only [doCopyEnts]
      rw [if_neg hdot, if_neg hal1]
      simp only [htf1]
    have hEr := ES (addList list n 0).2
      ((dents.set n ((doCopy cfg (sp ++ "/" ++ n) child
        (.dest (dp ++ "/" ++ n) (dents.lookup n)
          (dents.lookup (n ++ ".tmp"))) sdev ddev dcdev).dst)).set
        (n ++ ".tmp") none)
      dents0 sdev ddev dcdev hse hn5 htl0 hagrA hprest dents2 hlkA
    simp only [doCopyEnts]
    rw [if_neg hdot, if_neg hal1, hkey]
    simp only [hR.1, hR.2.1, hR.2.2.1, hR.2.2.2.1, hR.2.2.2.2]
    rw [set_eq_of_lookup n dents2 _ hkey]
    refine ⟨hEr.1, ?_, ?_, ?_⟩
    · simp [hEr.2.1]
    · simp [hEr.2.2.1]
    · simp [hEr.2.2.2]

mutual

theorem objStable (cfg : Config) (hF : cfg.forceOpt = false)
    (hS : cfg.safetyOpt = true) (hA : cfg.askConfirmation = false)
    (hN : cfg.noRemoveOpt = false) (hC : cfg.useCpFile = none)
    (hM : cfg.useMD5 = false) (hI : cfg.useFSMID = false) :
    ∀ (src : FObj) (sp dp : String) (dcur tmp : Option FObj)
      (sdev ddev : Int) (dcdev : Nat),
      srcSafe src = true → pairSafe src dcur = true →
      tmpHazOK src tmp = true →
      stableAt cfg sp dp src dcur tmp sdev ddev dcdev
  | .reg m c, sp, dp, dcur, tmp, sdev, ddev, dcdev => fun _ _ htmp =>
    regStable cfg hF hS hM hI sp dp m c dcur tmp sdev ddev dcdev htmp
  | .sym m t, sp, dp, dcur, tmp, sdev, ddev, dcdev => fun _ _ htmp =>
    symStable cfg hF hS hM hI sp dp m t dcur tmp sdev ddev dcdev htmp
  | .dev m b r, sp, dp, dcur, tmp, sdev, ddev, dcdev => fun _ _ htmp =>
    devStable cfg hF hS hM hI sp dp m b r dcur tmp sdev ddev dcdev htmp
  | .oth m, sp, dp, dcur, tmp, sdev, ddev, dcdev => fun _ _ _ =>
    othStable cfg hF hS hM hI sp dp m dcur tmp sdev ddev dcdev
  | .dir m ents, sp, dp, dcur, tmp, sdev, ddev, dcdev =>
    fun hsrc hpair _ =>
      dirStable cfg hF hS hA hN hC hM hI sp dp m ents dcur tmp sdev ddev
        dcdev (entsStable cfg hF hS hA hN hC hM hI ents sp dp) hsrc hpair

theorem entsStable (cfg : Config) (hF : cfg.forceOpt = false)
    (hS : cfg.safetyOpt = true) (hA : cfg.askConfirmation = false)
    (hN : cfg.noRemoveOpt = false) (hC : cfg.useCpFile = none)
    (hM : cfg.useMD5 = false) (hI : cfg.useFSMID = false) :
    ∀ (ents : Ents) (sp dp : String), entsIdem cfg sp dp ents
  | .nil, sp, dp => nilStable cfg sp dp
  | .cons n child rest, sp, dp =>
    consStable cfg sp dp n child rest
      (fun sp' dp' dcur tmp sdev ddev dcdev h1 h2 h3 =>
        objStable cfg hF hS hA hN hC hM hI child sp' dp' dcur tmp sdev
          ddev dcdev h1 h2 h3)
      (entsStable cfg hF hS hA hN hC hM hI rest sp dp)

end

/-! ## C3 — idempotence of replication -/

def mCX : Meta :=
  { perm := 0o755, uid := 0, gid := 0, mtime := 9, flags := 0, dev := 3 }

def mCX2 : Meta :=
  { perm := 0o755, uid := 0, gid := 0, mtime := 9, flags := 0, dev := 7 }

def mCX3 : Meta :=
  { perm := 0o755, uid := 0, gid := 0, mtime := 1, flags := 0, dev := 7 }

/-- A source directory holding one regular file `x`. -/
def srcCX : FObj := .dir mCX (.cons "x" fileC1 .nil)

/-- A destination directory with a non-empty directory parked at `x`'s
work path `x.tmp` (its content `y` lives on the destination device, so
the pruner can clear it). -/
def dstCX : FObj :=
  .dir mCX2 (.cons "x.tmp" (.dir mCX3 (.cons "y" (.reg mCX3 [5]) .nil))
    .nil)

/-- **C3 counterexample**: idempotence does not hold for arbitrary
destinations, even in plain batch mode.  With source `dir{x}` and
destination `dir{x.tmp/y}` the first run's copy of `x` fails against
the non-empty directory parked at its work path `x.tmp` (the `O_EXCL`
create fails, the `hc_remove` — POSIX `remove()` — fails with
`ENOTEMPTY`, and the reopen fails again); the pruner then removes the
parked directory recursively, so the second run performs one copy. -/
theorem c3_counterexample :
    (doCopyTop cfgBatch "S" (some srcCX)
      (.dest "D" ((doCopyTop cfgBatch "S" (some srcCX)
        (.dest "D" (some dstCX) none) 7).dst) none) 7).copied = 1 := by
  decide

/-- **C3** (amended): in batch mode (no `-f`, `-s` safety on, no
ask-confirmation, removals enabled, no `.cpignore`, no MD5, no FSMID)
and in the absence of `.tmp` work-path collisions — hygienic source
names (`srcSafe`), no non-empty destination directory parked at a work
path (`pairSafe`; an empty one is cleared by `remove()`), and a clear
top-level work path (`tmpHazOK`) — a second `DoCopy` over the
destination left by a first one copies nothing, removes nothing,
reports no errors, and leaves the destination object unchanged,
whatever now sits at the top-level work path. -/
theorem c3_second_run_copies_nothing (cfg : Config)
    (hF : cfg.forceOpt = false) (hS : cfg.safetyOpt = true)
    (hA : cfg.askConfirmation = false) (hN : cfg.noRemoveOpt = false)
    (hC : cfg.useCpFile = none) (hM : cfg.useMD5 = false)
    (hI : cfg.useFSMID = false)
    (sp dp : String) (src : FObj) (dst0 tmp0 : Option FObj) (dc : Nat)
    (hsrc : srcSafe src = true) (hpair : pairSafe src dst0 = true)
    (htmp : tmpHazOK src tmp0 = true) :
    ∀ tmp2 : Option FObj,
      (doCopyTop cfg sp (some src) (.dest dp
        ((doCopyTop cfg sp (some src) (.dest dp dst0 tmp0) dc).dst) tmp2)
        dc).copied = 0 ∧
      (doCopyTop cfg sp (some src) (.dest dp
        ((doCopyTop cfg sp (some src) (.dest dp dst0 tmp0) dc).dst) tmp2)
        dc).removed = 0 ∧
      (doCopyTop cfg sp (some src) (.dest dp
        ((doCopyTop cfg sp (some src) (.dest dp dst0 tmp0) dc).dst) tmp2)
        dc).r = 0 ∧
      (doCopyTop cfg sp (some src) (.dest dp
        ((doCopyTop cfg sp (some src) (.dest dp dst0 tmp0) dc).dst) tmp2)
        dc).dst =
        (doCopyTop cfg sp (some src) (.dest dp dst0 tmp0) dc).dst := by
  intro tmp2
  have h := objStable cfg hF hS hA hN hC hM hI src sp dp dst0 tmp0
    (-1) (-1) dc hsrc hpair htmp
  have h2 := h.2.2 tmp2
  exact ⟨h2.2.2.1, h2.2.2.2.1, h2.2.1, h2.1⟩

theorem c3_second_run_copies_nothing_witness :
    (doCopyTop cfgBatch "S" (some srcCX) (.dest "D"
      ((doCopyTop cfgBatch "S" (some srcCX) (.dest "D" none none) 7).dst)
      none) 7).copied = 0 ∧
    (doCopyTop cfgBatch "S" (some srcCX) (.dest "D"
      ((doCopyTop cfgBatch "S" (some srcCX) (.dest "D" none none) 7).dst)
      none) 7).removed = 0 ∧
    (doCopyTop cfgBatch "S" (some srcCX) (.dest "D"
      ((doCopyTop cfgBatch "S" (some srcCX) (.dest "D" none none) 7).dst)
      none) 7).r = 0 ∧
    (doCopyTop cfgBatch "S" (some srcCX) (.dest "D"
      ((doCopyTop cfgBatch "S" (some srcCX) (.dest "D" none none) 7).dst)
      none) 7).dst =
      (doCopyTop cfgBatch "S" (some srcCX) (.dest "D" none none) 7).dst :=
  c3_second_run_copies_nothing cfgBatch rfl rfl rfl rfl rfl rfl rfl
    "S" "D" srcCX none none 7 (by decide) (by decide) (by decide) none

end Cpdup
